import Mathlib

/-!
# readBMP

A shallow embedding of `src/Main.cpp` (the class `BMPImage`: `openBMP`, `saveBMP`,
`getPixelIndex`, `setPixelBlack`, `hasMoreThanTwoColors`, `convertToBlackAndWhite`, `drawLine`,
`drawCross`, `displayBMP`) and theorems about it.

Modelling conventions

* A file is the list of its bytes; a byte is a `Fin 256`.  A file that cannot be opened is
  `none`.
* `uint16_t` / `uint32_t` values are natural numbers, `int` / `int32_t` values are integers;
  every conversion and every operation that can leave the 32-bit range is written with an
  explicit reduction modulo `2^32` (`toUInt32`, `toInt32`, `wrapInt32`).  `int` is 32 bits
  wide and `size_t` 64 bits.
* The two header structs are packed (`#pragma pack(push, 1)`) and the target is little-endian,
  so reading a struct from the stream reads its fields at fixed offsets, least significant
  byte first.
* `std::vector::operator[]` outside the vector is undefined behaviour; the operations that
  index the pixel buffer return `Option`, with `none` for an access outside the buffer.
* `throw runtime_error(...)` is an `Except.error`; the error value records which `throw`
  statement was reached.
* `double` arithmetic is IEEE 754 binary64 with rounding to nearest, ties to even; the values
  of line 127 are represented exactly, as multiples of `2^-56`.
* The tasks of `convertToBlackAndWhite` write disjoint bytes of the new buffer and read only
  the old one; they are run one after the other, in the order in which they are started.
* The loop of `drawLine` has no bound in the source.  It is run for at most a given number of
  iterations, and its result records the coordinates passed to `setPixelBlack` and whether the
  `break` was reached.  Signed overflow wraps, as all `int` arithmetic here.

The file has three parts: the embedding of the source, the definitions that the statements
use (layout of a file, pixels of an image, sample inputs), and the lemmas and theorems.
-/

namespace ReadBMP

/-! # The embedding of `Main.cpp` -/

/-- One byte (`uint8_t`, or one `char` of a binary stream). -/
abbrev Byte := Fin 256

/-! ## Machine integers -/

/-- Conversion of an integer value to `uint32_t`: its residue modulo `2^32`. -/
def toUInt32 (i : Int) : Nat := (i % 4294967296).toNat

/-- The value of a 32-bit pattern read as `int` (two's complement). -/
def toInt32 (n : Nat) : Int :=
  if n % 4294967296 < 2147483648 then ((n % 4294967296 : Nat) : Int)
  else ((n % 4294967296 : Nat) : Int) - 4294967296

/-- The result of an `int` operation whose mathematical value is `i`. -/
def wrapInt32 (i : Int) : Int := toInt32 (toUInt32 i)

/-- Bitwise `&` of two `int` values, taken on their 32-bit patterns. -/
def andInt32 (a b : Int) : Int := toInt32 (toUInt32 a &&& toUInt32 b)

/-- Truncation of a byte value to `uint8_t`. -/
def byteOf (n : Nat) : Byte := ⟨n % 256, Nat.mod_lt _ (by decide)⟩

/-! ## Headers and image (lines 12-47) -/

/-- The struct `BMPFileHeader` (14 bytes, packed). -/
structure BMPFileHeader where
  fileType : Nat := 0x4D42
  fileSize : Nat := 0
  reserved1 : Nat := 0
  reserved2 : Nat := 0
  offsetData : Nat := 54
  deriving DecidableEq

/-- The struct `BMPInfoHeader` (40 bytes, packed). -/
structure BMPInfoHeader where
  size : Nat := 40
  width : Int := 0
  height : Int := 0
  planes : Nat := 1
  bitCount : Nat := 24
  compression : Nat := 0
  imageSize : Nat := 0
  xPixelsPerMeter : Int := 0
  yPixelsPerMeter : Int := 0
  colorsUsed : Nat := 0
  colorsImportant : Nat := 0
  deriving DecidableEq

/-- `sizeof(BMPFileHeader)`. -/
def sizeofFileHeader : Nat := 14

/-- `sizeof(BMPInfoHeader)`. -/
def sizeofInfoHeader : Nat := 40

/-- The data members of `BMPImage` that the methods change. -/
structure BMPImage where
  fileHeader : BMPFileHeader := {}
  infoHeader : BMPInfoHeader := {}
  rowStride : Nat := 0
  pixelData : List Byte := []
  deriving DecidableEq

/-- The `throw` statements of `openBMP` and `saveBMP`, in source order. -/
inductive BMPError where
  /-- line 67, the input file cannot be opened -/
  | openFailed
  /-- line 71, short read of the file header -/
  | fileHeaderRead
  /-- line 74, short read of the info header -/
  | infoHeaderRead
  /-- line 77, bit count other than 24 and 32 -/
  | unsupportedFormat
  /-- line 85, short read of the pixel data -/
  | pixelRead
  /-- line 91, the output file cannot be created -/
  | createFailed
  deriving DecidableEq

/-- The three error classes of the specification. -/
inductive ErrorKind where
  | ioError
  | formatError
  | unsupportedFormatError
  deriving DecidableEq

/-- The class of the specification's taxonomy that each `throw` belongs to. -/
def BMPError.kind : BMPError → ErrorKind
  | .openFailed => .ioError
  | .createFailed => .ioError
  | .fileHeaderRead => .formatError
  | .infoHeaderRead => .formatError
  | .pixelRead => .formatError
  | .unsupportedFormat => .unsupportedFormatError

/-! ## Byte layout of the structs -/

/-- The `uint16_t` stored at byte offset `off` of `bs`. -/
def u16At (bs : List Byte) (off : Nat) : Nat :=
  (bs.getD off 0).val + 256 * (bs.getD (off + 1) 0).val

/-- The `uint32_t` stored at byte offset `off` of `bs`. -/
def u32At (bs : List Byte) (off : Nat) : Nat :=
  (bs.getD off 0).val + 256 * (bs.getD (off + 1) 0).val
    + 65536 * (bs.getD (off + 2) 0).val + 16777216 * (bs.getD (off + 3) 0).val

/-- The `int32_t` stored at byte offset `off` of `bs`. -/
def i32At (bs : List Byte) (off : Nat) : Int := toInt32 (u32At bs off)

/-- The object representation of a `uint16_t`. -/
def encU16 (n : Nat) : List Byte := [byteOf n, byteOf (n / 256)]

/-- The object representation of a `uint32_t`. -/
def encU32 (n : Nat) : List Byte :=
  [byteOf n, byteOf (n / 256), byteOf (n / 65536), byteOf (n / 16777216)]

/-- The object representation of an `int32_t`. -/
def encI32 (i : Int) : List Byte := encU32 (toUInt32 i)

/-- The `BMPFileHeader` whose object representation is the 14 bytes `bs`. -/
def readFileHeader (bs : List Byte) : BMPFileHeader where
  fileType := u16At bs 0
  fileSize := u32At bs 2
  reserved1 := u16At bs 6
  reserved2 := u16At bs 8
  offsetData := u32At bs 10

/-- The `BMPInfoHeader` whose object representation is the 40 bytes `bs`. -/
def readInfoHeader (bs : List Byte) : BMPInfoHeader where
  size := u32At bs 0
  width := i32At bs 4
  height := i32At bs 8
  planes := u16At bs 12
  bitCount := u16At bs 14
  compression := u32At bs 16
  imageSize := u32At bs 20
  xPixelsPerMeter := i32At bs 24
  yPixelsPerMeter := i32At bs 28
  colorsUsed := u32At bs 32
  colorsImportant := u32At bs 36

/-- The 14 bytes of a `BMPFileHeader` object. -/
def writeFileHeader (h : BMPFileHeader) : List Byte :=
  encU16 h.fileType ++ encU32 h.fileSize ++ encU16 h.reserved1 ++ encU16 h.reserved2
    ++ encU32 h.offsetData

/-- The 40 bytes of a `BMPInfoHeader` object. -/
def writeInfoHeader (h : BMPInfoHeader) : List Byte :=
  encU32 h.size ++ encI32 h.width ++ encI32 h.height ++ encU16 h.planes ++ encU16 h.bitCount
    ++ encU32 h.compression ++ encU32 h.imageSize ++ encI32 h.xPixelsPerMeter
    ++ encI32 h.yPixelsPerMeter ++ encU32 h.colorsUsed ++ encU32 h.colorsImportant

/-! ## `openBMP` (lines 64-86) and `saveBMP` (lines 88-101) -/

/-- Line 82: `(infoHeader.width * (infoHeader.bitCount / 8) + 3) & ~3`, evaluated in `int`
and stored in the `uint32_t rowStride`. -/
def computeRowStride (width : Int) (bitCount : Nat) : Nat :=
  toUInt32 (andInt32 (wrapInt32 (wrapInt32 (width * ((bitCount / 8 : Nat) : Int)) + 3)) (-4))

/-- Line 83: `rowStride * infoHeader.height`, evaluated in `unsigned int` (the `int32_t`
operand is converted to unsigned). -/
def computeBufferSize (rowStride : Nat) (height : Int) : Nat :=
  (rowStride * toUInt32 height) % 4294967296

/-- The method `openBMP`.  `file` is the content of the named file, `none` when the stream
cannot be opened.  A read of `n` bytes at position `p` delivers `(bytes.drop p).take n`, and
`gcount()` is the length of what was delivered. -/
def openBMP (file : Option (List Byte)) : Except BMPError BMPImage :=
  match file with
  | none => .error .openFailed
  | some bytes =>
    let fhBytes := bytes.take sizeofFileHeader
    if fhBytes.length ≠ sizeofFileHeader then .error .fileHeaderRead
    else
      let ihBytes := (bytes.drop sizeofFileHeader).take sizeofInfoHeader
      if ihBytes.length ≠ sizeofInfoHeader then .error .infoHeaderRead
      else
        let fileHeader := readFileHeader fhBytes
        let infoHeader := readInfoHeader ihBytes
        if infoHeader.bitCount ≠ 24 ∧ infoHeader.bitCount ≠ 32 then .error .unsupportedFormat
        else
          let rowStride := computeRowStride infoHeader.width infoHeader.bitCount
          let size := computeBufferSize rowStride infoHeader.height
          let pixels := (bytes.drop fileHeader.offsetData).take size
          if pixels.length ≠ size then .error .pixelRead
          else .ok { fileHeader := fileHeader, infoHeader := infoHeader,
                     rowStride := rowStride, pixelData := pixels }

/-- The method `saveBMP`.  `canCreate` tells whether the output stream opens.  The result is
the image after the call (the two size fields are assigned before writing) and the bytes
written to the file. -/
def saveBMP (canCreate : Bool) (img : BMPImage) : Except BMPError (BMPImage × List Byte) :=
  if !canCreate then .error .createFailed
  else
    let fileHeader := { img.fileHeader with
      fileSize := (sizeofFileHeader + sizeofInfoHeader + img.pixelData.length) % 4294967296 }
    let infoHeader := { img.infoHeader with imageSize := img.pixelData.length % 4294967296 }
    .ok ({ img with fileHeader := fileHeader, infoHeader := infoHeader },
         writeFileHeader fileHeader ++ writeInfoHeader infoHeader ++ img.pixelData)

/-! ## Pixel addressing (lines 49-51) and buffer accesses -/

/-- The method `getPixelIndex`: `(y * rowStride) + (x * (infoHeader.bitCount / 8))`.  The
product with the `uint32_t rowStride` and the sum are taken in `unsigned int`, the product
`x * (bitCount / 8)` in `int`, and the result is converted to the return type `int`. -/
def getPixelIndex (img : BMPImage) (x y : Int) : Int :=
  toInt32 ((toUInt32 y * img.rowStride) % 4294967296
    + toUInt32 (wrapInt32 (x * ((img.infoHeader.bitCount / 8 : Nat) : Int))))

/-- The read `pixelData[index]` with an `int` index: the index is converted to `size_t`, so
a negative index lies outside every vector. -/
def readByte (data : List Byte) (index : Int) : Option Byte :=
  if 0 ≤ index then data[index.toNat]? else none

/-- The write `pixelData[index] = v` with an `int` index. -/
def writeByte (data : List Byte) (index : Int) (v : Byte) : Option (List Byte) :=
  if 0 ≤ index ∧ index.toNat < data.length then some (data.set index.toNat v) else none

/-! ## `hasMoreThanTwoColors` (lines 103-115) -/

/-- The test of line 110, negated: the pixel is pure white or pure black. -/
def isBlackOrWhite (red green blue : Byte) : Bool :=
  (red = 255 && green = 255 && blue = 255) || (red = 0 && green = 0 && blue = 0)

/-- The inner loop of `hasMoreThanTwoColors` from column `x` with `n` columns left:
`some true` when `return true` is reached, `some false` when the row is exhausted. -/
def scanRow (img : BMPImage) (y : Int) : Nat → Nat → Option Bool
  | _, 0 => some false
  | x, n + 1 =>
    let index := getPixelIndex img x y
    match readByte img.pixelData index with
    | none => none
    | some blue =>
      match readByte img.pixelData (wrapInt32 (index + 1)) with
      | none => none
      | some green =>
        match readByte img.pixelData (wrapInt32 (index + 2)) with
        | none => none
        | some red =>
          if !(isBlackOrWhite red green blue) then some true
          else scanRow img y (x + 1) n

/-- The outer loop of `hasMoreThanTwoColors` from row `y` with `n` rows left. -/
def scanRows (img : BMPImage) : Int → Nat → Option Bool
  | _, 0 => some false
  | y, n + 1 =>
    match scanRow img y 0 img.infoHeader.width.toNat with
    | none => none
    | some true => some true
    | some false => scanRows img (y + 1) n

/-- The method `hasMoreThanTwoColors`; `none` when a pixel access leaves the buffer. -/
def hasMoreThanTwoColors (img : BMPImage) : Option Bool :=
  scanRows img 0 img.infoHeader.height.toNat

/-- The `isBinary` of the specification: the negation of `hasMoreThanTwoColors`. -/
def isBinary (img : BMPImage) : Option Bool :=
  (hasMoreThanTwoColors img).map (fun b => !b)

/-! ## Double-precision arithmetic of line 127

Every `double` that occurs in `0.2126 * red + 0.7152 * green + 0.0722 * blue` is a
non-negative multiple of `2^-56` below 256, so it is represented by the natural number of
units of `2^-56` it holds.  Each operation is the exact operation followed by rounding to 53
significant bits, ties to even (IEEE 754 binary64, default rounding, no contraction). -/

/-- Number of binary digits of `n`, by halving; the first argument bounds the recursion. -/
def bitLenAux : Nat → Nat → Nat
  | 0, _ => 0
  | fuel + 1, n => if n = 0 then 0 else bitLenAux fuel (n / 2) + 1

/-- Number of binary digits of `n`. -/
def bitLen (n : Nat) : Nat := bitLenAux n n

/-- The value `a / b`, in units of `2^-56`, rounded to 53 significant bits, ties to even.
Exact for every `a / b` of at least `2^52` units and for every integer `a / b`. -/
def roundNearestEven (a b : Nat) : Nat :=
  let s := bitLen (a / b) - 53
  let q := a / (b * 2 ^ s)
  let r := a % (b * 2 ^ s)
  if 2 * r < b * 2 ^ s ∨ (2 * r = b * 2 ^ s ∧ q % 2 = 0) then q * 2 ^ s else (q + 1) * 2 ^ s

/-- Rounding of an exact result of `n` units to a `double`. -/
def roundDouble (n : Nat) : Nat := roundNearestEven n 1

/-- The `double` nearest to the decimal literal `num / 10000`. -/
def doubleOfDecimal (num : Nat) : Nat := roundNearestEven (num * 2 ^ 56) 10000

/-- The `double` of an integer value below 256. -/
def doubleOfInt (n : Nat) : Nat := n * 2 ^ 56

/-- Line 127: `0.2126 * red + 0.7152 * green + 0.0722 * blue`, in units of `2^-56`. -/
def brightness (red green blue : Byte) : Nat :=
  roundDouble
    (roundDouble (roundDouble (doubleOfDecimal 2126 * red.val)
        + roundDouble (doubleOfDecimal 7152 * green.val))
      + roundDouble (doubleOfDecimal 722 * blue.val))

/-- The member `brightness_factor = 128.0`, in units of `2^-56`. -/
def brightness_factor : Nat := doubleOfInt 128

/-! ## `convertToBlackAndWhite` (lines 117-161) -/

/-- The body of the inner loop of `convertRow`: the three channels are read from the
image's buffer and the three results are written to `newPixelData`. -/
def convertPixel (img : BMPImage) (x y : Int) (newPixelData : List Byte) :
    Option (List Byte) :=
  let index := getPixelIndex img x y
  match readByte img.pixelData index with
  | none => none
  | some blue =>
    match readByte img.pixelData (wrapInt32 (index + 1)) with
    | none => none
    | some green =>
      match readByte img.pixelData (wrapInt32 (index + 2)) with
      | none => none
      | some red =>
        let v : Byte := if brightness red green blue < brightness_factor then 0 else 255
        match writeByte newPixelData index v with
        | none => none
        | some d1 =>
          match writeByte d1 (wrapInt32 (index + 1)) v with
          | none => none
          | some d2 => writeByte d2 (wrapInt32 (index + 2)) v

/-- The inner loop of `convertRow` from column `x` with `n` columns left. -/
def convertCols (img : BMPImage) (y : Int) : Nat → Nat → List Byte → Option (List Byte)
  | _, 0, d => some d
  | x, n + 1, d =>
    match convertPixel img x y d with
    | none => none
    | some d' => convertCols img y (x + 1) n d'

/-- The outer loop of `convertRow` from row `y` with `n` rows left. -/
def convertRows (img : BMPImage) : Int → Nat → List Byte → Option (List Byte)
  | _, 0, d => some d
  | y, n + 1, d =>
    match convertCols img y 0 img.infoHeader.width.toNat d with
    | none => none
    | some d' => convertRows img (y + 1) n d'

/-- The lambda `convertRow(startRow, endRow, newPixelData)`. -/
def convertRow (img : BMPImage) (startRow endRow : Int) (newPixelData : List Byte) :
    Option (List Byte) :=
  convertRows img startRow (endRow - startRow).toNat newPixelData

/-- Lines 147-152: the row range of task `i` out of `numThreads`.  `height / numThreads` and
`i * rowsPerThread` are taken in `unsigned int` and stored in `int` variables. -/
def rowRange (height : Int) (numThreads i : Nat) : Int × Int :=
  let rowsPerThread := toInt32 (toUInt32 height / numThreads)
  let startRow := toInt32 ((i * toUInt32 rowsPerThread) % 4294967296)
  let endRow := if i = numThreads - 1 then height else wrapInt32 (startRow + rowsPerThread)
  (startRow, endRow)

/-- The tasks of `convertToBlackAndWhite`, run one after the other on the shared
`newPixelData`, task 0 first. -/
def runTasks (img : BMPImage) : List (Int × Int) → List Byte → Option (List Byte)
  | [], d => some d
  | (startRow, endRow) :: rest, d =>
    match convertRow img startRow endRow d with
    | none => none
    | some d' => runTasks img rest d'

/-- The method `convertToBlackAndWhite`.  `hardwareConcurrency` is the value returned by
`thread::hardware_concurrency()`.  `newPixelData` starts as a copy of the buffer and replaces
it when all tasks are done. -/
def convertToBlackAndWhite (hardwareConcurrency : Nat) (img : BMPImage) : Option BMPImage :=
  let numThreads := if hardwareConcurrency = 0 then 1 else hardwareConcurrency
  let ranges := (List.range numThreads).map (rowRange img.infoHeader.height numThreads)
  match runTasks img ranges img.pixelData with
  | none => none
  | some newPixelData => some { img with pixelData := newPixelData }

/-! ## `setPixelBlack` (lines 53-61), `drawLine` (lines 163-185) and `drawCross` (lines 187-191)

The loop of `drawLine` is run for at most a given number of iterations; the result tells
whether the loop has returned. -/

/-- The method `setPixelBlack`: a coordinate outside the image returns at line 55 and leaves
the image as it is; otherwise the three bytes from `getPixelIndex(x, y)` on are set to 0.
`none` when one of the writes leaves the buffer. -/
def setPixelBlack (img : BMPImage) (x y : Int) : Option BMPImage :=
  if x < 0 ∨ x ≥ img.infoHeader.width ∨ y < 0 ∨ y ≥ img.infoHeader.height then some img
  else
    let index := getPixelIndex img x y
    match writeByte img.pixelData index 0 with
    | none => none
    | some d1 =>
      match writeByte d1 (wrapInt32 (index + 1)) 0 with
      | none => none
      | some d2 =>
        match writeByte d2 (wrapInt32 (index + 2)) 0 with
        | none => none
        | some d3 => some { img with pixelData := d3 }

/-- What a run of the loop of `drawLine` has done: the image it leaves, the arguments of its
calls of `setPixelBlack` in order, and whether the `break` of line 173 was reached. -/
structure LineRun where
  image : BMPImage
  visited : List (Int × Int)
  finished : Bool
  deriving DecidableEq

/-- The loop of `drawLine` (lines 170-184), run for at most the given number of iterations
from the state `x1`, `y1`, `err`.  `x2`, `y2`, `dx`, `dy`, `sx`, `sy` do not change.  `none`
when a call of `setPixelBlack` writes outside the buffer. -/
def drawLineLoop (x2 y2 dx dy sx sy : Int) : Nat → BMPImage → Int → Int → Int → Option LineRun
  | 0, img, _, _, _ => some { image := img, visited := [], finished := false }
  | n + 1, img, x1, y1, err =>
    match setPixelBlack img x1 y1 with
    | none => none
    | some img1 =>
      if x1 = x2 ∧ y1 = y2 then some { image := img1, visited := [(x1, y1)], finished := true }
      else
        let e2 := wrapInt32 (2 * err)
        let stepX : Bool := decide (e2 > wrapInt32 (-dy))
        let stepY : Bool := decide (e2 < dx)
        let err1 := if stepX then wrapInt32 (err - dy) else err
        let x1n := if stepX then wrapInt32 (x1 + sx) else x1
        let err2 := if stepY then wrapInt32 (err1 + dx) else err1
        let y1n := if stepY then wrapInt32 (y1 + sy) else y1
        match drawLineLoop x2 y2 dx dy sx sy n img1 x1n y1n err2 with
        | none => none
        | some r => some { r with visited := (x1, y1) :: r.visited }

/-- The method `drawLine`, its loop run for at most `maxIterations` iterations.  All
arithmetic is `int` arithmetic. -/
def drawLine (maxIterations : Nat) (img : BMPImage) (x1 y1 x2 y2 : Int) : Option LineRun :=
  let dx := wrapInt32 ((wrapInt32 (x2 - x1)).natAbs : Int)
  let dy := wrapInt32 ((wrapInt32 (y2 - y1)).natAbs : Int)
  let sx : Int := if x1 < x2 then 1 else -1
  let sy : Int := if y1 < y2 then 1 else -1
  let err := wrapInt32 (dx - dy)
  drawLineLoop x2 y2 dx dy sx sy maxIterations img x1 y1 err

/-- The method `drawCross`: two calls of `drawLine`, the second one on the image that the
first one leaves, and only when the first one has returned. -/
def drawCross (maxIterations : Nat) (img : BMPImage) : Option LineRun :=
  match drawLine maxIterations img 0 0 (wrapInt32 (img.infoHeader.width - 1))
      (wrapInt32 (img.infoHeader.height - 1)) with
  | none => none
  | some r1 =>
    if !r1.finished then some r1
    else
      match drawLine maxIterations r1.image (wrapInt32 (r1.image.infoHeader.width - 1)) 0 0
          (wrapInt32 (r1.image.infoHeader.height - 1)) with
      | none => none
      | some r2 =>
        some { image := r2.image, visited := r1.visited ++ r2.visited, finished := r2.finished }

/-! ## `displayBMP` (lines 193-215) -/

/-- The member `BLACK = '#'`. -/
def BLACK : Char := Char.ofNat 35

/-- The member `WHITE`, a blank. -/
def WHITE : Char := Char.ofNat 32

/-- The inner loop of `displayBMP` (lines 205-212) from column `x` with `n` columns left:
the characters written for row `y`. -/
def renderCols (img : BMPImage) (y : Int) : Nat → Nat → Option (List Char)
  | _, 0 => some []
  | x, n + 1 =>
    let index := getPixelIndex img x y
    match readByte img.pixelData index with
    | none => none
    | some blue =>
      match readByte img.pixelData (wrapInt32 (index + 1)) with
      | none => none
      | some green =>
        match readByte img.pixelData (wrapInt32 (index + 2)) with
        | none => none
        | some red =>
          match renderCols img y (x + 1) n with
          | none => none
          | some cs =>
            some ((if red = 255 ∧ green = 255 ∧ blue = 255 then WHITE else BLACK) :: cs)

/-- The outer loop of `displayBMP` (lines 204-214), `for (y = ...; y >= 0; y -= 2)`, from
row `y`; the first argument bounds the number of iterations. -/
def renderRows (img : BMPImage) : Nat → Int → Option (List (List Char))
  | 0, _ => some []
  | n + 1, y =>
    if y ≥ 0 then
      match renderCols img y 0 img.infoHeader.width.toNat with
      | none => none
      | some line =>
        match renderRows img n (wrapInt32 (y - 2)) with
        | none => none
        | some rest => some (line :: rest)
    else some []

/-- What a call of `displayBMP` has done: the image it leaves, the rows of characters it has
written, and whether it has returned. -/
structure Display where
  image : BMPImage
  rows : List (List Char)
  finished : Bool
  deriving DecidableEq

/-- The method `displayBMP`, without the two messages: the conversion when
`hasMoreThanTwoColors` returns true, the cross when `drawCross` is set, and the rows written.
The loop of lines 204-214 starts at `height - 1` and goes down by 2, so it makes at most
`height` iterations. -/
def displayBMP (hardwareConcurrency maxIterations : Nat) (img : BMPImage) (drawCross : Bool) :
    Option Display :=
  match hasMoreThanTwoColors img with
  | none => none
  | some more =>
    match (if more then convertToBlackAndWhite hardwareConcurrency img else some img) with
    | none => none
    | some img1 =>
      match (if drawCross then ReadBMP.drawCross maxIterations img1
             else some { image := img1, visited := [], finished := true }) with
      | none => none
      | some run =>
        if !run.finished then some { image := run.image, rows := [], finished := false }
        else
          match renderRows run.image run.image.infoHeader.height.toNat
              (wrapInt32 (run.image.infoHeader.height - 1)) with
          | none => none
          | some rows => some { image := run.image, rows := rows, finished := true }

/-! # Definitions for the statements -/

deriving instance DecidableEq for Except

/-! ## Layout of a file and ranges of the fields -/

/-- The file header as laid out in a file: the packed struct starts at byte 0. -/
def fileHeaderAt (bytes : List Byte) : BMPFileHeader where
  fileType := u16At bytes 0
  fileSize := u32At bytes 2
  reserved1 := u16At bytes 6
  reserved2 := u16At bytes 8
  offsetData := u32At bytes 10

/-- The info header as laid out in a file: the packed struct starts at byte 14. -/
def infoHeaderAt (bytes : List Byte) : BMPInfoHeader where
  size := u32At bytes 14
  width := i32At bytes 18
  height := i32At bytes 22
  planes := u16At bytes 26
  bitCount := u16At bytes 28
  compression := u32At bytes 30
  imageSize := u32At bytes 34
  xPixelsPerMeter := i32At bytes 38
  yPixelsPerMeter := i32At bytes 42
  colorsUsed := u32At bytes 46
  colorsImportant := u32At bytes 50

/-- The info header read at the offsets that the file-format table of the specification
gives: `bitCount` at 30, `compression` at 32, `imageSize` at 36, the resolutions at 40 and 44
and the colour counts at 48 and 52. -/
def specTableInfoHeader (bytes : List Byte) : BMPInfoHeader where
  size := u32At bytes 14
  width := i32At bytes 18
  height := i32At bytes 22
  planes := u16At bytes 26
  bitCount := u16At bytes 30
  compression := u32At bytes 32
  imageSize := u32At bytes 36
  xPixelsPerMeter := i32At bytes 40
  yPixelsPerMeter := i32At bytes 44
  colorsUsed := u32At bytes 48
  colorsImportant := u32At bytes 52

/-- The buffer length that `openBMP` computes from the headers of `bytes`. -/
def bufferSizeAt (bytes : List Byte) : Nat :=
  computeBufferSize (computeRowStride (infoHeaderAt bytes).width (infoHeaderAt bytes).bitCount)
    (infoHeaderAt bytes).height

/-- Bytes per row with padding to a 4-byte boundary, `ceil(width * bytesPerPixel / 4) * 4`,
as a natural number. -/
def paddedRowBytes (width : Int) (bitCount : Nat) : Nat :=
  (width.toNat * (bitCount / 8) + 3) / 4 * 4

/-- The fields of a `BMPFileHeader` object lie in the ranges of their C++ types. -/
def BMPFileHeader.InRange (h : BMPFileHeader) : Prop :=
  h.fileType < 65536 ∧ h.fileSize < 4294967296 ∧ h.reserved1 < 65536 ∧ h.reserved2 < 65536
    ∧ h.offsetData < 4294967296

/-- The fields of a `BMPInfoHeader` object lie in the ranges of their C++ types. -/
def BMPInfoHeader.InRange (h : BMPInfoHeader) : Prop :=
  h.size < 4294967296 ∧ (-2147483648 ≤ h.width ∧ h.width < 2147483648)
    ∧ (-2147483648 ≤ h.height ∧ h.height < 2147483648) ∧ h.planes < 65536 ∧ h.bitCount < 65536
    ∧ h.compression < 4294967296 ∧ h.imageSize < 4294967296
    ∧ (-2147483648 ≤ h.xPixelsPerMeter ∧ h.xPixelsPerMeter < 2147483648)
    ∧ (-2147483648 ≤ h.yPixelsPerMeter ∧ h.yPixelsPerMeter < 2147483648)
    ∧ h.colorsUsed < 4294967296 ∧ h.colorsImportant < 4294967296

instance (h : BMPFileHeader) : Decidable h.InRange := by
  unfold BMPFileHeader.InRange; infer_instance

instance (h : BMPInfoHeader) : Decidable h.InRange := by
  unfold BMPInfoHeader.InRange; infer_instance

/-- Decode, encode, decode again: `openBMP`, then `saveBMP` on the image, then `openBMP` on
the bytes written.  The result is the first and the second decoded image. -/
def roundTrip (bytes : List Byte) : Except BMPError (BMPImage × BMPImage) :=
  match openBMP (some bytes) with
  | .error e => .error e
  | .ok img =>
    match saveBMP true img with
    | .error e => .error e
    | .ok (_, out) =>
      match openBMP (some out) with
      | .error e => .error e
      | .ok img2 => .ok (img, img2)

/-! ## Pixels of a well-formed image -/

/-- A well-formed image: positive dimensions, 24 or 32 bits per pixel, rows padded to four
bytes, and a buffer of `rowStride * height` bytes. -/
def WellFormed (img : BMPImage) : Prop :=
  0 < img.infoHeader.width ∧ 0 < img.infoHeader.height ∧
    (img.infoHeader.bitCount = 24 ∨ img.infoHeader.bitCount = 32) ∧
    img.rowStride = paddedRowBytes img.infoHeader.width img.infoHeader.bitCount ∧
    img.pixelData.length = img.rowStride * img.infoHeader.height.toNat

instance (img : BMPImage) : Decidable (WellFormed img) := by
  unfold WellFormed; infer_instance

/-- Byte offset of pixel `(x, y)`: `y * rowStride + x * bytesPerPixel`. -/
def pixelOffset (img : BMPImage) (x y : Nat) : Nat :=
  y * img.rowStride + x * (img.infoHeader.bitCount / 8)

/-- The blue channel of pixel `(x, y)` in `data`. -/
def blueAt (img : BMPImage) (data : List Byte) (x y : Nat) : Byte :=
  data.getD (pixelOffset img x y) 0

/-- The green channel of pixel `(x, y)` in `data`. -/
def greenAt (img : BMPImage) (data : List Byte) (x y : Nat) : Byte :=
  data.getD (pixelOffset img x y + 1) 0

/-- The red channel of pixel `(x, y)` in `data`. -/
def redAt (img : BMPImage) (data : List Byte) (x y : Nat) : Byte :=
  data.getD (pixelOffset img x y + 2) 0

/-- Pixel `(x, y)` of `data` is pure black or pure white. -/
def pixelIsBlackOrWhite (img : BMPImage) (data : List Byte) (x y : Nat) : Bool :=
  isBlackOrWhite (redAt img data x y) (greenAt img data x y) (blueAt img data x y)

/-- Pixel `(x, y)` can be addressed: its three channel bytes lie in the buffer and their
offsets fit an `int`. -/
def Addressable (img : BMPImage) (x y : Nat) : Prop :=
  y < 2147483648 ∧ x * (img.infoHeader.bitCount / 8) < 2147483648 ∧
    pixelOffset img x y + 2 < img.pixelData.length ∧ pixelOffset img x y + 2 < 2147483648

/-! ## Exact luminance and the converted buffer -/

/-- The exact luminance `0.2126 R + 0.7152 G + 0.0722 B`, multiplied by 10000. -/
def luma10000 (red green blue : Byte) : Nat :=
  2126 * red.val + 7152 * green.val + 722 * blue.val

/-- The `(R, G, B)` values of exact luminance 128 for which line 127 evaluates to
`127.99999999999999`. -/
def blackTies : List (Nat × Nat × Nat) :=
  [(12, 175, 4), (15, 152, 223), (145, 118, 177), (159, 131, 7), (162, 108, 226), (176, 121, 56)]

/-- All `(R, G, B)` values of exact luminance 128. -/
def lumaTies : List (Nat × Nat × Nat) :=
  [(12, 175, 4), (15, 152, 223), (29, 165, 53), (46, 155, 102), (63, 145, 151), (80, 135, 200),
   (94, 148, 30), (97, 125, 249), (111, 138, 79), (128, 128, 128), (145, 118, 177),
   (159, 131, 7), (162, 108, 226), (176, 121, 56), (193, 111, 105), (210, 101, 154),
   (227, 91, 203), (241, 104, 33), (244, 81, 252)]

/-- The check of one `B`: modulo 1063 the equation `1063 R + 3576 G + 361 B = 640000`
determines `G` (640 is the inverse of 3576), hence `R`; if both are below 256 the triple is in
the table. -/
def tieCheck (b : Nat) : Bool :=
  let t := 640000 - 361 * b
  let g := (t * 640) % 1063
  if g < 256 ∧ 3576 * g ≤ t ∧ (t - 3576 * g) % 1063 = 0 ∧ (t - 3576 * g) / 1063 < 256 then
    lumaTies.contains ((t - 3576 * g) / 1063, g, b)
  else true

/-- The value that line 129 selects for pixel `(x, y)` of the image: 0 when the brightness
of its three channels is below `brightness_factor`, 255 otherwise. -/
def binarizedValue (img : BMPImage) (x y : Nat) : Byte :=
  if brightness (redAt img img.pixelData x y) (greenAt img img.pixelData x y)
      (blueAt img img.pixelData x y) < brightness_factor then 0 else 255

/-- The buffer `d` with the three bytes from `off` on set to `v`. -/
def write3 (d : List Byte) (off : Nat) (v : Byte) : List Byte :=
  ((d.set off v).set (off + 1) v).set (off + 2) v

/-- The effect of the inner loop of `convertRow` on `d`: the pixels `x, ..., x + n - 1` of
row `y` receive their binarized value. -/
def specCols (img : BMPImage) (y : Nat) : Nat → Nat → List Byte → List Byte
  | _, 0, d => d
  | x, n + 1, d =>
    specCols img y (x + 1) n (write3 d (pixelOffset img x y) (binarizedValue img x y))

/-- The effect of `convertRow` on `d`: all pixels of the rows `y, ..., y + n - 1` receive
their binarized value. -/
def specRows (img : BMPImage) : Nat → Nat → List Byte → List Byte
  | _, 0, d => d
  | y, n + 1, d => specRows img (y + 1) n (specCols img y 0 img.infoHeader.width.toNat d)

/-! ## The loop of `drawLine` in exact arithmetic and the pixels it plots -/

/-- The states of the loop of `drawLine` in exact integer arithmetic and without the image:
`u` and `v` count the steps taken in `x` and in `y`, `err` is the error term.  The loop
starts with `(0, 0, dx - dy)` and ends after the state `(dx, dy, _)`. -/
def lineStates (dx dy : Nat) : Nat → Nat → Nat → Int → List (Nat × Nat × Int)
  | 0, _, _, _ => []
  | n + 1, u, v, err =>
    (u, v, err) ::
      if u = dx ∧ v = dy then []
      else lineStates dx dy n (if 2 * err > -(dy : Int) then u + 1 else u)
        (if 2 * err < (dx : Int) then v + 1 else v)
        ((if 2 * err > -(dy : Int) then err - dy else err)
          + (if 2 * err < (dx : Int) then (dx : Int) else 0))

/-- One iteration of the loop of `drawLine` in terms of the step counts: each count grows
by at most one, the count of the longer axis by exactly one, and none exceeds its target. -/
def LineStep (dx dy : Nat) (p q : Nat × Nat × Int) : Prop :=
  p.1 ≤ q.1 ∧ q.1 ≤ p.1 + 1 ∧ p.2.1 ≤ q.2.1 ∧ q.2.1 ≤ p.2.1 + 1 ∧
    (dy ≤ dx → q.1 = p.1 + 1) ∧ (dx ≤ dy → q.2.1 = p.2.1 + 1) ∧ q.1 ≤ dx ∧ q.2.1 ≤ dy

/-- The invariant of the loop of `drawLine` when `dy ≤ dx`. -/
def InvX (dx dy u v : Nat) (e : Int) : Prop :=
  e = (dx : Int) - dy - ((u * dy : Nat) : Int) + ((v * dx : Nat) : Int) ∧
    -(dy : Int) < 2 * e ∧ 2 * e < 3 * (dx : Int) - 2 * dy ∧ u ≤ dx ∧ v ≤ dy

/-- The calls `setPixelBlack(x, y)` for the coordinates of a list, in order. -/
def plotAll (img : BMPImage) : List (Int × Int) → Option BMPImage
  | [] => some img
  | p :: rest =>
    match setPixelBlack img p.1 p.2 with
    | none => none
    | some img1 => plotAll img1 rest

/-- The coordinate that the loop of `drawLine` has reached in a state, when it started at
`(x1, y1)` with the steps `sx` and `sy`. -/
def lineCoord (x1 y1 sx sy : Int) (s : Nat × Nat × Int) : Int × Int :=
  (x1 + sx * (s.1 : Int), y1 + sy * (s.2.1 : Int))

/-- The run of `drawLine` that goes through the states `states`. -/
def lineRunOf (img : BMPImage) (x1 y1 sx sy : Int) (dx dy : Nat)
    (states : List (Nat × Nat × Int)) : Option LineRun :=
  (plotAll img (states.map (lineCoord x1 y1 sx sy))).map (fun im =>
    { image := im, visited := states.map (lineCoord x1 y1 sx sy),
      finished := states.any (fun s => decide (s.1 = dx ∧ s.2.1 = dy)) })

/-- The endpoints are `int` values and lie at most 715827882 apart in each axis, so that
`3 * max dx dy < 2^31` and no `int` operation of `drawLine` overflows. -/
def SegmentFits (x1 y1 x2 y2 : Int) : Prop :=
  (-2147483648 ≤ x1 ∧ x1 < 2147483648) ∧ (-2147483648 ≤ y1 ∧ y1 < 2147483648) ∧
    (-2147483648 ≤ x2 ∧ x2 < 2147483648) ∧ (-2147483648 ≤ y2 ∧ y2 < 2147483648) ∧
    (x2 - x1).natAbs ≤ 715827882 ∧ (y2 - y1).natAbs ≤ 715827882

instance (x1 y1 x2 y2 : Int) : Decidable (SegmentFits x1 y1 x2 y2) := by
  unfold SegmentFits; infer_instance

/-- The step `sx` or `sy` of `drawLine` from `a` towards `b`. -/
def lineSign (a b : Int) : Int := if a < b then 1 else -1

/-- The coordinate lies in the image: the test of line 54 is false. -/
def InImage (img : BMPImage) (p : Int × Int) : Prop :=
  0 ≤ p.1 ∧ p.1 < img.infoHeader.width ∧ 0 ≤ p.2 ∧ p.2 < img.infoHeader.height

instance (img : BMPImage) (p : Int × Int) : Decidable (InImage img p) := by
  unfold InImage; infer_instance

/-- The buffer `d` after `setPixelBlack` for the coordinate `p`: the three channel bytes of
the pixel are 0 when `p` lies in the image, and nothing changes otherwise. -/
def blackenAt (img : BMPImage) (d : List Byte) (p : Int × Int) : List Byte :=
  if InImage img p then write3 d (pixelOffset img p.1.toNat p.2.toNat) 0 else d

/-- The coordinates that `drawLine` visits in exact arithmetic during at most `n`
iterations. -/
def linePoints (x1 y1 x2 y2 : Int) (n : Nat) : List (Int × Int) :=
  (lineStates (x2 - x1).natAbs (y2 - y1).natAbs n 0 0
    (((x2 - x1).natAbs : Int) - ((y2 - y1).natAbs : Int))).map
    (lineCoord x1 y1 (lineSign x1 x2) (lineSign y1 y2))

/-- The two diagonals of a square of side `n`, as `drawCross` visits them. -/
def crossPoints (n : Nat) : List (Int × Int) :=
  (List.range n).map (fun i : Nat => ((i : Int), (i : Int)))
    ++ (List.range n).map (fun i : Nat => ((n : Int) - 1 - (i : Int), (i : Int)))

/-! ## Reads outside the buffer and tasks on row ranges -/

/-- One of the three reads of pixel `(x, y)` is outside the buffer. -/
def ReadFails (img : BMPImage) (x y : Int) : Prop :=
  readByte img.pixelData (getPixelIndex img x y) = none ∨
    readByte img.pixelData (wrapInt32 (getPixelIndex img x y + 1)) = none ∨
    readByte img.pixelData (wrapInt32 (getPixelIndex img x y + 2)) = none

/-- The buffer after a list of tasks, each converting its rows: the tasks are row ranges
`[r.1, r.2)` of natural numbers. -/
def specTasks (img : BMPImage) (l : List (Int × Int)) (d : List Byte) : List Byte :=
  l.foldl (fun d r => specRows img r.1.toNat (r.2.toNat - r.1.toNat) d) d

/-- The range lies in the rows of the image. -/
def RangeInImage (img : BMPImage) (r : Int × Int) : Prop :=
  0 ≤ r.1 ∧ r.1 ≤ r.2 ∧ r.2 ≤ img.infoHeader.height

/-! ## Sample inputs -/

/-- The 54 bytes of the two headers, as `saveBMP` lays them out. -/
def headerBytes (fh : BMPFileHeader) (ih : BMPInfoHeader) : List Byte :=
  writeFileHeader fh ++ writeInfoHeader ih

/-- A 1x1, 24-bit bitmap file: the headers and one padded row. -/
def onePixelFile : List Byte :=
  headerBytes { fileSize := 58 } { width := 1, height := 1, imageSize := 4 } ++ [10, 20, 30, 0]

/-- The image that `openBMP` builds from `onePixelFile`. -/
def onePixelImage : BMPImage :=
  { fileHeader := { fileSize := 58 }, infoHeader := { width := 1, height := 1, imageSize := 4 },
    rowStride := 4, pixelData := [10, 20, 30, 0] }

/-- A 1x1 file that declares 8 bits per pixel. -/
def eightBitFile : List Byte :=
  headerBytes { fileSize := 58 } { width := 1, height := 1, bitCount := 8, imageSize := 4 }
    ++ [7, 0, 0, 0]

/-- The bytes of `onePixelFile` with the signature `BM` replaced by two zero bytes. -/
def noSignatureFile : List Byte := 0 :: 0 :: onePixelFile.drop 2

/-- The bytes of `onePixelFile` with the compression field (offset 30) set to 1 (RLE8). -/
def compressedFile : List Byte :=
  onePixelFile.take 30 ++ [1, 0, 0, 0] ++ onePixelFile.drop 34

/-- The 1x1 file with `imageSize = 0`, which the format allows for uncompressed data. -/
def zeroImageSizeFile : List Byte :=
  headerBytes { fileSize := 58 } { width := 1, height := 1 } ++ [10, 20, 30, 0]

/-- The 1x1 file with four extra bytes between the headers and the pixel data
(`offsetData = 58`). -/
def gapFile : List Byte :=
  headerBytes { fileSize := 62, offsetData := 58 } { width := 1, height := 1, imageSize := 4 }
    ++ [0, 0, 0, 0] ++ [10, 20, 30, 0]

/-- A 1x1 file whose bytes 28..29 and 30..31 both hold 24, so that it declares 24 bits per
pixel at the offset of the struct and at the offset of the specification's table. -/
def tableMismatchFile : List Byte :=
  headerBytes { fileSize := 58 } { width := 1, height := 1, compression := 24, imageSize := 4 }
    ++ [10, 20, 30, 0]

/-- Headers declaring width 1, height 2^30 and 32 bits per pixel (at both offsets 28 and 30),
followed by `n` zero bytes of pixel data. -/
def tallFile (n : Nat) : List Byte :=
  headerBytes { fileSize := 54 }
      { width := 1, height := 1073741824, bitCount := 32, compression := 32 }
    ++ List.replicate n 0

/-- A file of 54 + 2^32 bytes: `tallFile` with all the `4 * 2^30` pixel bytes it declares. -/
def hugeFile : List Byte := tallFile 4294967296

/-- A file of 54 bytes: headers only, declaring 65536 x 65536 pixels of 32 bits. -/
def overflowHeaderFile : List Byte :=
  headerBytes { fileSize := 54 } { width := 65536, height := 65536, bitCount := 32 }

/-- An image of 2^30 - 1 rows of one 32-bit pixel, with its buffer of 2^32 - 4 bytes. -/
def hugeBufferImage : BMPImage :=
  { fileHeader := {}, infoHeader := { width := 1, height := 1073741823, bitCount := 32 },
    rowStride := 4, pixelData := List.replicate 4294967292 0 }

/-- The 2x2, 24-bit image with rows white, black and black, white; the two padding bytes of
each row are 7 and 9. -/
def checkerImage : BMPImage :=
  { fileHeader := { fileSize := 70 },
    infoHeader := { width := 2, height := 2, imageSize := 16 },
    rowStride := 8,
    pixelData := [255, 255, 255, 0, 0, 0, 7, 9, 0, 0, 0, 255, 255, 255, 7, 9] }

/-- The 4x4, 24-bit image of solid mid-gray (128, 128, 128); rows of 12 bytes, no padding. -/
def grayImage : BMPImage :=
  { fileHeader := { fileSize := 102 },
    infoHeader := { width := 4, height := 4, imageSize := 48 },
    rowStride := 12,
    pixelData := List.replicate 48 128 }

/-- The 1x1, 24-bit image whose pixel is `(R, G, B) = (12, 175, 4)`, stored blue first. -/
def tieImage : BMPImage :=
  { fileHeader := { fileSize := 58 },
    infoHeader := { width := 1, height := 1, imageSize := 4 },
    rowStride := 4,
    pixelData := [4, 175, 12, 0] }

/-- An image of one column of `rows` black 32-bit pixels, alpha 0. -/
def blackColumn (rows : Nat) : BMPImage :=
  { fileHeader := {},
    infoHeader := { width := 1, height := (rows : Int), bitCount := 32 },
    rowStride := 4,
    pixelData := List.replicate (4 * rows) 0 }

/-- An image of `w` x `h` pixels of `bitCount` bits, every byte of its buffer being `v`. -/
def solidImage (w h bitCount : Nat) (v : Byte) : BMPImage :=
  { fileHeader := {},
    infoHeader := { width := (w : Int), height := (h : Int), bitCount := bitCount },
    rowStride := (w * (bitCount / 8) + 3) / 4 * 4,
    pixelData := List.replicate ((w * (bitCount / 8) + 3) / 4 * 4 * h) v }

/-- The 3x2, 24-bit image that is white everywhere. -/
def whiteStrip : BMPImage := solidImage 3 2 24 255

/-- The 10x10, 24-bit image that is white everywhere. -/
def whiteSquare : BMPImage := solidImage 10 10 24 255

/-- The 2x2, 32-bit image whose pixels are (10, 20, 30) with alpha 77. -/
def alphaImage : BMPImage :=
  { fileHeader := { fileSize := 70 },
    infoHeader := { width := 2, height := 2, bitCount := 32, imageSize := 16 },
    rowStride := 8,
    pixelData := [30, 20, 10, 77, 30, 20, 10, 77, 30, 20, 10, 77, 30, 20, 10, 77] }

/-! # Lemmas and theorems -/

/-! ## Machine integers -/

theorem toUInt32_lt (i : Int) : toUInt32 i < 4294967296 := by
  unfold toUInt32; omega

theorem toUInt32_toInt32 (n : Nat) : toUInt32 (toInt32 n) = n % 4294967296 := by
  unfold toUInt32 toInt32; split <;> omega

theorem toUInt32_wrapInt32 (i : Int) : toUInt32 (wrapInt32 i) = toUInt32 i := by
  unfold wrapInt32; rw [toUInt32_toInt32]; unfold toUInt32; omega

theorem toUInt32_wrapInt32_add (i j : Int) : toUInt32 (wrapInt32 i + j) = toUInt32 (i + j) := by
  unfold wrapInt32 toUInt32 toInt32; split <;> omega

theorem toInt32_toUInt32 (i : Int) (h1 : -2147483648 ≤ i) (h2 : i < 2147483648) :
    toInt32 (toUInt32 i) = i := by
  unfold toUInt32 toInt32; split <;> omega

theorem toUInt32_of_nonneg (i : Int) (h1 : 0 ≤ i) (h2 : i < 4294967296) :
    toUInt32 i = i.toNat := by
  unfold toUInt32; omega

/-- Masking with `~3` clears the two low bits. -/
theorem and_clear_low2 (n : Nat) (h : n < 4294967296) : n &&& 4294967292 = n / 4 * 4 := by
  have e1 : (4294967292 : Nat) = (2 ^ 30 - 1) <<< 2 := by decide
  have e2 : n / 4 * 4 = (n >>> 2) <<< 2 := by
    rw [Nat.shiftLeft_eq, Nat.shiftRight_eq_div_pow]
  rw [e1, e2]
  apply Nat.eq_of_testBit_eq
  intro i
  simp only [Nat.testBit_and, Nat.testBit_shiftLeft, Nat.testBit_shiftRight,
    Nat.testBit_two_pow_sub_one]
  by_cases h2 : 2 ≤ i
  · have e3 : 2 + (i - 2) = i := by omega
    rw [e3]
    by_cases h32 : i - 2 < 30
    · simp [h2, h32]
    · have : n.testBit i = false := by
        apply Nat.testBit_lt_two_pow
        calc n < 2 ^ 32 := h
          _ ≤ 2 ^ i := Nat.pow_le_pow_right (by decide) (by omega)
      simp [this]
  · simp [h2]

theorem computeRowStride_eq (width : Int) (bitCount : Nat) :
    computeRowStride width bitCount
      = toUInt32 (width * ((bitCount / 8 : Nat) : Int) + 3) / 4 * 4 := by
  unfold computeRowStride andInt32
  rw [toUInt32_toInt32, toUInt32_wrapInt32, toUInt32_wrapInt32_add]
  have h4 : toUInt32 (-4) = 4294967292 := by decide
  rw [h4, and_clear_low2 _ (toUInt32_lt _)]
  have := toUInt32_lt (width * ((bitCount / 8 : Nat) : Int) + 3)
  omega

theorem toNat_mul_add (w : Int) (b : Nat) (hw : 0 ≤ w) :
    (w * (b : Int) + 3).toNat = w.toNat * b + 3 := by
  obtain ⟨n, rfl⟩ := Int.eq_ofNat_of_zero_le hw
  have : ((n : Int) * (b : Int) + 3) = ((n * b + 3 : Nat) : Int) := by push_cast; ring
  rw [this, Int.toNat_ofNat, Int.toNat_ofNat]

/-! ## Reading the headers -/

theorem getD_take_of_lt (bs : List Byte) {i n : Nat} (h : i < n) :
    (bs.take n).getD i 0 = bs.getD i 0 := by
  simp [List.getElem?_take_of_lt h]

theorem getD_drop_take (bs : List Byte) (m : Nat) {i n : Nat} (h : i < n) :
    ((bs.drop m).take n).getD i 0 = bs.getD (m + i) 0 := by
  rw [getD_take_of_lt _ h]; simp [List.getElem?_drop]

theorem u16At_take (bs : List Byte) {off n : Nat} (h : off + 1 < n) :
    u16At (bs.take n) off = u16At bs off := by
  unfold u16At
  rw [getD_take_of_lt bs (by omega : off < n), getD_take_of_lt bs h]

theorem u32At_take (bs : List Byte) {off n : Nat} (h : off + 3 < n) :
    u32At (bs.take n) off = u32At bs off := by
  unfold u32At
  rw [getD_take_of_lt bs (by omega : off < n), getD_take_of_lt bs (by omega : off + 1 < n),
    getD_take_of_lt bs (by omega : off + 2 < n), getD_take_of_lt bs h]

theorem u16At_drop_take (bs : List Byte) (m : Nat) {off n : Nat} (h : off + 1 < n) :
    u16At ((bs.drop m).take n) off = u16At bs (m + off) := by
  unfold u16At
  rw [getD_drop_take bs m (by omega : off < n), getD_drop_take bs m h, Nat.add_assoc]

theorem u32At_drop_take (bs : List Byte) (m : Nat) {off n : Nat} (h : off + 3 < n) :
    u32At ((bs.drop m).take n) off = u32At bs (m + off) := by
  unfold u32At
  rw [getD_drop_take bs m (by omega : off < n), getD_drop_take bs m (by omega : off + 1 < n),
    getD_drop_take bs m (by omega : off + 2 < n), getD_drop_take bs m h]
  simp only [Nat.add_assoc]

theorem readFileHeader_take (bytes : List Byte) :
    readFileHeader (bytes.take 14) = fileHeaderAt bytes := by
  simp only [readFileHeader, fileHeaderAt]
  rw [u16At_take bytes (by decide : 0 + 1 < 14), u32At_take bytes (by decide : 2 + 3 < 14),
    u16At_take bytes (by decide : 6 + 1 < 14), u16At_take bytes (by decide : 8 + 1 < 14),
    u32At_take bytes (by decide : 10 + 3 < 14)]

theorem readInfoHeader_drop_take (bytes : List Byte) :
    readInfoHeader ((bytes.drop 14).take 40) = infoHeaderAt bytes := by
  simp only [readInfoHeader, infoHeaderAt, i32At]
  rw [u32At_drop_take bytes 14 (by decide : 0 + 3 < 40),
    u32At_drop_take bytes 14 (by decide : 4 + 3 < 40),
    u32At_drop_take bytes 14 (by decide : 8 + 3 < 40),
    u16At_drop_take bytes 14 (by decide : 12 + 1 < 40),
    u16At_drop_take bytes 14 (by decide : 14 + 1 < 40),
    u32At_drop_take bytes 14 (by decide : 16 + 3 < 40),
    u32At_drop_take bytes 14 (by decide : 20 + 3 < 40),
    u32At_drop_take bytes 14 (by decide : 24 + 3 < 40),
    u32At_drop_take bytes 14 (by decide : 28 + 3 < 40),
    u32At_drop_take bytes 14 (by decide : 32 + 3 < 40),
    u32At_drop_take bytes 14 (by decide : 36 + 3 < 40)]

/-- With both headers present, `openBMP` is decided by the bit count and by the number of
bytes available from `offsetData` on. -/
theorem openBMP_of_headers (bytes : List Byte) (h : 54 ≤ bytes.length) :
    openBMP (some bytes) =
      if (infoHeaderAt bytes).bitCount ≠ 24 ∧ (infoHeaderAt bytes).bitCount ≠ 32 then
        .error .unsupportedFormat
      else if ((bytes.drop (fileHeaderAt bytes).offsetData).take (bufferSizeAt bytes)).length
          ≠ bufferSizeAt bytes then .error .pixelRead
      else .ok { fileHeader := fileHeaderAt bytes, infoHeader := infoHeaderAt bytes,
                 rowStride := computeRowStride (infoHeaderAt bytes).width
                   (infoHeaderAt bytes).bitCount,
                 pixelData := (bytes.drop (fileHeaderAt bytes).offsetData).take
                   (bufferSizeAt bytes) } := by
  have h1 : (bytes.take 14).length = 14 := by simp; omega
  have h2 : ((bytes.drop 14).take 40).length = 40 := by simp; omega
  simp only [openBMP, sizeofFileHeader, sizeofInfoHeader, h1, h2, readFileHeader_take,
    readInfoHeader_drop_take, bufferSizeAt, ne_eq, not_true_eq_false, if_false]

theorem openBMP_lt_14 (bytes : List Byte) (h : bytes.length < 14) :
    openBMP (some bytes) = .error .fileHeaderRead := by
  have h1 : (bytes.take 14).length ≠ 14 := by simp; omega
  simp only [openBMP, sizeofFileHeader, h1, ne_eq, not_false_eq_true, if_true]

theorem openBMP_lt_54 (bytes : List Byte) (h14 : 14 ≤ bytes.length) (h : bytes.length < 54) :
    openBMP (some bytes) = .error .infoHeaderRead := by
  have h1 : (bytes.take 14).length = 14 := by simp; omega
  have h2 : ((bytes.drop 14).take 40).length ≠ 40 := by simp; omega
  simp only [openBMP, sizeofFileHeader, sizeofInfoHeader, h1, h2, ne_eq, not_true_eq_false,
    not_false_eq_true, if_false, if_true]

/-- Two sources of the same length that declare the same offset, width, height and bit count
and hold the same bytes from the offset on get the same outcome from `openBMP`; on success
the images differ at most in the header fields. -/
theorem openBMP_congr (bs bs' : List Byte) (hlen : bs'.length = bs.length)
    (hoff : (fileHeaderAt bs').offsetData = (fileHeaderAt bs).offsetData)
    (hw : (infoHeaderAt bs').width = (infoHeaderAt bs).width)
    (hh : (infoHeaderAt bs').height = (infoHeaderAt bs).height)
    (hbc : (infoHeaderAt bs').bitCount = (infoHeaderAt bs).bitCount)
    (hdrop : bs'.drop (fileHeaderAt bs).offsetData = bs.drop (fileHeaderAt bs).offsetData) :
    (∀ e, openBMP (some bs) = .error e → openBMP (some bs') = .error e) ∧
    (∀ img, openBMP (some bs) = .ok img → openBMP (some bs') =
      .ok { img with fileHeader := fileHeaderAt bs', infoHeader := infoHeaderAt bs' }) := by
  by_cases h14 : bs.length < 14
  · rw [openBMP_lt_14 bs h14, openBMP_lt_14 bs' (by omega)]
    exact ⟨fun e he => he, fun img he => by cases he⟩
  by_cases h54 : bs.length < 54
  · rw [openBMP_lt_54 bs (by omega) h54, openBMP_lt_54 bs' (by omega) (by omega)]
    exact ⟨fun e he => he, fun img he => by cases he⟩
  have hsz : bufferSizeAt bs' = bufferSizeAt bs := by
    simp only [bufferSizeAt, hw, hh, hbc]
  rw [openBMP_of_headers bs (by omega), openBMP_of_headers bs' (by omega), hsz, hoff, hbc,
    hdrop, hw]
  constructor
  · intro e he
    split at he
    · rw [if_pos (by assumption)]; exact he
    · rename_i hb
      rw [if_neg hb]
      split at he
      · rw [if_pos (by assumption)]; exact he
      · cases he
  · intro img he
    split at he
    · cases he
    · rename_i hb
      rw [if_neg hb]
      split at he
      · cases he
      · rename_i hp
        rw [if_neg hp]
        cases he
        rfl


theorem openBMP_ok_headers (bs : List Byte) (img : BMPImage) (h : openBMP (some bs) = .ok img) :
    54 ≤ bs.length ∧ img.fileHeader = fileHeaderAt bs ∧ img.infoHeader = infoHeaderAt bs := by
  by_cases h14 : bs.length < 14
  · rw [openBMP_lt_14 bs h14] at h; cases h
  by_cases h54 : bs.length < 54
  · rw [openBMP_lt_54 bs (by omega) h54] at h; cases h
  rw [openBMP_of_headers bs (by omega)] at h
  split at h
  · cases h
  · split at h
    · cases h
    · cases h; exact ⟨by omega, rfl, rfl⟩

theorem getD_patch_lt (pre k post : List Byte) {i : Nat} (h : i < pre.length) :
    (pre ++ k ++ post).getD i 0 = pre.getD i 0 := by
  rw [List.append_assoc, List.getD_append _ _ _ _ h]

theorem getD_patch_ge (pre k post : List Byte) {i : Nat} (h : pre.length + k.length ≤ i) :
    (pre ++ k ++ post).getD i 0 = post.getD (i - (pre.length + k.length)) 0 := by
  rw [List.getD_append_right _ _ _ _ (by simp; omega)]
  simp

theorem u16At_patch_lt (pre k post : List Byte) (off : Nat) (h : off + 1 < pre.length) :
    u16At (pre ++ k ++ post) off = u16At pre off := by
  unfold u16At
  rw [getD_patch_lt pre k post (by omega : off < pre.length), getD_patch_lt pre k post h]

theorem u32At_patch_lt (pre k post : List Byte) (off : Nat) (h : off + 3 < pre.length) :
    u32At (pre ++ k ++ post) off = u32At pre off := by
  unfold u32At
  rw [getD_patch_lt pre k post (by omega : off < pre.length),
    getD_patch_lt pre k post (by omega : off + 1 < pre.length),
    getD_patch_lt pre k post (by omega : off + 2 < pre.length), getD_patch_lt pre k post h]

theorem u16At_patch_ge (pre k post : List Byte) (off : Nat) (h : pre.length + k.length ≤ off) :
    u16At (pre ++ k ++ post) off = u16At post (off - (pre.length + k.length)) := by
  unfold u16At
  rw [getD_patch_ge pre k post h, getD_patch_ge pre k post (by omega : _ ≤ off + 1)]
  have e1 : off + 1 - (pre.length + k.length) = off - (pre.length + k.length) + 1 := by omega
  rw [e1]

theorem u32At_patch_ge (pre k post : List Byte) (off : Nat) (h : pre.length + k.length ≤ off) :
    u32At (pre ++ k ++ post) off = u32At post (off - (pre.length + k.length)) := by
  unfold u32At
  rw [getD_patch_ge pre k post h, getD_patch_ge pre k post (by omega : _ ≤ off + 1),
    getD_patch_ge pre k post (by omega : _ ≤ off + 2),
    getD_patch_ge pre k post (by omega : _ ≤ off + 3)]
  have e1 : off + 1 - (pre.length + k.length) = off - (pre.length + k.length) + 1 := by omega
  have e2 : off + 2 - (pre.length + k.length) = off - (pre.length + k.length) + 2 := by omega
  have e3 : off + 3 - (pre.length + k.length) = off - (pre.length + k.length) + 3 := by omega
  rw [e1, e2, e3]

theorem u32At_patch_mid (pre k post : List Byte) (hk : k.length = 4) :
    u32At (pre ++ k ++ post) pre.length = u32At k 0 := by
  unfold u32At
  have hg : ∀ j, j < 4 → (pre ++ k ++ post).getD (pre.length + j) 0 = k.getD j 0 := by
    intro j hj
    rw [List.getD_append _ _ _ _ (by simp; omega), List.getD_append_right _ _ _ _ (by omega)]
    simp
  have := hg 0 (by decide)
  rw [Nat.add_zero] at this
  rw [this, hg 1 (by decide), hg 2 (by decide), hg 3 (by decide)]

theorem drop_patch_ge (pre k post : List Byte) {n : Nat} (h : pre.length + k.length ≤ n) :
    (pre ++ k ++ post).drop n = post.drop (n - (pre.length + k.length)) := by
  have e : n = (pre ++ k).length + (n - (pre.length + k.length)) := by simp; omega
  conv_lhs => rw [e]
  rw [List.drop_append]


/-! ## Row stride and buffer size -/

theorem computeRowStride_of_fits (width : Int) (bitCount : Nat) (hw : 0 ≤ width)
    (hfit : width * ((bitCount / 8 : Nat) : Int) + 3 < 4294967296) :
    computeRowStride width bitCount = paddedRowBytes width bitCount := by
  rw [computeRowStride_eq, paddedRowBytes, toUInt32_of_nonneg _ (by positivity) hfit,
    toNat_mul_add _ _ hw]

theorem computeBufferSize_of_fits (rowStride : Nat) (height : Int) (hh : 0 < height)
    (hrs : 0 < rowStride) (hfit : (rowStride : Int) * height < 4294967296) :
    computeBufferSize rowStride height = rowStride * height.toNat := by
  obtain ⟨n, rfl⟩ := Int.eq_ofNat_of_zero_le (le_of_lt hh)
  have hfit' : rowStride * n < 4294967296 := by exact_mod_cast hfit
  have hn : n < 4294967296 := by
    calc n = 1 * n := (Nat.one_mul n).symm
      _ ≤ rowStride * n := Nat.mul_le_mul_right n hrs
      _ < 4294967296 := hfit'
  have e : toUInt32 (n : Int) = n := by unfold toUInt32; omega
  simp only [computeBufferSize, e, Int.toNat_ofNat]
  exact Nat.mod_eq_of_lt hfit'

theorem ceil_div_four (a : Int) : ⌈((a : Int) : ℚ) / 4⌉ = (a + 3) / 4 := by
  rw [Int.ceil_eq_iff]
  have h1 : 4 * ((a + 3) / 4) - 4 < a := by omega
  have h2 : a ≤ 4 * ((a + 3) / 4) := by omega
  have h1' : (4 : ℚ) * (((a + 3) / 4 : Int) : ℚ) - 4 < (a : ℚ) := by exact_mod_cast h1
  have h2' : (a : ℚ) ≤ 4 * (((a + 3) / 4 : Int) : ℚ) := by exact_mod_cast h2
  constructor <;> linarith

theorem paddedRowBytes_bounds (width : Int) (bitCount : Nat) (hw : 0 ≤ width) :
    4 ∣ paddedRowBytes width bitCount ∧
    width * ((bitCount / 8 : Nat) : Int) ≤ (paddedRowBytes width bitCount : Int) ∧
    (paddedRowBytes width bitCount : Int) < width * ((bitCount / 8 : Nat) : Int) + 4 := by
  obtain ⟨n, rfl⟩ := Int.eq_ofNat_of_zero_le hw
  simp only [paddedRowBytes, Int.toNat_ofNat]
  refine ⟨Nat.dvd_mul_left 4 _, ?_, ?_⟩
  · have : n * (bitCount / 8) ≤ (n * (bitCount / 8) + 3) / 4 * 4 := by omega
    exact_mod_cast this
  · have : (n * (bitCount / 8) + 3) / 4 * 4 < n * (bitCount / 8) + 4 := by omega
    exact_mod_cast this

theorem paddedRowBytes_ceil (width : Int) (bitCount : Nat) (hw : 0 ≤ width) :
    (paddedRowBytes width bitCount : Int)
      = ⌈((width * ((bitCount / 8 : Nat) : Int) : Int) : ℚ) / 4⌉ * 4 := by
  rw [ceil_div_four]
  obtain ⟨n, rfl⟩ := Int.eq_ofNat_of_zero_le hw
  simp only [paddedRowBytes, Int.toNat_ofNat]
  push_cast
  rfl

/-- Counterexample to claim C8: for width 65536, height 65536 and 32 bits per pixel the row
stride is 262144, and the buffer length `rowStride * height` computed in 32-bit arithmetic
is 0, not the product 17179869184. -/
theorem bufferSize_overflow_counterexample :
    (0 : Int) < 65536 ∧ computeRowStride 65536 32 = 262144 ∧
      computeBufferSize (computeRowStride 65536 32) 65536 = 0 ∧
      (computeBufferSize (computeRowStride 65536 32) 65536 : Int)
        ≠ (computeRowStride 65536 32 : Int) * 65536 := by
  decide

/-- Claim C8, amended: for every width > 0 and bit count 24 or 32 with
`width * bytesPerPixel + 3 < 2^31` (the `int` expression does not overflow), the row stride
that `openBMP` computes as `(width * (bitCount / 8) + 3) & ~3` equals
`ceil(width * bytesPerPixel / 4) * 4`: it is a multiple of 4, at least `width * bytesPerPixel`
and less than `width * bytesPerPixel + 4`; and for every height > 0 with
`rowStride * height < 2^32` the buffer length computed in 32-bit arithmetic equals the
mathematical product. -/
theorem rowStride_padded_of_fits (width : Int) (bitCount : Nat) (hw : 0 < width)
    (hbc : bitCount = 24 ∨ bitCount = 32)
    (hfit : width * ((bitCount / 8 : Nat) : Int) + 3 < 2147483648) :
    (computeRowStride width bitCount : Int)
        = ⌈((width * ((bitCount / 8 : Nat) : Int) : Int) : ℚ) / 4⌉ * 4 ∧
      4 ∣ computeRowStride width bitCount ∧
      width * ((bitCount / 8 : Nat) : Int) ≤ (computeRowStride width bitCount : Int) ∧
      (computeRowStride width bitCount : Int) < width * ((bitCount / 8 : Nat) : Int) + 4 ∧
      ∀ height : Int, 0 < height →
        (computeRowStride width bitCount : Int) * height < 4294967296 →
        (computeBufferSize (computeRowStride width bitCount) height : Int)
          = (computeRowStride width bitCount : Int) * height := by
  have hrs := computeRowStride_of_fits width bitCount (le_of_lt hw) (by omega)
  obtain ⟨h1, h2, h3⟩ := paddedRowBytes_bounds width bitCount (le_of_lt hw)
  rw [hrs]
  refine ⟨paddedRowBytes_ceil width bitCount (le_of_lt hw), h1, h2, h3, ?_⟩
  intro height hh hfit2
  have hpos : 0 < paddedRowBytes width bitCount := by
    have : 0 < width * ((bitCount / 8 : Nat) : Int) := by
      rcases hbc with rfl | rfl <;> norm_num <;> omega
    omega
  rw [computeBufferSize_of_fits _ height hh hpos hfit2]
  push_cast
  rw [Int.toNat_of_nonneg (le_of_lt hh)]

/-! ## Fields that `openBMP` does not inspect -/

/-- `openBMP` looks at no field other than `offsetData`, `width`, `height` and `bitCount`:
overwriting `k.length` bytes of the headers outside those four fields and before the pixel
data changes neither the outcome nor, on success, anything but the headers. -/
theorem openBMP_patch (pre k k' post : List Byte) (hk : k'.length = k.length)
    (hoff : (fileHeaderAt (pre ++ k' ++ post)).offsetData
      = (fileHeaderAt (pre ++ k ++ post)).offsetData)
    (hw : (infoHeaderAt (pre ++ k' ++ post)).width = (infoHeaderAt (pre ++ k ++ post)).width)
    (hh : (infoHeaderAt (pre ++ k' ++ post)).height = (infoHeaderAt (pre ++ k ++ post)).height)
    (hbc : (infoHeaderAt (pre ++ k' ++ post)).bitCount
      = (infoHeaderAt (pre ++ k ++ post)).bitCount)
    (hdata : pre.length + k.length ≤ (fileHeaderAt (pre ++ k ++ post)).offsetData) :
    (∀ e, openBMP (some (pre ++ k ++ post)) = .error e →
      openBMP (some (pre ++ k' ++ post)) = .error e) ∧
    (∀ img, openBMP (some (pre ++ k ++ post)) = .ok img →
      openBMP (some (pre ++ k' ++ post)) =
        .ok { img with fileHeader := fileHeaderAt (pre ++ k' ++ post),
                       infoHeader := infoHeaderAt (pre ++ k' ++ post) }) := by
  apply openBMP_congr _ _ (by simp [hk]) hoff hw hh hbc
  rw [drop_patch_ge pre k post hdata, drop_patch_ge pre k' post (by omega), hk]

theorem fileHeaderAt_patch (pre q post : List Byte) (hpre : pre.length = 30) :
    fileHeaderAt (pre ++ q ++ post) = fileHeaderAt pre := by
  simp only [fileHeaderAt]
  rw [u16At_patch_lt pre q post 0 (by omega), u32At_patch_lt pre q post 2 (by omega),
    u16At_patch_lt pre q post 6 (by omega), u16At_patch_lt pre q post 8 (by omega),
    u32At_patch_lt pre q post 10 (by omega)]

theorem infoHeaderAt_patch (pre q post : List Byte) (hpre : pre.length = 30)
    (hq : q.length = 4) :
    infoHeaderAt (pre ++ q ++ post) =
      { size := u32At pre 14, width := i32At pre 18, height := i32At pre 22,
        planes := u16At pre 26, bitCount := u16At pre 28, compression := u32At q 0,
        imageSize := u32At post 0, xPixelsPerMeter := i32At post 4,
        yPixelsPerMeter := i32At post 8, colorsUsed := u32At post 12,
        colorsImportant := u32At post 16 } := by
  have hm := u32At_patch_mid pre q post hq
  rw [hpre] at hm
  simp only [infoHeaderAt, i32At]
  rw [u32At_patch_lt pre q post 14 (by omega), u32At_patch_lt pre q post 18 (by omega),
    u32At_patch_lt pre q post 22 (by omega), u16At_patch_lt pre q post 26 (by omega),
    u16At_patch_lt pre q post 28 (by omega), hm,
    u32At_patch_ge pre q post 34 (by omega), u32At_patch_ge pre q post 38 (by omega),
    u32At_patch_ge pre q post 42 (by omega), u32At_patch_ge pre q post 46 (by omega),
    u32At_patch_ge pre q post 50 (by omega), hpre, hq]

/-! ## Claims C4, C6 and C7: which inputs `openBMP` rejects -/

/-- Claim C4: for every byte source that holds both headers (at least 54 bytes), `openBMP`
fails with an error of the unsupported-format class if and only if the `bitCount` field (the
`uint16_t` at byte 28 of the packed headers) is neither 24 nor 32; in particular a source
with `bitCount = 8` is rejected with that error, whatever bytes follow the headers. -/
theorem openBMP_unsupported_iff (bytes : List Byte) (h : 54 ≤ bytes.length) :
    ((∃ e, openBMP (some bytes) = .error e ∧ e.kind = .unsupportedFormatError) ↔
        (u16At bytes 28 ≠ 24 ∧ u16At bytes 28 ≠ 32)) ∧
      (u16At bytes 28 = 8 → openBMP (some bytes) = .error .unsupportedFormat) := by
  have hb : (infoHeaderAt bytes).bitCount = u16At bytes 28 := rfl
  rw [openBMP_of_headers bytes h, hb]
  constructor
  · constructor
    · rintro ⟨e, he, hk⟩
      split at he
      · assumption
      · split at he
        · cases he; cases hk
        · cases he
    · intro hne
      exact ⟨.unsupportedFormat, by rw [if_pos hne], rfl⟩
  · intro h8
    rw [if_pos (by omega)]

/-- Witness for claim C4: the theorem applied to a 58-byte file that declares 8 bits per
pixel. -/
theorem openBMP_unsupported_iff_witness :
    54 ≤ eightBitFile.length ∧
      (((∃ e, openBMP (some eightBitFile) = .error e ∧ e.kind = .unsupportedFormatError) ↔
          (u16At eightBitFile 28 ≠ 24 ∧ u16At eightBitFile 28 ≠ 32)) ∧
        (u16At eightBitFile 28 = 8 → openBMP (some eightBitFile) = .error .unsupportedFormat)) :=
  ⟨by decide, openBMP_unsupported_iff eightBitFile (by decide)⟩

/-- Counterexample to claim C6: a source whose first two bytes are zero, not the signature
`BM` (0x4D42), is decoded successfully; the image's `fileType` is 0. -/
theorem openBMP_wrong_signature_counterexample :
    u16At noSignatureFile 0 ≠ 0x4D42 ∧
      openBMP (some noSignatureFile) =
        .ok { onePixelImage with fileHeader := { onePixelImage.fileHeader with fileType := 0 } } := by
  decide

/-- Claim C6, amended: `openBMP` never inspects `fileType`.  Replacing the first two bytes of
any source whose `offsetData` is at least 2 by two other bytes leaves the outcome unchanged:
the same error, or success with the same image except that `fileType` holds the two bytes
found.  So a source without the signature is decoded whenever the same source with the
signature is. -/
theorem openBMP_ignores_signature (b0 b1 c0 c1 : Byte) (rest : List Byte)
    (hoff : 2 ≤ u32At (b0 :: b1 :: rest) 10) :
    (∀ e, openBMP (some (b0 :: b1 :: rest)) = .error e →
      openBMP (some (c0 :: c1 :: rest)) = .error e) ∧
    (∀ img, openBMP (some (b0 :: b1 :: rest)) = .ok img →
      openBMP (some (c0 :: c1 :: rest)) =
        .ok { img with fileHeader :=
                { img.fileHeader with fileType := c0.val + 256 * c1.val } }) := by
  have hp := openBMP_patch [] [b0, b1] [c0, c1] rest rfl rfl rfl rfl rfl hoff
  simp only [List.nil_append, List.cons_append] at hp
  refine ⟨hp.1, fun img himg => ?_⟩
  rw [hp.2 img himg]
  obtain ⟨_, hf, hi⟩ := openBMP_ok_headers _ _ himg
  rw [hf, hi]
  rfl

/-- Witness for claim C6: the signature `BM` of the 1x1 file replaced by two zero bytes. -/
theorem openBMP_ignores_signature_witness :
    2 ≤ u32At (66 :: 77 :: onePixelFile.drop 2) 10 ∧
      openBMP (some (0 :: 0 :: onePixelFile.drop 2)) =
        .ok { onePixelImage with fileHeader :=
                { onePixelImage.fileHeader with fileType := (0 : Byte).val + 256 * (0 : Byte).val } } :=
  ⟨by decide,
    (openBMP_ignores_signature 66 77 0 0 (onePixelFile.drop 2) (by decide)).2 onePixelImage
      (by decide)⟩

/-- Counterexample to claim C7: a source with `bitCount = 24` whose compression field is 1
is decoded successfully; the image's `compression` is 1. -/
theorem openBMP_compressed_counterexample :
    54 ≤ compressedFile.length ∧ u32At compressedFile 30 = 1 ∧ u16At compressedFile 28 = 24 ∧
      openBMP (some compressedFile) =
        .ok { onePixelImage with infoHeader := { onePixelImage.infoHeader with compression := 1 } } := by
  decide

/-- Claim C7, amended: `openBMP` never inspects `compression`.  Replacing the four bytes of
the compression field (bytes 30 to 33) of any source whose `offsetData` is at least 34 by four
other bytes leaves the outcome unchanged: the same error, or success with the same image
except that `compression` holds the value found.  The unsupported-format error depends on
`bitCount` alone. -/
theorem openBMP_ignores_compression (pre k k' post : List Byte) (hpre : pre.length = 30)
    (hk : k.length = 4) (hk' : k'.length = 4) (hoff : 34 ≤ u32At pre 10) :
    (∀ e, openBMP (some (pre ++ k ++ post)) = .error e →
      openBMP (some (pre ++ k' ++ post)) = .error e) ∧
    (∀ img, openBMP (some (pre ++ k ++ post)) = .ok img →
      openBMP (some (pre ++ k' ++ post)) =
        .ok { img with infoHeader :=
                { img.infoHeader with compression := u32At k' 0 } }) := by
  have hf := fileHeaderAt_patch pre k post hpre
  have hf' := fileHeaderAt_patch pre k' post hpre
  have hi := infoHeaderAt_patch pre k post hpre hk
  have hi' := infoHeaderAt_patch pre k' post hpre hk'
  have hp := openBMP_patch pre k k' post (by omega) (by rw [hf, hf'])
    (by rw [hi, hi']) (by rw [hi, hi']) (by rw [hi, hi'])
    (by rw [hf, hpre, hk]; exact hoff)
  refine ⟨hp.1, fun img himg => ?_⟩
  rw [hp.2 img himg]
  obtain ⟨_, hfh, hih⟩ := openBMP_ok_headers _ _ himg
  rw [hf', hi', hih, hi, hfh, hf]

/-- Witness for claim C7: the compression field of the 1x1 file set from 0 to 1. -/
theorem openBMP_ignores_compression_witness :
    (onePixelFile.take 30).length = 30 ∧ 34 ≤ u32At (onePixelFile.take 30) 10 ∧
      openBMP (some (onePixelFile.take 30 ++ [1, 0, 0, 0] ++ onePixelFile.drop 34)) =
        .ok { onePixelImage with infoHeader :=
                { onePixelImage.infoHeader with compression := u32At [1, 0, 0, 0] 0 } } :=
  ⟨by decide, by decide,
    (openBMP_ignores_compression (onePixelFile.take 30) [0, 0, 0, 0] [1, 0, 0, 0]
      (onePixelFile.drop 34) (by decide) rfl rfl (by decide)).2 onePixelImage (by decide)⟩

/-- Witness for claim C8: width 5 at 24 bits per pixel, 15 bytes padded to 16. -/
theorem rowStride_padded_of_fits_witness :
    (0 : Int) < 5 ∧ (5 : Int) * ((24 / 8 : Nat) : Int) + 3 < 2147483648 ∧
      4 ∣ computeRowStride 5 24 ∧
      (5 : Int) * ((24 / 8 : Nat) : Int) ≤ (computeRowStride 5 24 : Int) ∧
      (computeRowStride 5 24 : Int) < 5 * ((24 / 8 : Nat) : Int) + 4 :=
  ⟨by decide, by decide,
    (rowStride_padded_of_fits 5 24 (by decide) (Or.inl rfl) (by decide)).2.1,
    (rowStride_padded_of_fits 5 24 (by decide) (Or.inl rfl) (by decide)).2.2.1,
    (rowStride_padded_of_fits 5 24 (by decide) (Or.inl rfl) (by decide)).2.2.2.1⟩

/-! ## Writing the headers and reading them back -/

theorem u16At_lt (bs : List Byte) (off : Nat) : u16At bs off < 65536 := by
  unfold u16At
  have h0 := (bs.getD off 0).isLt
  have h1 := (bs.getD (off + 1) 0).isLt
  omega

theorem u32At_lt (bs : List Byte) (off : Nat) : u32At bs off < 4294967296 := by
  unfold u32At
  have h0 := (bs.getD off 0).isLt
  have h1 := (bs.getD (off + 1) 0).isLt
  have h2 := (bs.getD (off + 2) 0).isLt
  have h3 := (bs.getD (off + 3) 0).isLt
  omega

theorem toInt32_range (n : Nat) : -2147483648 ≤ toInt32 n ∧ toInt32 n < 2147483648 := by
  unfold toInt32; split <;> omega

theorem fileHeaderAt_inRange (bytes : List Byte) : (fileHeaderAt bytes).InRange :=
  ⟨u16At_lt _ _, u32At_lt _ _, u16At_lt _ _, u16At_lt _ _, u32At_lt _ _⟩

theorem infoHeaderAt_inRange (bytes : List Byte) : (infoHeaderAt bytes).InRange :=
  ⟨u32At_lt _ _, toInt32_range _, toInt32_range _, u16At_lt _ _, u16At_lt _ _, u32At_lt _ _,
    u32At_lt _ _, toInt32_range _, toInt32_range _, u32At_lt _ _, u32At_lt _ _⟩

theorem u16At_enc (n : Nat) (h : n < 65536) (a b : Byte)
    (ha : a = byteOf n) (hb : b = byteOf (n / 256)) : a.val + 256 * b.val = n := by
  subst ha hb; simp only [byteOf]; omega

theorem u32At_enc (n : Nat) (h : n < 4294967296) :
    (byteOf n).val + 256 * (byteOf (n / 256)).val + 65536 * (byteOf (n / 65536)).val
      + 16777216 * (byteOf (n / 16777216)).val = n := by
  simp only [byteOf]; omega

theorem i32At_enc (i : Int) (h1 : -2147483648 ≤ i) (h2 : i < 2147483648) :
    toInt32 ((byteOf (toUInt32 i)).val + 256 * (byteOf (toUInt32 i / 256)).val
      + 65536 * (byteOf (toUInt32 i / 65536)).val
      + 16777216 * (byteOf (toUInt32 i / 16777216)).val) = i := by
  rw [u32At_enc _ (toUInt32_lt i), toInt32_toUInt32 i h1 h2]

theorem fileHeaderAt_write (fh : BMPFileHeader) (rest : List Byte) (h : fh.InRange) :
    fileHeaderAt (writeFileHeader fh ++ rest) = fh := by
  obtain ⟨h1, h2, h3, h4, h5⟩ := h
  cases fh
  simp only [fileHeaderAt, writeFileHeader, encU16, encU32, u16At, u32At, List.cons_append,
    List.nil_append, List.getD_cons_zero, List.getD_cons_succ, List.append_assoc] at *
  simp only [BMPFileHeader.mk.injEq]
  refine ⟨u16At_enc _ h1 _ _ rfl rfl, u32At_enc _ h2, u16At_enc _ h3 _ _ rfl rfl,
    u16At_enc _ h4 _ _ rfl rfl, u32At_enc _ h5⟩

theorem infoHeaderAt_write (fh : BMPFileHeader) (ih : BMPInfoHeader) (rest : List Byte)
    (h : ih.InRange) :
    infoHeaderAt (writeFileHeader fh ++ writeInfoHeader ih ++ rest) = ih := by
  obtain ⟨h1, ⟨h2, h2'⟩, ⟨h3, h3'⟩, h4, h5, h6, h7, ⟨h8, h8'⟩, ⟨h9, h9'⟩, h10, h11⟩ := h
  cases ih
  simp only [infoHeaderAt, writeFileHeader, writeInfoHeader, encU16, encU32, encI32, u16At,
    u32At, i32At, List.cons_append, List.nil_append, List.getD_cons_zero, List.getD_cons_succ,
    List.append_assoc] at *
  simp only [BMPInfoHeader.mk.injEq]
  refine ⟨u32At_enc _ h1, i32At_enc _ h2 h2', i32At_enc _ h3 h3', u16At_enc _ h4 _ _ rfl rfl,
    u16At_enc _ h5 _ _ rfl rfl, u32At_enc _ h6, u32At_enc _ h7, i32At_enc _ h8 h8',
    i32At_enc _ h9 h9', u32At_enc _ h10, u32At_enc _ h11⟩

theorem length_writeFileHeader (fh : BMPFileHeader) : (writeFileHeader fh).length = 14 := rfl

theorem length_writeInfoHeader (ih : BMPInfoHeader) : (writeInfoHeader ih).length = 40 := rfl

/-! ## Success and failure of `openBMP` in terms of the bytes available -/

theorem openBMP_ok_of_available (bytes : List Byte) (h54 : 54 ≤ bytes.length)
    (hbc : (infoHeaderAt bytes).bitCount = 24 ∨ (infoHeaderAt bytes).bitCount = 32)
    (havail : (fileHeaderAt bytes).offsetData + bufferSizeAt bytes ≤ bytes.length) :
    openBMP (some bytes) =
      .ok { fileHeader := fileHeaderAt bytes, infoHeader := infoHeaderAt bytes,
            rowStride := computeRowStride (infoHeaderAt bytes).width
              (infoHeaderAt bytes).bitCount,
            pixelData := (bytes.drop (fileHeaderAt bytes).offsetData).take
              (bufferSizeAt bytes) } := by
  rw [openBMP_of_headers bytes h54, if_neg (by omega), if_neg]
  simp only [List.length_take, List.length_drop, ne_eq, not_not]
  omega

theorem openBMP_pixelRead_of_short (bytes : List Byte) (h54 : 54 ≤ bytes.length)
    (hbc : (infoHeaderAt bytes).bitCount = 24 ∨ (infoHeaderAt bytes).bitCount = 32)
    (hshort : bytes.length < (fileHeaderAt bytes).offsetData + bufferSizeAt bytes)
    (hpos : 0 < bufferSizeAt bytes) :
    openBMP (some bytes) = .error .pixelRead := by
  rw [openBMP_of_headers bytes h54, if_neg (by omega), if_pos]
  simp only [List.length_take, List.length_drop, ne_eq]
  omega

theorem openBMP_ok_spec (bs : List Byte) (img : BMPImage) (h : openBMP (some bs) = .ok img) :
    54 ≤ bs.length ∧
    ((infoHeaderAt bs).bitCount = 24 ∨ (infoHeaderAt bs).bitCount = 32) ∧
    img = { fileHeader := fileHeaderAt bs, infoHeader := infoHeaderAt bs,
            rowStride := computeRowStride (infoHeaderAt bs).width (infoHeaderAt bs).bitCount,
            pixelData := (bs.drop (fileHeaderAt bs).offsetData).take (bufferSizeAt bs) } ∧
    img.pixelData.length = bufferSizeAt bs := by
  have h54 := (openBMP_ok_headers bs img h).1
  rw [openBMP_of_headers bs h54] at h
  split at h
  · cases h
  · rename_i hb
    split at h
    · cases h
    · rename_i hp
      cases h
      exact ⟨h54, by omega, rfl, not_not.mp hp⟩

theorem toUInt32_of_pos (h : Int) (h0 : 0 ≤ h) (h1 : h < 4294967296) : toUInt32 h = h.toNat := by
  unfold toUInt32; omega

theorem bufferSizeAt_le (bytes : List Byte) (hw : 0 ≤ (infoHeaderAt bytes).width)
    (hh : 0 ≤ (infoHeaderAt bytes).height)
    (hfitw : (infoHeaderAt bytes).width * (((infoHeaderAt bytes).bitCount / 8 : Nat) : Int) + 3
      < 2147483648) :
    computeRowStride (infoHeaderAt bytes).width (infoHeaderAt bytes).bitCount
        = paddedRowBytes (infoHeaderAt bytes).width (infoHeaderAt bytes).bitCount ∧
    bufferSizeAt bytes = (paddedRowBytes (infoHeaderAt bytes).width (infoHeaderAt bytes).bitCount
        * (infoHeaderAt bytes).height.toNat) % 4294967296 := by
  have hrs := computeRowStride_of_fits (infoHeaderAt bytes).width (infoHeaderAt bytes).bitCount hw
    (by omega)
  have hr := (infoHeaderAt_inRange bytes).2.2.1
  refine ⟨hrs, ?_⟩
  unfold bufferSizeAt computeBufferSize
  rw [hrs, toUInt32_of_pos _ hh (by omega)]

/-- With the sizes in range, a source is decoded if it holds the declared pixel bytes and is
rejected by the pixel read if it does not. -/
theorem openBMP_of_fits (bytes : List Byte) (h54 : 54 ≤ bytes.length)
    (hbc : (infoHeaderAt bytes).bitCount = 24 ∨ (infoHeaderAt bytes).bitCount = 32)
    (hw : 0 < (infoHeaderAt bytes).width) (hh : 0 < (infoHeaderAt bytes).height)
    (hfitw : (infoHeaderAt bytes).width * (((infoHeaderAt bytes).bitCount / 8 : Nat) : Int) + 3
      < 2147483648)
    (hfit : paddedRowBytes (infoHeaderAt bytes).width (infoHeaderAt bytes).bitCount
      * (infoHeaderAt bytes).height.toNat < 4294967296) :
    (((fileHeaderAt bytes).offsetData
        + paddedRowBytes (infoHeaderAt bytes).width (infoHeaderAt bytes).bitCount
          * (infoHeaderAt bytes).height.toNat ≤ bytes.length) →
      openBMP (some bytes) =
        .ok { fileHeader := fileHeaderAt bytes, infoHeader := infoHeaderAt bytes,
              rowStride := paddedRowBytes (infoHeaderAt bytes).width
                (infoHeaderAt bytes).bitCount,
              pixelData := (bytes.drop (fileHeaderAt bytes).offsetData).take
                (paddedRowBytes (infoHeaderAt bytes).width (infoHeaderAt bytes).bitCount
                  * (infoHeaderAt bytes).height.toNat) }) ∧
    ((bytes.length < (fileHeaderAt bytes).offsetData
        + paddedRowBytes (infoHeaderAt bytes).width (infoHeaderAt bytes).bitCount
          * (infoHeaderAt bytes).height.toNat) →
      openBMP (some bytes) = .error .pixelRead) := by
  obtain ⟨hrs, hsz⟩ := bufferSizeAt_le bytes (le_of_lt hw) (le_of_lt hh) hfitw
  rw [Nat.mod_eq_of_lt hfit] at hsz
  constructor
  · intro hlen
    rw [openBMP_ok_of_available bytes h54 hbc (by omega), hrs, hsz]
  · intro hlen
    apply openBMP_pixelRead_of_short bytes h54 hbc (by omega)
    rw [hsz]
    have h1 := (paddedRowBytes_bounds (infoHeaderAt bytes).width (infoHeaderAt bytes).bitCount
      (le_of_lt hw)).2.1
    have h2 : 0 < (infoHeaderAt bytes).width * (((infoHeaderAt bytes).bitCount / 8 : Nat) : Int) := by
      rcases hbc with h | h <;> rw [h] <;> norm_num <;> omega
    have h3 : 0 < paddedRowBytes (infoHeaderAt bytes).width (infoHeaderAt bytes).bitCount := by
      omega
    have h4 : 0 < (infoHeaderAt bytes).height.toNat := by omega
    exact Nat.mul_pos h3 h4

/-! ## Claims C2 and C5: what `openBMP` decodes and what it rejects -/

theorem length_headerBytes (fh : BMPFileHeader) (ih : BMPInfoHeader) :
    (headerBytes fh ih).length = 54 := rfl

theorem infoHeaderAt_width (bs : List Byte) : (infoHeaderAt bs).width = i32At bs 18 := rfl

theorem infoHeaderAt_height (bs : List Byte) : (infoHeaderAt bs).height = i32At bs 22 := rfl

theorem infoHeaderAt_bitCount (bs : List Byte) : (infoHeaderAt bs).bitCount = u16At bs 28 := rfl

theorem fileHeaderAt_offsetData (bs : List Byte) :
    (fileHeaderAt bs).offsetData = u32At bs 10 := rfl

theorem u16At_append_left (a b : List Byte) (off : Nat) (h : off + 1 < a.length) :
    u16At (a ++ b) off = u16At a off := by
  have := u16At_patch_lt a [] b off h
  rwa [List.append_nil] at this

theorem u32At_append_left (a b : List Byte) (off : Nat) (h : off + 3 < a.length) :
    u32At (a ++ b) off = u32At a off := by
  have := u32At_patch_lt a [] b off h
  rwa [List.append_nil] at this

theorem tallFile_facts (n : Nat) :
    u16At (tallFile n) 28 = 32 ∧ (specTableInfoHeader (tallFile n)).bitCount = 32 ∧
      i32At (tallFile n) 18 = 1 ∧ i32At (tallFile n) 22 = 1073741824 ∧
      u32At (tallFile n) 10 = 54 ∧ bufferSizeAt (tallFile n) = 0 ∧
      (tallFile n).length = 54 + n := by
  have h28 : u16At (tallFile n) 28 = 32 := by
    rw [tallFile, u16At_append_left _ _ 28 (by decide)]; decide
  have h30 : u16At (tallFile n) 30 = 32 := by
    rw [tallFile, u16At_append_left _ _ 30 (by decide)]; decide
  have h18 : i32At (tallFile n) 18 = 1 := by
    rw [i32At, tallFile, u32At_append_left _ _ 18 (by decide)]; decide
  have h22 : i32At (tallFile n) 22 = 1073741824 := by
    rw [i32At, tallFile, u32At_append_left _ _ 22 (by decide)]; decide
  have h10 : u32At (tallFile n) 10 = 54 := by
    rw [tallFile, u32At_append_left _ _ 10 (by decide)]; decide
  refine ⟨h28, h30, h18, h22, h10, ?_, ?_⟩
  · rw [bufferSizeAt, infoHeaderAt_width, infoHeaderAt_height, infoHeaderAt_bitCount, h18, h22,
      h28]
    decide
  · rw [tallFile, List.length_append, List.length_replicate, length_headerBytes]

theorem openBMP_tallFile (n : Nat) :
    ∃ img, openBMP (some (tallFile n)) = .ok img ∧ img.pixelData = [] := by
  obtain ⟨h28, -, -, -, h10, hsz, hlen⟩ := tallFile_facts n
  have h := openBMP_ok_of_available (tallFile n) (by omega)
    (Or.inr (by rw [infoHeaderAt_bitCount]; exact h28))
    (by rw [hsz, hlen, fileHeaderAt_offsetData, h10]; omega)
  rw [hsz] at h
  exact ⟨_, h, rfl⟩

/-- Counterexample to claim C2, in two parts.  (1) `tableMismatchFile` declares 24 bits per
pixel at offset 28 and at offset 30 and holds its four pixel bytes; `openBMP` decodes it, but
`compression` in the image is 24, the value at offset 30, while the file-format table places
`compression` at offset 32, where the value is 262144.  (2) `hugeFile` holds the
`rowStride * height = 4 * 2^30 = 2^32` pixel bytes that its headers declare; `openBMP`
succeeds with an empty pixel buffer. -/
theorem openBMP_decodes_counterexample :
    (54 ≤ tableMismatchFile.length ∧ u16At tableMismatchFile 28 = 24 ∧
      (specTableInfoHeader tableMismatchFile).bitCount = 24 ∧
      (0 : Int) < i32At tableMismatchFile 18 ∧ (0 : Int) < i32At tableMismatchFile 22 ∧
      u32At tableMismatchFile 10 + paddedRowBytes 1 24 * 1 ≤ tableMismatchFile.length ∧
      ∃ img, openBMP (some tableMismatchFile) = .ok img ∧ img.infoHeader.compression = 24 ∧
        (specTableInfoHeader tableMismatchFile).compression = 262144) ∧
    (u16At hugeFile 28 = 32 ∧ (specTableInfoHeader hugeFile).bitCount = 32 ∧
      i32At hugeFile 18 = 1 ∧ i32At hugeFile 22 = 1073741824 ∧ u32At hugeFile 10 = 54 ∧
      paddedRowBytes 1 32 * 1073741824 = 4294967296 ∧
      hugeFile.length = 54 + paddedRowBytes 1 32 * 1073741824 ∧
      ∃ img, openBMP (some hugeFile) = .ok img ∧ img.pixelData = []) := by
  obtain ⟨h28, h30, h18, h22, h10, -, hlen⟩ := tallFile_facts 4294967296
  exact ⟨⟨by decide, by decide, by decide, by decide, by decide, by decide,
    ⟨{ onePixelImage with infoHeader := { onePixelImage.infoHeader with compression := 24 } },
      by decide, by decide, by decide⟩⟩,
    ⟨h28, h30, h18, h22, h10, by decide, hlen, openBMP_tallFile 4294967296⟩⟩

/-- Claim C2, amended: for every byte source that holds the 54 header bytes with `bitCount`
24 or 32, width > 0 and height > 0, whose sizes fit 32 bits (`width * bytesPerPixel + 3 < 2^31`
and `rowStride * height < 2^32`) and that has at least `offsetData + rowStride * height` bytes,
`openBMP` succeeds; the header fields are the little-endian values found at the offsets of the
packed structs (`fileHeaderAt`, `infoHeaderAt`: `planes` 26, `bitCount` 28, `compression` 30,
`imageSize` 34, resolutions 38 and 42, colour counts 46 and 50); `rowStride` is the padded row
length; and the pixel buffer has exactly `rowStride * height` bytes, equal to the source bytes
at positions `[offsetData, offsetData + rowStride * height)`. -/
theorem openBMP_decodes (bytes : List Byte) (h54 : 54 ≤ bytes.length)
    (hbc : u16At bytes 28 = 24 ∨ u16At bytes 28 = 32)
    (hw : 0 < i32At bytes 18) (hh : 0 < i32At bytes 22)
    (hfitw : i32At bytes 18 * ((u16At bytes 28 / 8 : Nat) : Int) + 3 < 2147483648)
    (hfit : paddedRowBytes (i32At bytes 18) (u16At bytes 28) * (i32At bytes 22).toNat
      < 4294967296)
    (hlen : u32At bytes 10
      + paddedRowBytes (i32At bytes 18) (u16At bytes 28) * (i32At bytes 22).toNat
        ≤ bytes.length) :
    ∃ img, openBMP (some bytes) = .ok img ∧
      img.fileHeader = fileHeaderAt bytes ∧ img.infoHeader = infoHeaderAt bytes ∧
      img.rowStride = paddedRowBytes (i32At bytes 18) (u16At bytes 28) ∧
      img.pixelData.length
        = paddedRowBytes (i32At bytes 18) (u16At bytes 28) * (i32At bytes 22).toNat ∧
      ∀ i, i < paddedRowBytes (i32At bytes 18) (u16At bytes 28) * (i32At bytes 22).toNat →
        img.pixelData[i]? = bytes[u32At bytes 10 + i]? := by
  have h := (openBMP_of_fits bytes h54 hbc hw hh hfitw hfit).1 hlen
  refine ⟨_, h, rfl, rfl, rfl, ?_, ?_⟩
  · simp only [List.length_take, List.length_drop]
    have : (fileHeaderAt bytes).offsetData = u32At bytes 10 := rfl
    have e1 : (infoHeaderAt bytes).width = i32At bytes 18 := rfl
    have e2 : (infoHeaderAt bytes).height = i32At bytes 22 := rfl
    have e3 : (infoHeaderAt bytes).bitCount = u16At bytes 28 := rfl
    rw [this, e1, e2, e3]
    omega
  · intro i hi
    have e1 : (infoHeaderAt bytes).width = i32At bytes 18 := rfl
    have e2 : (infoHeaderAt bytes).height = i32At bytes 22 := rfl
    have e3 : (infoHeaderAt bytes).bitCount = u16At bytes 28 := rfl
    simp only [e1, e2, e3]
    rw [List.getElem?_take_of_lt hi, List.getElem?_drop]
    rfl

/-- Witness for claim C2: the 1x1, 24-bit file of 58 bytes. -/
theorem openBMP_decodes_witness :
    54 ≤ onePixelFile.length ∧
      ∃ img, openBMP (some onePixelFile) = .ok img ∧
        img.fileHeader = fileHeaderAt onePixelFile ∧ img.infoHeader = infoHeaderAt onePixelFile ∧
        img.rowStride = paddedRowBytes (i32At onePixelFile 18) (u16At onePixelFile 28) ∧
        img.pixelData.length
          = paddedRowBytes (i32At onePixelFile 18) (u16At onePixelFile 28)
            * (i32At onePixelFile 22).toNat ∧
        ∀ i, i < paddedRowBytes (i32At onePixelFile 18) (u16At onePixelFile 28)
            * (i32At onePixelFile 22).toNat →
          img.pixelData[i]? = onePixelFile[u32At onePixelFile 10 + i]? :=
  ⟨by decide, openBMP_decodes onePixelFile (by decide) (by decide) (by decide) (by decide)
    (by decide) (by decide) (by decide)⟩

/-- Claim C5, the failing input: `overflowHeaderFile` has 54 bytes and complete headers that
declare 65536 x 65536 pixels of 32 bits, i.e. `rowStride * height = 2^34` pixel bytes, none of
which is present.  `openBMP` computes the buffer length modulo `2^32`, which is 0, reads 0
bytes and succeeds with an empty pixel buffer instead of failing. -/
theorem openBMP_accepts_overflowing_header :
    overflowHeaderFile.length = 54 ∧ u16At overflowHeaderFile 28 = 32 ∧
      i32At overflowHeaderFile 18 = 65536 ∧ i32At overflowHeaderFile 22 = 65536 ∧
      overflowHeaderFile.length
        < u32At overflowHeaderFile 10 + paddedRowBytes 65536 32 * 65536 ∧
      openBMP (some overflowHeaderFile) =
        .ok { fileHeader := { fileSize := 54 },
              infoHeader := { width := 65536, height := 65536, bitCount := 32 },
              rowStride := 262144, pixelData := [] } := by
  decide

/-! ## Claims C1 and C3: `saveBMP` and the round trip -/

/-- The image and the bytes that `saveBMP` produces. -/
theorem saveBMP_eq (img : BMPImage) :
    saveBMP true img =
      .ok ({ img with
              fileHeader := { img.fileHeader with
                fileSize := (54 + img.pixelData.length) % 4294967296 },
              infoHeader := { img.infoHeader with
                imageSize := img.pixelData.length % 4294967296 } },
           writeFileHeader { img.fileHeader with
                fileSize := (54 + img.pixelData.length) % 4294967296 }
             ++ writeInfoHeader { img.infoHeader with
                imageSize := img.pixelData.length % 4294967296 }
             ++ img.pixelData) := rfl

theorem drop_written (fh : BMPFileHeader) (ih : BMPInfoHeader) (px : List Byte) :
    (writeFileHeader fh ++ writeInfoHeader ih ++ px).drop 54 = px :=
  List.drop_left' (by rw [List.length_append, length_writeFileHeader, length_writeInfoHeader])

theorem length_written (fh : BMPFileHeader) (ih : BMPInfoHeader) (px : List Byte) :
    (writeFileHeader fh ++ writeInfoHeader ih ++ px).length = 54 + px.length := by
  rw [List.length_append, List.length_append, length_writeFileHeader, length_writeInfoHeader]

/-- The headers written by `saveBMP` are read back unchanged. -/
theorem headers_written (fh : BMPFileHeader) (ih : BMPInfoHeader) (px : List Byte)
    (hf : fh.InRange) (hi : ih.InRange) :
    fileHeaderAt (writeFileHeader fh ++ writeInfoHeader ih ++ px) = fh ∧
      infoHeaderAt (writeFileHeader fh ++ writeInfoHeader ih ++ px) = ih := by
  refine ⟨?_, infoHeaderAt_write fh ih px hi⟩
  rw [List.append_assoc]
  exact fileHeaderAt_write fh _ hf

/-- A file laid out by `saveBMP` with `offsetData = 54` is decoded to the headers and the
buffer it was written from, provided the buffer has the length the headers declare. -/
theorem openBMP_written (fh : BMPFileHeader) (ih : BMPInfoHeader) (px : List Byte)
    (hf : fh.InRange) (hi : ih.InRange) (hoff : fh.offsetData = 54)
    (hbc : ih.bitCount = 24 ∨ ih.bitCount = 32)
    (hsz : computeBufferSize (computeRowStride ih.width ih.bitCount) ih.height = px.length) :
    openBMP (some (writeFileHeader fh ++ writeInfoHeader ih ++ px)) =
      .ok { fileHeader := fh, infoHeader := ih,
            rowStride := computeRowStride ih.width ih.bitCount, pixelData := px } := by
  obtain ⟨e1, e2⟩ := headers_written fh ih px hf hi
  have hb : bufferSizeAt (writeFileHeader fh ++ writeInfoHeader ih ++ px) = px.length := by
    rw [bufferSizeAt, e2, hsz]
  rw [openBMP_ok_of_available _ (by rw [length_written]; omega) (by rw [e2]; exact hbc)
    (by rw [e1, hoff, hb, length_written]), e1, e2, hoff, hb, drop_written, List.take_length]

theorem roundTrip_eq (bytes : List Byte) (img img2 : BMPImage)
    (h1 : openBMP (some bytes) = .ok img)
    (h2 : openBMP (some
      (writeFileHeader { img.fileHeader with
            fileSize := (54 + img.pixelData.length) % 4294967296 }
        ++ writeInfoHeader { img.infoHeader with
            imageSize := img.pixelData.length % 4294967296 }
        ++ img.pixelData)) = .ok img2) :
    roundTrip bytes = .ok (img, img2) := by
  simp only [roundTrip, h1, saveBMP_eq, h2]

/-- The round trip through `saveBMP` of an image that `openBMP` produced with
`offsetData = 54`. -/
theorem roundTrip_of_ok (bytes : List Byte) (img : BMPImage)
    (h1 : openBMP (some bytes) = .ok img) (hoff : img.fileHeader.offsetData = 54) :
    roundTrip bytes =
      .ok (img, { img with
        fileHeader := { img.fileHeader with
          fileSize := (54 + img.pixelData.length) % 4294967296 },
        infoHeader := { img.infoHeader with imageSize := img.pixelData.length } }) := by
  obtain ⟨h54, hbc, himg, hlen⟩ := openBMP_ok_spec bytes img h1
  have hf : img.fileHeader.InRange := by rw [himg]; exact fileHeaderAt_inRange bytes
  have hi : img.infoHeader.InRange := by rw [himg]; exact infoHeaderAt_inRange bytes
  have hlt : img.pixelData.length < 4294967296 := by
    rw [hlen, bufferSizeAt, computeBufferSize]
    exact Nat.mod_lt _ (by decide)
  have hmod : img.pixelData.length % 4294967296 = img.pixelData.length :=
    Nat.mod_eq_of_lt hlt
  have hi1 : img.infoHeader = infoHeaderAt bytes := by rw [himg]
  have hrs : img.rowStride = computeRowStride img.infoHeader.width img.infoHeader.bitCount := by
    rw [himg]
  have hf' : ({ img.fileHeader with
      fileSize := (54 + img.pixelData.length) % 4294967296 } : BMPFileHeader).InRange := by
    obtain ⟨a, b, c, d, e⟩ := hf
    exact ⟨a, Nat.mod_lt _ (by decide), c, d, e⟩
  have hi' : ({ img.infoHeader with
      imageSize := img.pixelData.length } : BMPInfoHeader).InRange := by
    obtain ⟨a, b, c, d, e, f, g, h⟩ := hi
    exact ⟨a, b, c, d, e, f, hlt, h⟩
  have key := openBMP_written _ _ img.pixelData hf' hi' hoff
    (by show img.infoHeader.bitCount = 24 ∨ img.infoHeader.bitCount = 32
        rw [hi1]; exact hbc)
    (by show computeBufferSize (computeRowStride img.infoHeader.width img.infoHeader.bitCount)
          img.infoHeader.height = img.pixelData.length
        rw [hlen, hi1]; rfl)
  apply roundTrip_eq bytes img _ h1
  rw [hmod, key]
  show _ = Except.ok { img with
    fileHeader := { img.fileHeader with
      fileSize := (54 + img.pixelData.length) % 4294967296 },
    infoHeader := { img.infoHeader with imageSize := img.pixelData.length },
    rowStride := img.rowStride }
  rw [hrs]

/-- Counterexample to claim C1, in two parts.  (1) `zeroImageSizeFile` is a well-formed 1x1
file with `imageSize = 0`; the round trip succeeds and the pixel buffers agree, but the second
decode has `imageSize = 4`, not the value 0 of the first decode.  (2) `gapFile` is a
well-formed 1x1 file with `offsetData = 58`; `openBMP` decodes it, `saveBMP` writes the headers
with `offsetData = 58` followed at once by the four pixel bytes, and the second `openBMP` fails
on the pixel read. -/
theorem roundTrip_counterexample :
    (u16At zeroImageSizeFile 0 = 0x4D42 ∧ u16At zeroImageSizeFile 28 = 24 ∧
        u32At zeroImageSizeFile 30 = 0 ∧ i32At zeroImageSizeFile 18 = 1 ∧
        i32At zeroImageSizeFile 22 = 1 ∧ u32At zeroImageSizeFile 10 = 54 ∧
        54 + paddedRowBytes 1 24 * 1 ≤ zeroImageSizeFile.length ∧
        ∃ img img2, roundTrip zeroImageSizeFile = .ok (img, img2) ∧
          img.pixelData = img2.pixelData ∧ img.infoHeader.imageSize = 0 ∧
          img2.infoHeader.imageSize = 4) ∧
      (u16At gapFile 0 = 0x4D42 ∧ u16At gapFile 28 = 24 ∧ u32At gapFile 30 = 0 ∧
        i32At gapFile 18 = 1 ∧ i32At gapFile 22 = 1 ∧ u32At gapFile 10 = 58 ∧
        58 + paddedRowBytes 1 24 * 1 ≤ gapFile.length ∧
        (∃ img, openBMP (some gapFile) = .ok img) ∧
        roundTrip gapFile = .error .pixelRead) := by
  refine ⟨⟨by decide, by decide, by decide, by decide, by decide, by decide, by decide,
    { onePixelImage with infoHeader := { onePixelImage.infoHeader with imageSize := 0 } },
    onePixelImage, by decide, by decide, by decide, by decide⟩,
    by decide, by decide, by decide, by decide, by decide, by decide, by decide,
    ⟨{ onePixelImage with
        fileHeader := { onePixelImage.fileHeader with fileSize := 62, offsetData := 58 } },
      by decide⟩, by decide⟩

/-- Claim C1, amended: for every byte source with `bitCount` 24 or 32, width > 0 with
`width * bytesPerPixel + 3 < 2^31`, height > 0, `offsetData = 54` and at least
`54 + rowStride * height` bytes (whatever its signature and compression field), decoding it
with `openBMP`, encoding the result with `saveBMP` and decoding the written bytes again
succeeds, and the second decode yields the same pixel buffer, byte for byte, the same row
stride and the same header field values as the first decode except for `fileSize` and
`imageSize`, which hold `(54 + len) mod 2^32` and `len`, `len` being the buffer length. -/
theorem roundTrip_preserves (bytes : List Byte) (h54 : 54 ≤ bytes.length)
    (hbc : u16At bytes 28 = 24 ∨ u16At bytes 28 = 32)
    (hw : 0 < i32At bytes 18) (hh : 0 < i32At bytes 22)
    (hfitw : i32At bytes 18 * ((u16At bytes 28 / 8 : Nat) : Int) + 3 < 2147483648)
    (hoff : u32At bytes 10 = 54)
    (hlen : 54 + paddedRowBytes (i32At bytes 18) (u16At bytes 28) * (i32At bytes 22).toNat
      ≤ bytes.length) :
    ∃ img img2, openBMP (some bytes) = .ok img ∧ roundTrip bytes = .ok (img, img2) ∧
      img2.pixelData = img.pixelData ∧ img2.rowStride = img.rowStride ∧
      img2.fileHeader = { img.fileHeader with
        fileSize := (54 + img.pixelData.length) % 4294967296 } ∧
      img2.infoHeader = { img.infoHeader with imageSize := img.pixelData.length } := by
  obtain ⟨hrs, hsz⟩ := bufferSizeAt_le bytes (le_of_lt hw) (le_of_lt hh) hfitw
  have hle : bufferSizeAt bytes
      ≤ paddedRowBytes (i32At bytes 18) (u16At bytes 28) * (i32At bytes 22).toNat := by
    rw [hsz]; exact Nat.mod_le _ _
  have h1 := openBMP_ok_of_available bytes h54 hbc
    (by rw [fileHeaderAt_offsetData, hoff]; omega)
  exact ⟨_, _, h1, roundTrip_of_ok bytes _ h1 hoff, rfl, rfl, rfl, rfl⟩

/-- Witness for claim C1: the 1x1, 24-bit file of 58 bytes. -/
theorem roundTrip_preserves_witness :
    54 ≤ onePixelFile.length ∧ u32At onePixelFile 10 = 54 ∧
      ∃ img img2, openBMP (some onePixelFile) = .ok img ∧
        roundTrip onePixelFile = .ok (img, img2) ∧
        img2.pixelData = img.pixelData ∧ img2.rowStride = img.rowStride ∧
        img2.fileHeader = { img.fileHeader with
          fileSize := (54 + img.pixelData.length) % 4294967296 } ∧
        img2.infoHeader = { img.infoHeader with imageSize := img.pixelData.length } :=
  ⟨by decide, by decide,
    roundTrip_preserves onePixelFile (by decide) (by decide) (by decide) (by decide) (by decide)
      (by decide) (by decide)⟩

theorem length_hugeBuffer : hugeBufferImage.pixelData.length = 4294967292 :=
  List.length_replicate _ _

/-- What `saveBMP` does with a buffer of `2^32 - 4` bytes. -/
theorem saveBMP_fileSize_wraps (img : BMPImage) (hlen : img.pixelData.length = 4294967292)
    (hf : img.fileHeader.InRange) :
    ∃ saved out, saveBMP true img = .ok (saved, out) ∧
      saved.fileHeader.fileSize = 50 ∧ (fileHeaderAt out).fileSize = 50 ∧
      (50 : Nat) ≠ 54 + img.pixelData.length := by
  have h50 : (54 + img.pixelData.length) % 4294967296 = 50 := by rw [hlen]
  have hf' : ({ img.fileHeader with
      fileSize := (54 + img.pixelData.length) % 4294967296 } : BMPFileHeader).InRange := by
    obtain ⟨a, b, c, d, e⟩ := hf
    exact ⟨a, Nat.mod_lt _ (by decide), c, d, e⟩
  refine ⟨_, _, saveBMP_eq img, h50, ?_, ?_⟩
  · rw [List.append_assoc, fileHeaderAt_write _ _ hf']
    exact h50
  · rw [hlen]; decide

/-- Counterexample to claim C3: for the image with a pixel buffer of `2^32 - 4` bytes,
`saveBMP` stores and writes `fileSize = 50`, not `54 + len = 4294967346`. -/
theorem saveBMP_fileSize_counterexample :
    hugeBufferImage.fileHeader.InRange ∧ hugeBufferImage.infoHeader.InRange ∧
      hugeBufferImage.pixelData.length = 4294967292 ∧
      ∃ saved out, saveBMP true hugeBufferImage = .ok (saved, out) ∧
        saved.fileHeader.fileSize = 50 ∧ (fileHeaderAt out).fileSize = 50 ∧
        (50 : Nat) ≠ 54 + hugeBufferImage.pixelData.length :=
  ⟨by decide, by decide, length_hugeBuffer,
    saveBMP_fileSize_wraps hugeBufferImage length_hugeBuffer (by decide)⟩

/-- Claim C3, amended: for every image, `saveBMP` writes exactly `14 + 40 + len` bytes, where
`len` is the current pixel buffer length: the file header with
`fileSize = (54 + len) mod 2^32`, then the info header with `imageSize = len mod 2^32`, then
the pixel buffer verbatim (padding bytes included); the two sizes are `54 + len` and `len`
whenever `54 + len < 2^32`.  Every header field other than `fileSize` and `imageSize` is
written with the value it had before the call, whatever `fileSize` and `imageSize` the image
carried, and the image keeps the two sizes that were written. -/
theorem saveBMP_writes (img : BMPImage) (hf : img.fileHeader.InRange)
    (hi : img.infoHeader.InRange) :
    ∃ saved out, saveBMP true img = .ok (saved, out) ∧
      out.length = 14 + 40 + img.pixelData.length ∧
      fileHeaderAt out = { img.fileHeader with
        fileSize := (54 + img.pixelData.length) % 4294967296 } ∧
      infoHeaderAt out = { img.infoHeader with
        imageSize := img.pixelData.length % 4294967296 } ∧
      out.drop 54 = img.pixelData ∧
      saved = { img with fileHeader := fileHeaderAt out, infoHeader := infoHeaderAt out } ∧
      (54 + img.pixelData.length < 4294967296 →
        (fileHeaderAt out).fileSize = 54 + img.pixelData.length ∧
        (infoHeaderAt out).imageSize = img.pixelData.length) := by
  have hf' : ({ img.fileHeader with
      fileSize := (54 + img.pixelData.length) % 4294967296 } : BMPFileHeader).InRange := by
    obtain ⟨a, b, c, d, e⟩ := hf
    exact ⟨a, Nat.mod_lt _ (by decide), c, d, e⟩
  have hi' : ({ img.infoHeader with
      imageSize := img.pixelData.length % 4294967296 } : BMPInfoHeader).InRange := by
    obtain ⟨a, b, c, d, e, f, g, h⟩ := hi
    exact ⟨a, b, c, d, e, f, Nat.mod_lt _ (by decide), h⟩
  obtain ⟨e1, e2⟩ := headers_written _ _ img.pixelData hf' hi'
  refine ⟨_, _, saveBMP_eq img, ?_, e1, e2, drop_written _ _ _, ?_, ?_⟩
  · rw [length_written]
  · rw [e1, e2]
  · intro hlt
    rw [e1, e2]
    exact ⟨Nat.mod_eq_of_lt hlt, Nat.mod_eq_of_lt (by omega)⟩

/-- Witness for claim C3: the 1x1 image carrying stale sizes `fileSize = 0`, `imageSize = 0`. -/
theorem saveBMP_writes_witness :
    ({ onePixelImage with fileHeader := {}, infoHeader := { width := 1, height := 1 } }
        : BMPImage).fileHeader.InRange ∧
      ∃ saved out,
        saveBMP true { onePixelImage with fileHeader := {}, infoHeader := { width := 1, height := 1 } }
          = .ok (saved, out) ∧
        out.length = 14 + 40 + 4 ∧ (fileHeaderAt out).fileSize = 58 ∧
        (infoHeaderAt out).imageSize = 4 ∧ out.drop 54 = [10, 20, 30, 0] := by
  obtain ⟨saved, out, h1, h2, h3, h4, h5, -, -⟩ :=
    saveBMP_writes { onePixelImage with fileHeader := {}, infoHeader := { width := 1, height := 1 } }
      (by decide) (by decide)
  exact ⟨by decide, saved, out, h1, h2, by rw [h3]; rfl, by rw [h4]; rfl, h5⟩

/-! ## Pixel addressing within the `int` range -/

theorem toUInt32_natCast (n : Nat) (h : n < 4294967296) : toUInt32 (n : Int) = n := by
  unfold toUInt32; omega

theorem toInt32_of_lt (n : Nat) (h : n < 2147483648) : toInt32 n = (n : Int) := by
  unfold toInt32; split <;> omega

theorem wrapInt32_natCast (n : Nat) (h : n < 2147483648) : wrapInt32 (n : Int) = (n : Int) := by
  unfold wrapInt32; rw [toUInt32_natCast n (by omega), toInt32_of_lt n h]

theorem getPixelIndex_of_fits (img : BMPImage) (x y : Nat) (hy : y < 2147483648)
    (hx : x * (img.infoHeader.bitCount / 8) < 2147483648)
    (h : pixelOffset img x y < 2147483648) :
    getPixelIndex img (x : Int) (y : Int) = (pixelOffset img x y : Int) := by
  unfold getPixelIndex pixelOffset at *
  have e2 : ((x : Int) * ((img.infoHeader.bitCount / 8 : Nat) : Int))
      = ((x * (img.infoHeader.bitCount / 8) : Nat) : Int) := by push_cast; rfl
  rw [e2, wrapInt32_natCast _ hx, toUInt32_natCast _ (by omega), toUInt32_natCast _ (by omega),
    Nat.mod_eq_of_lt (by omega), toInt32_of_lt _ h]

theorem readByte_natCast (data : List Byte) (k : Nat) : readByte data (k : Int) = data[k]? := by
  simp [readByte]

theorem getElem?_eq_getD (data : List Byte) (k : Nat) (h : k < data.length) :
    data[k]? = some (data.getD k 0) := by
  simp [List.getElem?_eq_getElem h]

/-- The three reads of a pixel whose bytes lie inside the buffer and below `2^31`. -/
theorem reads_of_fits (img : BMPImage) (x y : Nat) (hy : y < 2147483648)
    (hx : x * (img.infoHeader.bitCount / 8) < 2147483648)
    (hlen : pixelOffset img x y + 2 < img.pixelData.length)
    (h31 : pixelOffset img x y + 2 < 2147483648) :
    readByte img.pixelData (getPixelIndex img x y) = some (blueAt img img.pixelData x y) ∧
    readByte img.pixelData (wrapInt32 (getPixelIndex img x y + 1))
      = some (greenAt img img.pixelData x y) ∧
    readByte img.pixelData (wrapInt32 (getPixelIndex img x y + 2))
      = some (redAt img img.pixelData x y) := by
  rw [getPixelIndex_of_fits img x y hy hx (by omega)]
  have e1 : ((pixelOffset img x y : Nat) : Int) + 1 = ((pixelOffset img x y + 1 : Nat) : Int) := by
    push_cast; rfl
  have e2 : ((pixelOffset img x y : Nat) : Int) + 2 = ((pixelOffset img x y + 2 : Nat) : Int) := by
    push_cast; rfl
  rw [e1, e2, wrapInt32_natCast _ (by omega), wrapInt32_natCast _ (by omega), readByte_natCast,
    readByte_natCast, readByte_natCast, getElem?_eq_getD _ _ (by omega),
    getElem?_eq_getD _ _ (by omega), getElem?_eq_getD _ _ hlen]
  exact ⟨rfl, rfl, rfl⟩

/-! ## The scan of `hasMoreThanTwoColors` -/

theorem scanRow_succ (img : BMPImage) (y : Int) (x n : Nat) :
    scanRow img y x (n + 1) =
    match readByte img.pixelData (getPixelIndex img x y) with
    | none => none
    | some blue =>
      match readByte img.pixelData (wrapInt32 (getPixelIndex img x y + 1)) with
      | none => none
      | some green =>
        match readByte img.pixelData (wrapInt32 (getPixelIndex img x y + 2)) with
        | none => none
        | some red =>
          if !(isBlackOrWhite red green blue) then some true
          else scanRow img y (x + 1) n := rfl

theorem scanRow_step (img : BMPImage) (y : Int) (x n : Nat) (blue green red : Byte)
    (h1 : readByte img.pixelData (getPixelIndex img x y) = some blue)
    (h2 : readByte img.pixelData (wrapInt32 (getPixelIndex img x y + 1)) = some green)
    (h3 : readByte img.pixelData (wrapInt32 (getPixelIndex img x y + 2)) = some red) :
    scanRow img y x (n + 1)
      = if !(isBlackOrWhite red green blue) then some true else scanRow img y (x + 1) n := by
  rw [scanRow_succ, h1, h2, h3]

theorem scanRows_succ (img : BMPImage) (y : Int) (n : Nat) :
    scanRows img y (n + 1) =
    match scanRow img y 0 img.infoHeader.width.toNat with
    | none => none
    | some true => some true
    | some false => scanRows img (y + 1) n := rfl

theorem scanRow_spec (img : BMPImage) (y : Nat) (n x : Nat)
    (h : ∀ x', x ≤ x' → x' < x + n → Addressable img x' y) :
    scanRow img (y : Int) x n
      = some ((List.range' x n).any (fun x' => !pixelIsBlackOrWhite img img.pixelData x' y)) := by
  induction n generalizing x with
  | zero => rfl
  | succ n ih =>
    obtain ⟨hy, hx, hlen, h31⟩ := h x (le_refl x) (by omega)
    obtain ⟨r1, r2, r3⟩ := reads_of_fits img x y hy hx hlen h31
    rw [List.range'_succ, List.any_cons, scanRow_step img y x n _ _ _ r1 r2 r3]
    by_cases hbw : isBlackOrWhite (redAt img img.pixelData x y) (greenAt img img.pixelData x y)
        (blueAt img img.pixelData x y) = true
    · rw [ih (x + 1) (fun x' h1 h2 => h x' (by omega) (by omega))]
      simp [pixelIsBlackOrWhite, hbw]
    · simp [pixelIsBlackOrWhite, hbw]

theorem scanRows_spec (img : BMPImage) (n y : Nat)
    (h : ∀ y', y ≤ y' → y' < y + n → ∀ x', x' < img.infoHeader.width.toNat →
      Addressable img x' y') :
    scanRows img (y : Int) n
      = some ((List.range' y n).any (fun y' =>
          (List.range' 0 img.infoHeader.width.toNat).any
            (fun x' => !pixelIsBlackOrWhite img img.pixelData x' y'))) := by
  induction n generalizing y with
  | zero => rfl
  | succ n ih =>
    have hrow := scanRow_spec img y img.infoHeader.width.toNat 0
      (fun x' _ h2 => h y (le_refl y) (by omega) x' (by omega))
    rw [List.range'_succ, List.any_cons, scanRows_succ, hrow]
    cases hb : (List.range' 0 img.infoHeader.width.toNat).any
        (fun x' => !pixelIsBlackOrWhite img img.pixelData x' y)
    · have := ih (y + 1) (fun y' h1 h2 => h y' (by omega) (by omega))
      push_cast at this
      simp only [this, Bool.false_or]
    · simp

/-! ## Pixels of a well-formed image -/

theorem div8_of_bitCount (bc : Nat) (h : bc = 24 ∨ bc = 32) : bc / 8 = 3 ∨ bc / 8 = 4 := by
  rcases h with rfl | rfl
  · left; rfl
  · right; rfl

/-- In a well-formed image every in-bounds pixel lies inside the buffer, together with the
row it belongs to. -/
theorem pixelOffset_bound (img : BMPImage) (hwf : WellFormed img) (x y : Nat)
    (hx : x < img.infoHeader.width.toNat) (hy : y < img.infoHeader.height.toNat) :
    pixelOffset img x y + img.infoHeader.bitCount / 8 ≤ y * img.rowStride + img.rowStride ∧
    y * img.rowStride + img.rowStride ≤ img.pixelData.length ∧
    y ≤ y * img.rowStride ∧
    img.infoHeader.width.toNat * (img.infoHeader.bitCount / 8) ≤ img.rowStride := by
  obtain ⟨hw, hh, hbc, hrs, hlen⟩ := hwf
  have hb := div8_of_bitCount _ hbc
  have h1 : (x + 1) * (img.infoHeader.bitCount / 8)
      ≤ img.infoHeader.width.toNat * (img.infoHeader.bitCount / 8) :=
    Nat.mul_le_mul_right _ hx
  have h2 : (y + 1) * img.rowStride ≤ img.infoHeader.height.toNat * img.rowStride :=
    Nat.mul_le_mul_right _ hy
  have h3 : img.infoHeader.width.toNat * (img.infoHeader.bitCount / 8) ≤ img.rowStride := by
    rw [hrs, paddedRowBytes]; omega
  have h4 : 0 < img.rowStride := by
    have : 0 < img.infoHeader.width.toNat := by omega
    have : 0 < img.infoHeader.width.toNat * (img.infoHeader.bitCount / 8) :=
      Nat.mul_pos this (by omega)
    omega
  have h5 : y ≤ y * img.rowStride := Nat.le_mul_of_pos_right y h4
  rw [Nat.add_mul, Nat.one_mul] at h1 h2
  rw [hlen, Nat.mul_comm img.rowStride]
  unfold pixelOffset
  exact ⟨by omega, by omega, h5, h3⟩

theorem addressable_of_wellFormed (img : BMPImage) (hwf : WellFormed img)
    (hlen : img.pixelData.length ≤ 2147483648) (x y : Nat)
    (hx : x < img.infoHeader.width.toNat) (hy : y < img.infoHeader.height.toNat) :
    Addressable img x y := by
  obtain ⟨h1, h2, h3, h4⟩ := pixelOffset_bound img hwf x y hx hy
  have hb := div8_of_bitCount _ hwf.2.2.1
  unfold Addressable
  unfold pixelOffset at *
  refine ⟨by omega, by omega, by omega, by omega⟩

theorem isBlackOrWhite_iff (r g b : Byte) :
    isBlackOrWhite r g b = true ↔
      (r = 0 ∧ g = 0 ∧ b = 0) ∨ (r = 255 ∧ g = 255 ∧ b = 255) := by
  simp only [isBlackOrWhite, Bool.or_eq_true, Bool.and_eq_true, decide_eq_true_eq]
  tauto

/-- The value of `hasMoreThanTwoColors` when every pixel can be addressed. -/
theorem hasMoreThanTwoColors_spec (img : BMPImage) (hwf : WellFormed img)
    (hlen : img.pixelData.length ≤ 2147483648) :
    hasMoreThanTwoColors img
      = some ((List.range' 0 img.infoHeader.height.toNat).any (fun y' =>
          (List.range' 0 img.infoHeader.width.toNat).any
            (fun x' => !pixelIsBlackOrWhite img img.pixelData x' y'))) := by
  have := scanRows_spec img img.infoHeader.height.toNat 0
    (fun y' _ h2 x' hx' => addressable_of_wellFormed img hwf hlen x' y' hx' (by omega))
  exact this

theorem any_any_eq_false_iff (h w : Nat) (p : Nat → Nat → Bool) :
    ((List.range' 0 h).any (fun y' => (List.range' 0 w).any (fun x' => !p x' y'))) = false ↔
      ∀ y, y < h → ∀ x, x < w → p x y = true := by
  rw [Bool.eq_false_iff]
  simp only [ne_eq, List.any_eq_true, List.mem_range'_1, Bool.not_eq_true', not_exists, not_and,
    Bool.not_eq_false, Nat.zero_le, Nat.zero_add, true_and]

/-! ## Claim C9: `isBinary` -/

theorem wellFormed_blackColumn (rows : Nat) (h : 0 < rows) : WellFormed (blackColumn rows) := by
  refine ⟨?_, ?_, Or.inr rfl, ?_, ?_⟩
  · show (0 : Int) < 1
    decide
  · show (0 : Int) < (rows : Int)
    omega
  · show 4 = paddedRowBytes 1 32
    decide
  · show (List.replicate (4 * rows) (0 : Byte)).length = 4 * ((rows : Int)).toNat
    rw [List.length_replicate, Int.toNat_ofNat]

theorem getD_replicate_zero (n i : Nat) : (List.replicate n (0 : Byte)).getD i 0 = 0 := by
  rw [List.getD_eq_getElem?_getD, List.getElem?_replicate]
  split <;> rfl

theorem blackColumn_black (rows x y : Nat) :
    redAt (blackColumn rows) (blackColumn rows).pixelData x y = 0 ∧
    greenAt (blackColumn rows) (blackColumn rows).pixelData x y = 0 ∧
    blueAt (blackColumn rows) (blackColumn rows).pixelData x y = 0 :=
  ⟨getD_replicate_zero _ _, getD_replicate_zero _ _, getD_replicate_zero _ _⟩

theorem scanRow_blackColumn_ok (rows y : Nat) (hy : y < rows) (h29 : y < 536870912) :
    scanRow (blackColumn rows) (y : Int) 0 1 = some false := by
  have ha : ∀ x', 0 ≤ x' → x' < 0 + 1 → Addressable (blackColumn rows) x' y := by
    intro x' _ hx'
    have hx0 : x' = 0 := by omega
    subst hx0
    have hl : (blackColumn rows).pixelData.length = 4 * rows := List.length_replicate _ _
    have ho : pixelOffset (blackColumn rows) 0 y = y * 4 := by
      show y * 4 + 0 * (32 / 8) = y * 4
      omega
    refine ⟨by omega, ?_, by rw [ho, hl]; omega, by rw [ho]; omega⟩
    show 0 * (32 / 8) < 2147483648
    decide
  rw [scanRow_spec (blackColumn rows) y 1 0 ha]
  obtain ⟨h1, h2, h3⟩ := blackColumn_black rows 0 y
  simp only [List.range'_one, List.any_cons, List.any_nil, Bool.or_false,
    pixelIsBlackOrWhite, h1, h2, h3]
  rfl

theorem scanRow_blackColumn_bad (rows : Nat) :
    scanRow (blackColumn rows) ((536870912 : Nat) : Int) 0 1 = none := by
  have hi : getPixelIndex (blackColumn rows) ((0 : Nat) : Int) ((536870912 : Nat) : Int)
      = -2147483648 := by
    show toInt32 ((toUInt32 ((536870912 : Nat) : Int) * 4) % 4294967296
      + toUInt32 (wrapInt32 (((0 : Nat) : Int) * ((32 / 8 : Nat) : Int)))) = -2147483648
    decide
  rw [scanRow_succ, hi]
  rfl

/-- The scan of a black column of more than `2^29` rows goes through the rows below `2^29`
and leaves the buffer at row `2^29`, where the offset no longer fits an `int`. -/
theorem scanRows_blackColumn (rows : Nat) (h : 536870912 < rows) (n y : Nat)
    (hy : y + n = 536870912) (m : Nat) :
    scanRows (blackColumn rows) (y : Int) (n + (m + 1)) = none := by
  have hw : (blackColumn rows).infoHeader.width.toNat = 1 := rfl
  induction n generalizing y with
  | zero =>
    have hy' : y = 536870912 := by omega
    subst hy'
    rw [Nat.zero_add, scanRows_succ, hw, scanRow_blackColumn_bad]
  | succ n ih =>
    have e : n + 1 + (m + 1) = (n + (m + 1)) + 1 := by omega
    rw [e, scanRows_succ, hw, scanRow_blackColumn_ok rows y (by omega) (by omega)]
    have := ih (y + 1) (by omega)
    push_cast at this
    exact this

theorem isBinary_blackColumn (rows : Nat) (h : 536870912 < rows) :
    isBinary (blackColumn rows) = none := by
  have e : (blackColumn rows).infoHeader.height.toNat = 536870912 + ((rows - 536870913) + 1) := by
    have : (blackColumn rows).infoHeader.height.toNat = ((rows : Nat) : Int).toNat := rfl
    rw [this, Int.toNat_ofNat]; omega
  have := scanRows_blackColumn rows h 536870912 0 (by omega) (rows - 536870913)
  rw [Nat.cast_zero] at this
  rw [isBinary, hasMoreThanTwoColors, e, this]
  rfl

/-- Counterexample to claim C9: the image of one column of `2^29 + 1` black 32-bit pixels is
well-formed (width 1, height `2^29 + 1`, row stride 4, buffer of `2^31 + 4` bytes) and every
pixel is (0, 0, 0), but `isBinary` does not return true: at row `2^29` the offset
`y * rowStride = 2^31` is returned by `getPixelIndex` as the `int` `-2^31`, and the read
`pixelData[index]` is outside the buffer. -/
theorem isBinary_counterexample :
    WellFormed (blackColumn 536870913) ∧
      (∀ y, y < 536870913 → ∀ x, x < 1 →
        redAt (blackColumn 536870913) (blackColumn 536870913).pixelData x y = 0 ∧
        greenAt (blackColumn 536870913) (blackColumn 536870913).pixelData x y = 0 ∧
        blueAt (blackColumn 536870913) (blackColumn 536870913).pixelData x y = 0) ∧
      isBinary (blackColumn 536870913) = none :=
  ⟨wellFormed_blackColumn 536870913 (by decide),
    fun y _ x _ => blackColumn_black 536870913 x y,
    isBinary_blackColumn 536870913 (by decide)⟩

/-- Claim C9, amended: for every well-formed image (width > 0, height > 0, 24 or 32 bits per
pixel, padded rows, buffer length `rowStride * height`) whose buffer has at most `2^31` bytes,
so that every pixel offset fits the `int` that `getPixelIndex` returns, `isBinary` (the
negation of `hasMoreThanTwoColors`) returns a value, and it returns true if and only if every
pixel `(x, y)` with `x < width`, `y < height` has `(r, g, b)` equal to `(0, 0, 0)` or
`(255, 255, 255)`.  Padding bytes and the alpha byte never influence the result: an image
with the same headers and the same three channels at every pixel gives the same result. -/
theorem isBinary_iff (img : BMPImage) (hwf : WellFormed img)
    (hlen : img.pixelData.length ≤ 2147483648) :
    (isBinary img = some true ∨ isBinary img = some false) ∧
    (isBinary img = some true ↔
      ∀ y, y < img.infoHeader.height.toNat → ∀ x, x < img.infoHeader.width.toNat →
        (redAt img img.pixelData x y = 0 ∧ greenAt img img.pixelData x y = 0
            ∧ blueAt img img.pixelData x y = 0) ∨
          (redAt img img.pixelData x y = 255 ∧ greenAt img img.pixelData x y = 255
            ∧ blueAt img img.pixelData x y = 255)) ∧
    (∀ img' : BMPImage, img'.infoHeader = img.infoHeader → img'.rowStride = img.rowStride →
      img'.pixelData.length = img.pixelData.length →
      (∀ y, y < img.infoHeader.height.toNat → ∀ x, x < img.infoHeader.width.toNat →
        redAt img' img'.pixelData x y = redAt img img.pixelData x y ∧
        greenAt img' img'.pixelData x y = greenAt img img.pixelData x y ∧
        blueAt img' img'.pixelData x y = blueAt img img.pixelData x y) →
      isBinary img' = isBinary img) := by
  have key : ∀ im : BMPImage, WellFormed im → im.pixelData.length ≤ 2147483648 →
      isBinary im = some (!((List.range' 0 im.infoHeader.height.toNat).any (fun y' =>
          (List.range' 0 im.infoHeader.width.toNat).any
            (fun x' => !pixelIsBlackOrWhite im im.pixelData x' y')))) := by
    intro im h1 h2
    rw [isBinary, hasMoreThanTwoColors_spec im h1 h2]
    rfl
  have hiff : ∀ im : BMPImage, WellFormed im → im.pixelData.length ≤ 2147483648 →
      (isBinary im = some true ↔
        ∀ y, y < im.infoHeader.height.toNat → ∀ x, x < im.infoHeader.width.toNat →
          pixelIsBlackOrWhite im im.pixelData x y = true) := by
    intro im h1 h2
    rw [key im h1 h2, ← any_any_eq_false_iff]
    simp
  refine ⟨?_, ?_, ?_⟩
  · rw [key img hwf hlen]
    cases ((List.range' 0 img.infoHeader.height.toNat).any (fun y' =>
          (List.range' 0 img.infoHeader.width.toNat).any
            (fun x' => !pixelIsBlackOrWhite img img.pixelData x' y')))
    · left; rfl
    · right; rfl
  · rw [hiff img hwf hlen]
    constructor
    · intro h y hy x hx
      exact (isBlackOrWhite_iff _ _ _).mp (h y hy x hx)
    · intro h y hy x hx
      exact (isBlackOrWhite_iff _ _ _).mpr (h y hy x hx)
  · intro img' hi hr hl hpix
    have hwf' : WellFormed img' := by
      unfold WellFormed
      rw [hi, hr, hl]
      exact hwf
    have hlen' : img'.pixelData.length ≤ 2147483648 := by rw [hl]; exact hlen
    have h1 := hiff img hwf hlen
    have h2 := hiff img' hwf' hlen'
    have h3 : isBinary img' = some true ↔ isBinary img = some true := by
      rw [h1, h2, hi]
      constructor
      · intro h y hy x hx
        have := h y hy x hx
        obtain ⟨e1, e2, e3⟩ := hpix y hy x hx
        rw [pixelIsBlackOrWhite, e1, e2, e3] at this
        exact this
      · intro h y hy x hx
        have := h y hy x hx
        obtain ⟨e1, e2, e3⟩ := hpix y hy x hx
        rw [pixelIsBlackOrWhite, e1, e2, e3]
        exact this
    rw [key img hwf hlen, key img' hwf' hlen'] at h3 ⊢
    generalize ((List.range' 0 img'.infoHeader.height.toNat).any (fun y' =>
          (List.range' 0 img'.infoHeader.width.toNat).any
            (fun x' => !pixelIsBlackOrWhite img' img'.pixelData x' y'))) = a at h3 ⊢
    generalize ((List.range' 0 img.infoHeader.height.toNat).any (fun y' =>
          (List.range' 0 img.infoHeader.width.toNat).any
            (fun x' => !pixelIsBlackOrWhite img img.pixelData x' y'))) = b at h3 ⊢
    cases a <;> cases b <;> simp at h3 ⊢

/-- Witness for claim C9: the 2x2, 24-bit image with rows white, black and black, white
(padding bytes 7 and 9) gives true. -/
theorem isBinary_iff_witness :
    WellFormed checkerImage ∧ checkerImage.pixelData.length ≤ 2147483648 ∧
      isBinary checkerImage = some true :=
  ⟨by decide, by decide,
    (isBinary_iff checkerImage (by decide) (by decide)).2.1.mpr (by decide)⟩

theorem bitLenAux_le (fuel n k : Nat) (h : n < 2 ^ k) : bitLenAux fuel n ≤ k := by
  induction fuel generalizing n k with
  | zero => exact Nat.zero_le _
  | succ f ih =>
    rw [bitLenAux]
    split
    · exact Nat.zero_le _
    · rename_i hn
      cases k with
      | zero => simp at h; omega
      | succ k =>
        have : n / 2 < 2 ^ k := by
          rw [Nat.pow_succ] at h; omega
        have := ih (n / 2) k this
        omega

theorem roundDouble_error (n : Nat) (h : n < 18446744073709551616) :
    roundDouble n ≤ n + 2048 ∧ n < roundDouble n + 2048 := by
  have hs : bitLen n - 53 ≤ 11 := by
    have := bitLenAux_le n n 64 (by norm_num; exact h)
    unfold bitLen; omega
  have hP : 0 < 2 ^ (bitLen n - 53) ∧ 2 ^ (bitLen n - 53) ≤ 2048 := by
    refine ⟨Nat.pos_pow_of_pos _ (by decide), ?_⟩
    calc 2 ^ (bitLen n - 53) ≤ 2 ^ 11 := Nat.pow_le_pow_right (by decide) hs
      _ = 2048 := by norm_num
  unfold roundDouble roundNearestEven
  simp only [Nat.one_mul, Nat.div_one]
  generalize 2 ^ (bitLen n - 53) = P at hP
  have hdm := Nat.div_add_mod n P
  have hr := Nat.mod_lt n hP.1
  generalize n / P = q at *
  generalize n % P = r at *
  have e1 : (q + 1) * P = P * q + P := by ring
  have e2 : q * P = P * q := Nat.mul_comm _ _
  split
  · rw [e2]; omega
  · rw [e1]; omega

theorem doubleOfDecimal_values :
    doubleOfDecimal 2126 = 15319444492463480 ∧ doubleOfDecimal 7152 = 51535591255926056 ∧
      doubleOfDecimal 722 = 5202558289538397 ∧ brightness_factor = 9223372036854775808 := by
  decide

theorem brightness_bounds (red green blue : Byte) :
    (1280000 < luma10000 red green blue → brightness_factor ≤ brightness red green blue) ∧
    (luma10000 red green blue < 1280000 → brightness red green blue < brightness_factor) := by
  obtain ⟨c1, c2, c3, c4⟩ := doubleOfDecimal_values
  have hr := red.isLt
  have hg := green.isLt
  have hb := blue.isLt
  unfold brightness luma10000
  rw [c1, c2, c3, c4]
  have a1 := roundDouble_error (15319444492463480 * red.val) (by omega)
  have a2 := roundDouble_error (51535591255926056 * green.val) (by omega)
  have a3 := roundDouble_error (5202558289538397 * blue.val) (by omega)
  generalize roundDouble (15319444492463480 * red.val) = A at *
  generalize roundDouble (51535591255926056 * green.val) = B at *
  generalize roundDouble (5202558289538397 * blue.val) = C at *
  have a4 := roundDouble_error (A + B) (by omega)
  generalize roundDouble (A + B) = S1 at *
  have a5 := roundDouble_error (S1 + C) (by omega)
  generalize roundDouble (S1 + C) = S at *
  constructor
  · intro h; omega
  · intro h; omega

set_option maxRecDepth 100000 in
theorem tieCheck_all : ∀ b, b < 256 → tieCheck b = true := by
  decide

theorem lumaTies_complete (red green blue : Byte) (h : luma10000 red green blue = 1280000) :
    (red.val, green.val, blue.val) ∈ lumaTies := by
  have hr := red.isLt
  have hg := green.isLt
  have hc := tieCheck_all blue.val blue.isLt
  unfold luma10000 at h
  unfold tieCheck at hc
  have e0 : ((640000 - 361 * blue.val) * 640) % 1063 = green.val := by omega
  simp only [e0] at hc
  have e1 : 640000 - 361 * blue.val - 3576 * green.val = 1063 * red.val := by omega
  simp only [e1] at hc
  have e2 : 1063 * red.val / 1063 = red.val := by omega
  have e3 : 1063 * red.val % 1063 = 0 := by omega
  rw [e2, e3] at hc
  have hs : 3576 * green.val ≤ 640000 - 361 * blue.val := by omega
  simp only [hs, hr, hg, and_self, if_true, true_and] at hc
  simpa using hc

theorem lumaTies_brightness :
    ∀ t ∈ lumaTies,
      (brightness (byteOf t.1) (byteOf t.2.1) (byteOf t.2.2) < brightness_factor
        ↔ t ∈ blackTies) := by
  decide

theorem lumaTies_luma :
    ∀ t ∈ lumaTies, 2126 * t.1 + 7152 * t.2.1 + 722 * t.2.2 = 1280000 := by
  decide

theorem byteOf_val (b : Byte) : byteOf b.val = b := by
  apply Fin.ext
  simp only [byteOf]
  exact Nat.mod_eq_of_lt b.isLt

/-- The comparison of line 129 in terms of the exact luminance. -/
theorem brightness_lt_iff (red green blue : Byte) :
    brightness red green blue < brightness_factor ↔
      (luma10000 red green blue < 1280000 ∨ (red.val, green.val, blue.val) ∈ blackTies) := by
  obtain ⟨h1, h2⟩ := brightness_bounds red green blue
  have hsub : ∀ t, t ∈ blackTies → t ∈ lumaTies := by decide
  have hluma : ∀ t ∈ lumaTies, ∀ r g b : Byte, (r.val, g.val, b.val) = t →
      luma10000 r g b = 1280000 := by
    intro t ht r g b e
    have := lumaTies_luma t ht
    rw [← e] at this
    exact this
  rcases Nat.lt_trichotomy (luma10000 red green blue) 1280000 with hlt | heq | hgt
  · exact ⟨fun _ => Or.inl hlt, fun _ => h2 hlt⟩
  · have hmem := lumaTies_complete red green blue heq
    have := lumaTies_brightness _ hmem
    simp only [byteOf_val] at this
    rw [this]
    constructor
    · intro h; exact Or.inr h
    · rintro (h | h)
      · omega
      · exact h
  · constructor
    · intro h; have := h1 hgt; omega
    · rintro (h | h)
      · omega
      · have := hluma _ (hsub _ h) red green blue rfl
        omega

/-! ## The loops of `convertRow` -/

theorem writeByte_natCast (d : List Byte) (k : Nat) (v : Byte) (h : k < d.length) :
    writeByte d (k : Int) v = some (d.set k v) := by
  simp [writeByte, h]

theorem length_write3 (d : List Byte) (off : Nat) (v : Byte) :
    (write3 d off v).length = d.length := by
  simp [write3]

theorem convertPixel_of_fits (img : BMPImage) (x y : Nat) (d : List Byte)
    (ha : Addressable img x y) (hd : d.length = img.pixelData.length) :
    convertPixel img (x : Int) (y : Int) d
      = some (write3 d (pixelOffset img x y) (binarizedValue img x y)) := by
  obtain ⟨hy, hx, hlen, h31⟩ := ha
  obtain ⟨r1, r2, r3⟩ := reads_of_fits img x y hy hx hlen h31
  unfold convertPixel
  simp only [r1, r2, r3]
  rw [getPixelIndex_of_fits img x y hy hx (by omega)]
  have e1 : ((pixelOffset img x y : Nat) : Int) + 1 = ((pixelOffset img x y + 1 : Nat) : Int) := by
    push_cast; rfl
  have e2 : ((pixelOffset img x y : Nat) : Int) + 2 = ((pixelOffset img x y + 2 : Nat) : Int) := by
    push_cast; rfl
  rw [e1, e2, wrapInt32_natCast _ (by omega), wrapInt32_natCast _ (by omega),
    writeByte_natCast _ _ _ (by omega)]
  simp only []
  rw [writeByte_natCast _ _ _ (by rw [List.length_set]; omega)]
  simp only []
  rw [writeByte_natCast _ _ _ (by rw [List.length_set, List.length_set]; omega)]
  rfl

theorem convertCols_succ (img : BMPImage) (y : Int) (x n : Nat) (d : List Byte) :
    convertCols img y x (n + 1) d =
    match convertPixel img x y d with
    | none => none
    | some d' => convertCols img y (x + 1) n d' := rfl

theorem convertRows_succ (img : BMPImage) (y : Int) (n : Nat) (d : List Byte) :
    convertRows img y (n + 1) d =
    match convertCols img y 0 img.infoHeader.width.toNat d with
    | none => none
    | some d' => convertRows img (y + 1) n d' := rfl

theorem specCols_succ (img : BMPImage) (y x n : Nat) (d : List Byte) :
    specCols img y x (n + 1) d
      = specCols img y (x + 1) n (write3 d (pixelOffset img x y) (binarizedValue img x y)) :=
  rfl

theorem specRows_succ (img : BMPImage) (y n : Nat) (d : List Byte) :
    specRows img y (n + 1) d
      = specRows img (y + 1) n (specCols img y 0 img.infoHeader.width.toNat d) := rfl

theorem length_specCols (img : BMPImage) (y n x : Nat) (d : List Byte) :
    (specCols img y x n d).length = d.length := by
  induction n generalizing x d with
  | zero => rfl
  | succ n ih => rw [specCols_succ, ih, length_write3]

theorem length_specRows (img : BMPImage) (n y : Nat) (d : List Byte) :
    (specRows img y n d).length = d.length := by
  induction n generalizing y d with
  | zero => rfl
  | succ n ih => rw [specRows_succ, ih, length_specCols]

theorem convertCols_spec (img : BMPImage) (y n x : Nat) (d : List Byte)
    (ha : ∀ x', x ≤ x' → x' < x + n → Addressable img x' y)
    (hd : d.length = img.pixelData.length) :
    convertCols img (y : Int) x n d = some (specCols img y x n d) := by
  induction n generalizing x d with
  | zero => rfl
  | succ n ih =>
    rw [convertCols_succ, convertPixel_of_fits img x y d (ha x (le_refl x) (by omega)) hd,
      specCols_succ]
    exact ih (x + 1) _ (fun x' h1 h2 => ha x' (by omega) (by omega))
      (by rw [length_write3]; exact hd)

theorem convertRows_spec (img : BMPImage) (n y : Nat) (d : List Byte)
    (ha : ∀ y', y ≤ y' → y' < y + n → ∀ x', x' < img.infoHeader.width.toNat →
      Addressable img x' y')
    (hd : d.length = img.pixelData.length) :
    convertRows img (y : Int) n d = some (specRows img y n d) := by
  induction n generalizing y d with
  | zero => rfl
  | succ n ih =>
    rw [convertRows_succ, convertCols_spec img y img.infoHeader.width.toNat 0 d
      (fun x' _ h2 => ha y (le_refl y) (by omega) x' (by omega)) hd, specRows_succ]
    have := ih (y + 1) (specCols img y 0 img.infoHeader.width.toNat d)
      (fun y' h1 h2 => ha y' (by omega) (by omega)) (by rw [length_specCols]; exact hd)
    push_cast at this
    exact this

theorem specRows_add (img : BMPImage) (n m y : Nat) (d : List Byte) :
    specRows img y (n + m) d = specRows img (y + n) m (specRows img y n d) := by
  induction n generalizing y d with
  | zero => simp [specRows]
  | succ n ih =>
    have e : n + 1 + m = (n + m) + 1 := by omega
    rw [e, specRows_succ, specRows_succ, ih]
    congr 1
    omega

/-! ## The bytes of the converted buffer -/

theorem getD_set (d : List Byte) (i j : Nat) (v : Byte) :
    (d.set i v).getD j 0 = if i = j ∧ j < d.length then v else d.getD j 0 := by
  rw [List.getD_eq_getElem?_getD, List.getD_eq_getElem?_getD, List.getElem?_set]
  by_cases h : i = j
  · subst h
    by_cases h2 : i < d.length
    · simp [h2]
    · simp [h2, List.getElem?_eq_none (Nat.le_of_not_lt h2)]
  · simp [h]

theorem getD_write3 (d : List Byte) (off j : Nat) (v : Byte) :
    (write3 d off v).getD j 0
      = if (j = off ∨ j = off + 1 ∨ j = off + 2) ∧ j < d.length then v else d.getD j 0 := by
  unfold write3
  rw [getD_set, getD_set, getD_set, List.length_set, List.length_set]
  by_cases h0 : j = off
  · subst h0; simp
  · by_cases h1 : j = off + 1
    · subst h1; simp
    · by_cases h2 : j = off + 2
      · subst h2; simp
      · have e0 : ¬ off = j := fun h => h0 h.symm
        have e1 : ¬ off + 1 = j := fun h => h1 h.symm
        have e2 : ¬ off + 2 = j := fun h => h2 h.symm
        simp [h0, h1, h2, e0, e1, e2]

theorem specCols_frame (img : BMPImage) (y n x : Nat) (d : List Byte) (i : Nat)
    (hi : ∀ x', x ≤ x' → x' < x + n → ∀ c, c < 3 → i ≠ pixelOffset img x' y + c) :
    (specCols img y x n d).getD i 0 = d.getD i 0 := by
  induction n generalizing x d with
  | zero => rfl
  | succ n ih =>
    rw [specCols_succ, ih (x + 1) _ (fun x' h1 h2 => hi x' (by omega) (by omega)), getD_write3]
    have h0 := hi x (le_refl x) (by omega) 0 (by decide)
    have h1 := hi x (le_refl x) (by omega) 1 (by decide)
    have h2 := hi x (le_refl x) (by omega) 2 (by decide)
    rw [if_neg]
    rintro ⟨h | h | h, -⟩ <;> omega

theorem specCols_value (img : BMPImage) (y n x : Nat) (d : List Byte) (x0 c : Nat)
    (hb : 3 ≤ img.infoHeader.bitCount / 8) (h1 : x ≤ x0) (h2 : x0 < x + n) (hc : c < 3)
    (hlen : pixelOffset img x0 y + 2 < d.length) :
    (specCols img y x n d).getD (pixelOffset img x0 y + c) 0 = binarizedValue img x0 y := by
  induction n generalizing x d with
  | zero => omega
  | succ n ih =>
    rw [specCols_succ]
    by_cases hx : x0 = x
    · subst hx
      rw [specCols_frame, getD_write3, if_pos]
      · exact ⟨by omega, by omega⟩
      · intro x' hx1 _ c' hc'
        have : (x0 + 1) * (img.infoHeader.bitCount / 8) ≤ x' * (img.infoHeader.bitCount / 8) :=
          Nat.mul_le_mul_right _ hx1
        rw [Nat.add_mul, Nat.one_mul] at this
        unfold pixelOffset
        omega
    · exact ih (x + 1) _ (by omega) (by omega) (by rw [length_write3]; exact hlen)

theorem specRows_frame (img : BMPImage) (n y : Nat) (d : List Byte) (i : Nat)
    (hi : ∀ y', y ≤ y' → y' < y + n → ∀ x', x' < img.infoHeader.width.toNat →
      ∀ c, c < 3 → i ≠ pixelOffset img x' y' + c) :
    (specRows img y n d).getD i 0 = d.getD i 0 := by
  induction n generalizing y d with
  | zero => rfl
  | succ n ih =>
    rw [specRows_succ, ih (y + 1) _ (fun y' h1 h2 => hi y' (by omega) (by omega)),
      specCols_frame]
    intro x' _ hx' c hc
    exact hi y (le_refl y) (by omega) x' (by omega) c hc

theorem specRows_value (img : BMPImage) (n y : Nat) (d : List Byte) (x0 y0 c : Nat)
    (hb : 3 ≤ img.infoHeader.bitCount / 8)
    (hrs : img.infoHeader.width.toNat * (img.infoHeader.bitCount / 8) ≤ img.rowStride)
    (h1 : y ≤ y0) (h2 : y0 < y + n) (hx0 : x0 < img.infoHeader.width.toNat) (hc : c < 3)
    (hlen : pixelOffset img x0 y0 + 2 < d.length) :
    (specRows img y n d).getD (pixelOffset img x0 y0 + c) 0 = binarizedValue img x0 y0 := by
  induction n generalizing y d with
  | zero => omega
  | succ n ih =>
    rw [specRows_succ]
    by_cases hy : y0 = y
    · subst hy
      rw [specRows_frame, specCols_value img y0 _ 0 d x0 c hb (Nat.zero_le _) (by omega) hc hlen]
      intro y' hy1 _ x' hx' c' hc'
      have e1 : (y0 + 1) * img.rowStride ≤ y' * img.rowStride := Nat.mul_le_mul_right _ hy1
      have e2 : (x0 + 1) * (img.infoHeader.bitCount / 8)
          ≤ img.infoHeader.width.toNat * (img.infoHeader.bitCount / 8) :=
        Nat.mul_le_mul_right _ hx0
      rw [Nat.add_mul, Nat.one_mul] at e1 e2
      unfold pixelOffset
      omega
    · exact ih (y + 1) _ (by omega) (by omega) (by rw [length_specCols]; exact hlen)

/-! ## The row ranges of the tasks -/

theorem runTasks_cons (img : BMPImage) (startRow endRow : Int) (rest : List (Int × Int))
    (d : List Byte) :
    runTasks img ((startRow, endRow) :: rest) d =
    match convertRow img startRow endRow d with
    | none => none
    | some d' => runTasks img rest d' := rfl

theorem runTasks_append (img : BMPImage) (l1 l2 : List (Int × Int)) (d d1 : List Byte)
    (h : runTasks img l1 d = some d1) :
    runTasks img (l1 ++ l2) d = runTasks img l2 d1 := by
  induction l1 generalizing d with
  | nil =>
    have : some d = some d1 := h
    cases this
    rfl
  | cons p rest ih =>
    obtain ⟨s, e⟩ := p
    rw [List.cons_append, runTasks_cons]
    rw [runTasks_cons] at h
    cases hc : convertRow img s e d with
    | none => rw [hc] at h; cases h
    | some d' =>
      rw [hc] at h
      exact ih d' h

theorem mul_div_le_of_le (i n h : Nat) (hi : i ≤ n) : i * (h / n) ≤ h :=
  calc i * (h / n) ≤ n * (h / n) := Nat.mul_le_mul_right _ hi
    _ ≤ h := Nat.mul_div_le h n

theorem rowRange_eq (height : Int) (n i : Nat) (h0 : 0 ≤ height) (h31 : height < 2147483648)
    (hi : i < n) :
    rowRange height n i
      = (((i * (height.toNat / n) : Nat) : Int),
          if i = n - 1 then height else (((i + 1) * (height.toNat / n) : Nat) : Int)) := by
  have hH : toUInt32 height = height.toNat := toUInt32_of_pos height h0 (by omega)
  have hq : height.toNat / n ≤ height.toNat := Nat.div_le_self _ _
  have h1 : i * (height.toNat / n) ≤ height.toNat := mul_div_le_of_le i n _ (by omega)
  have h2 : i ≠ n - 1 → (i + 1) * (height.toNat / n) ≤ height.toNat :=
    fun hl => mul_div_le_of_le (i + 1) n _ (by omega)
  unfold rowRange
  simp only [hH]
  generalize height.toNat / n = q at *
  rw [toInt32_of_lt q (by omega), toUInt32_natCast q (by omega),
    Nat.mod_eq_of_lt (by omega : i * q < 4294967296), toInt32_of_lt (i * q) (by omega)]
  by_cases hl : i = n - 1
  · simp only [hl, if_true]
  · simp only [hl, if_false]
    have e : ((i * q : Nat) : Int) + ((q : Nat) : Int) = (((i + 1) * q : Nat) : Int) := by
      push_cast; ring
    have := h2 hl
    rw [e, wrapInt32_natCast _ (by omega)]

theorem convertRow_natCast (img : BMPImage) (a b : Nat) (d : List Byte) :
    convertRow img (a : Int) (b : Int) d = convertRows img (a : Int) (b - a) d := by
  unfold convertRow
  congr 1
  omega

/-- The tasks `0, ..., j - 1` of `n`, for `j < n`, convert the rows below
`j * (height / n)`. -/
theorem runTasks_prefix (img : BMPImage) (hwf : WellFormed img)
    (hlen : img.pixelData.length ≤ 2147483648) (n : Nat) (d : List Byte)
    (hd : d.length = img.pixelData.length) (j : Nat) (hj : j < n) :
    runTasks img ((List.range j).map (rowRange img.infoHeader.height n)) d
      = some (specRows img 0 (j * (img.infoHeader.height.toNat / n)) d) := by
  have hh31 : img.infoHeader.height < 2147483648 := by
    have hw := hwf.2.1
    have hx : 0 < img.infoHeader.width.toNat := by have := hwf.1; omega
    have := (pixelOffset_bound img hwf 0 (img.infoHeader.height.toNat - 1) hx (by omega)).2.2.1
    have h2 := (pixelOffset_bound img hwf 0 (img.infoHeader.height.toNat - 1) hx (by omega)).2.1
    have h3 := (pixelOffset_bound img hwf 0 (img.infoHeader.height.toNat - 1) hx (by omega)).1
    have hb := div8_of_bitCount _ hwf.2.2.1
    unfold pixelOffset at h3
    omega
  induction j with
  | zero =>
    rw [Nat.zero_mul]
    rfl
  | succ j ih =>
    have hprev := ih (by omega)
    rw [List.range_succ, List.map_append, runTasks_append img _ _ d _ hprev, List.map_singleton,
      rowRange_eq _ n j (le_of_lt hwf.2.1) hh31 (by omega), if_neg (by omega), runTasks_cons,
      convertRow_natCast]
    have e : (j + 1) * (img.infoHeader.height.toNat / n) - j * (img.infoHeader.height.toNat / n)
        = img.infoHeader.height.toNat / n := by
      rw [Nat.add_mul, Nat.one_mul, Nat.add_sub_cancel_left]
    have hle : (j + 1) * (img.infoHeader.height.toNat / n) ≤ img.infoHeader.height.toNat :=
      mul_div_le_of_le (j + 1) n _ (by omega)
    rw [e, convertRows_spec img _ _ _
      (fun y' h1 h2 x' hx' => addressable_of_wellFormed img hwf hlen x' y' hx'
        (by rw [Nat.add_mul, Nat.one_mul] at hle; omega))
      (by rw [length_specRows]; exact hd)]
    have := specRows_add img (j * (img.infoHeader.height.toNat / n))
      (img.infoHeader.height.toNat / n) 0 d
    rw [Nat.zero_add] at this
    rw [Nat.add_mul, Nat.one_mul, this]
    rfl

/-- All tasks together convert every row once, whatever the number of tasks. -/
theorem runTasks_spec (img : BMPImage) (hwf : WellFormed img)
    (hlen : img.pixelData.length ≤ 2147483648) (n : Nat) (hn : 0 < n) :
    runTasks img ((List.range n).map (rowRange img.infoHeader.height n)) img.pixelData
      = some (specRows img 0 img.infoHeader.height.toNat img.pixelData) := by
  obtain ⟨k, rfl⟩ : ∃ k, n = k + 1 := ⟨n - 1, by omega⟩
  have hh31 : img.infoHeader.height < 2147483648 := by
    have hw := hwf.2.1
    have hx : 0 < img.infoHeader.width.toNat := by have := hwf.1; omega
    have := (pixelOffset_bound img hwf 0 (img.infoHeader.height.toNat - 1) hx (by omega)).2.2.1
    have h2 := (pixelOffset_bound img hwf 0 (img.infoHeader.height.toNat - 1) hx (by omega)).2.1
    have h3 := (pixelOffset_bound img hwf 0 (img.infoHeader.height.toNat - 1) hx (by omega)).1
    have hb := div8_of_bitCount _ hwf.2.2.1
    unfold pixelOffset at h3
    omega
  have hprev := runTasks_prefix img hwf hlen (k + 1) img.pixelData rfl k (by omega)
  have hle : k * (img.infoHeader.height.toNat / (k + 1)) ≤ img.infoHeader.height.toNat :=
    mul_div_le_of_le k (k + 1) _ (by omega)
  have hcast : img.infoHeader.height = ((img.infoHeader.height.toNat : Nat) : Int) := by
    have := hwf.2.1; omega
  rw [List.range_succ, List.map_append, runTasks_append img _ _ _ _ hprev, List.map_singleton,
    rowRange_eq _ (k + 1) k (le_of_lt hwf.2.1) hh31 (by omega), if_pos (by omega), runTasks_cons]
  rw [hcast, convertRow_natCast, ← hcast]
  rw [convertRows_spec img _ _ _
      (fun y' h1 h2 x' hx' => addressable_of_wellFormed img hwf hlen x' y' hx' (by omega))
      (by rw [length_specRows])]
  have := specRows_add img (k * (img.infoHeader.height.toNat / (k + 1)))
      (img.infoHeader.height.toNat - k * (img.infoHeader.height.toNat / (k + 1))) 0 img.pixelData
  rw [Nat.zero_add, Nat.add_sub_cancel' hle] at this
  rw [this]
  rfl

theorem convertToBlackAndWhite_eq (img : BMPImage) (hwf : WellFormed img)
    (hlen : img.pixelData.length ≤ 2147483648) (hardwareConcurrency : Nat) :
    convertToBlackAndWhite hardwareConcurrency img
      = some { img with
          pixelData := specRows img 0 img.infoHeader.height.toNat img.pixelData } := by
  unfold convertToBlackAndWhite
  simp only []
  rw [runTasks_spec img hwf hlen _ (by split <;> omega)]

/-! ## Claim C10: the pixels after `convertToBlackAndWhite` -/

theorem addressable_blackColumn (rows y : Nat) (hy : y < rows) (h29 : y < 536870912) :
    Addressable (blackColumn rows) 0 y := by
  have hl : (blackColumn rows).pixelData.length = 4 * rows := List.length_replicate _ _
  have ho : pixelOffset (blackColumn rows) 0 y = y * 4 := by
    show y * 4 + 0 * (32 / 8) = y * 4
    omega
  refine ⟨by omega, ?_, by rw [ho, hl]; omega, by rw [ho]; omega⟩
  show 0 * (32 / 8) < 2147483648
  decide

theorem readByte_neg (data : List Byte) : readByte data (-2147483648) = none := rfl

theorem convertPixel_of_read_none (img : BMPImage) (x y : Int) (d : List Byte)
    (h : readByte img.pixelData (getPixelIndex img x y) = none) :
    convertPixel img x y d = none := by
  unfold convertPixel
  simp only [h]

theorem convertCols_blackColumn_bad (rows : Nat) (d : List Byte) :
    convertCols (blackColumn rows) ((536870912 : Nat) : Int) 0 1 d = none := by
  have hi : getPixelIndex (blackColumn rows) ((0 : Nat) : Int) ((536870912 : Nat) : Int)
      = -2147483648 := by
    show toInt32 ((toUInt32 ((536870912 : Nat) : Int) * 4) % 4294967296
      + toUInt32 (wrapInt32 (((0 : Nat) : Int) * ((32 / 8 : Nat) : Int)))) = -2147483648
    decide
  rw [convertCols_succ, convertPixel_of_read_none _ _ _ _ (by rw [hi]; exact readByte_neg _)]

theorem convertRows_blackColumn (rows : Nat) (h : 536870912 < rows) (n y : Nat)
    (hy : y + n = 536870912) (m : Nat) (d : List Byte)
    (hd : d.length = (blackColumn rows).pixelData.length) :
    convertRows (blackColumn rows) (y : Int) (n + (m + 1)) d = none := by
  have hw : (blackColumn rows).infoHeader.width.toNat = 1 := rfl
  induction n generalizing y d with
  | zero =>
    have hy' : y = 536870912 := by omega
    subst hy'
    rw [Nat.zero_add, convertRows_succ, hw, convertCols_blackColumn_bad]
  | succ n ih =>
    have e : n + 1 + (m + 1) = (n + (m + 1)) + 1 := by omega
    rw [e, convertRows_succ, hw, convertCols_spec (blackColumn rows) y 1 0 d
      (fun x' _ hx' => by
        have hx0 : x' = 0 := by omega
        subst hx0
        exact addressable_blackColumn rows y (by omega) (by omega)) hd]
    have := ih (y + 1) (by omega) (specCols (blackColumn rows) y 0 1 d)
      (by rw [length_specCols]; exact hd)
    push_cast at this
    exact this

theorem convertToBlackAndWhite_blackColumn (rows : Nat) (h : 536870912 < rows)
    (h31 : rows < 2147483648) :
    convertToBlackAndWhite 1 (blackColumn rows) = none := by
  have hh : (blackColumn rows).infoHeader.height = ((rows : Nat) : Int) := rfl
  have e : rows - 0 = 536870912 + ((rows - 536870913) + 1) := by omega
  have hr : rowRange ((rows : Nat) : Int) 1 0 = (((0 : Nat) : Int), ((rows : Nat) : Int)) := by
    rw [rowRange_eq _ 1 0 (by omega) (by omega) (by decide)]
    simp
  have hc := convertRows_blackColumn rows h 536870912 0 (by omega) (rows - 536870913)
    (blackColumn rows).pixelData rfl
  have hl : List.range 1 = [0] := rfl
  unfold convertToBlackAndWhite
  simp only [Nat.one_ne_zero, if_false]
  rw [hl, List.map_singleton, hh, hr, runTasks_cons, convertRow_natCast, e, hc]

theorem tieImage_converted :
    convertToBlackAndWhite 1 tieImage = some { tieImage with pixelData := [0, 0, 0, 0] } := by
  decide

/-- Counterexample to claim C10, in two parts.  (1) The pixel `(R, G, B) = (12, 175, 4)` has
luminance `0.2126 * 12 + 0.7152 * 175 + 0.0722 * 4 = 128` exactly, but line 127 evaluates it
in `double` to `127.99999999999999`, so the pixel of the 1x1 image becomes black, not white.
(2) For the well-formed image of one column of `2^29 + 1` 32-bit pixels (buffer of `2^31 + 4`
bytes) `convertToBlackAndWhite` does not produce a buffer: at row `2^29` the `int` returned by
`getPixelIndex` is `-2^31` and the read is outside the buffer. -/
theorem convertToBlackAndWhite_counterexample :
    (WellFormed tieImage ∧
      luma10000 (redAt tieImage tieImage.pixelData 0 0) (greenAt tieImage tieImage.pixelData 0 0)
        (blueAt tieImage tieImage.pixelData 0 0) = 1280000 ∧
      convertToBlackAndWhite 1 tieImage = some { tieImage with pixelData := [0, 0, 0, 0] }) ∧
    (WellFormed (blackColumn 536870913) ∧
      convertToBlackAndWhite 1 (blackColumn 536870913) = none) :=
  ⟨⟨by decide, by decide, tieImage_converted⟩,
    wellFormed_blackColumn 536870913 (by decide),
    convertToBlackAndWhite_blackColumn 536870913 (by decide) (by decide)⟩

/-- Claim C10, amended: for every well-formed image whose buffer holds at most `2^31` bytes,
for every number of worker threads, `convertToBlackAndWhite` produces an image with the same
headers, row stride and buffer length in which every in-bounds pixel `(x, y)` with original
channels `(R, G, B)` is `(255, 255, 255)` if `0.2126 R + 0.7152 G + 0.0722 B > 128` and
`(0, 0, 0)` if it is `< 128`, the luminance being taken from the buffer before the call.  At a
luminance of exactly 128 the `double` evaluation of line 127 decides: the pixel becomes white,
except for the six values of `blackTies`, (12,175,4), (15,152,223), (145,118,177), (159,131,7),
(162,108,226) and (176,121,56), which become black.  `luma10000` is the luminance times
10000. -/
theorem convertToBlackAndWhite_pixels (img : BMPImage) (hwf : WellFormed img)
    (hlen : img.pixelData.length ≤ 2147483648) (hardwareConcurrency : Nat) :
    ∃ out, convertToBlackAndWhite hardwareConcurrency img = some out ∧
      out.fileHeader = img.fileHeader ∧ out.infoHeader = img.infoHeader ∧
      out.rowStride = img.rowStride ∧ out.pixelData.length = img.pixelData.length ∧
      ∀ y, y < img.infoHeader.height.toNat → ∀ x, x < img.infoHeader.width.toNat →
        ((1280000 ≤ luma10000 (redAt img img.pixelData x y) (greenAt img img.pixelData x y)
              (blueAt img img.pixelData x y) ∧
            ((redAt img img.pixelData x y).val, (greenAt img img.pixelData x y).val,
              (blueAt img img.pixelData x y).val) ∉ blackTies) →
          redAt out out.pixelData x y = 255 ∧ greenAt out out.pixelData x y = 255 ∧
            blueAt out out.pixelData x y = 255) ∧
        ((luma10000 (redAt img img.pixelData x y) (greenAt img img.pixelData x y)
              (blueAt img img.pixelData x y) < 1280000 ∨
            ((redAt img img.pixelData x y).val, (greenAt img img.pixelData x y).val,
              (blueAt img img.pixelData x y).val) ∈ blackTies) →
          redAt out out.pixelData x y = 0 ∧ greenAt out out.pixelData x y = 0 ∧
            blueAt out out.pixelData x y = 0) := by
  refine ⟨_, convertToBlackAndWhite_eq img hwf hlen hardwareConcurrency, rfl, rfl, rfl,
    length_specRows _ _ _ _, ?_⟩
  intro y hy x hx
  obtain ⟨h1, h2, h3, h4⟩ := pixelOffset_bound img hwf x y hx hy
  have hb := div8_of_bitCount _ hwf.2.2.1
  have hv : ∀ c, c < 3 →
      (specRows img 0 img.infoHeader.height.toNat img.pixelData).getD (pixelOffset img x y + c) 0
        = binarizedValue img x y := fun c hc =>
    specRows_value img _ 0 _ x y c (by omega) h4 (Nat.zero_le _) (by omega) hx hc (by omega)
  have hr : redAt img (specRows img 0 img.infoHeader.height.toNat img.pixelData) x y
      = binarizedValue img x y := hv 2 (by decide)
  have hg : greenAt img (specRows img 0 img.infoHeader.height.toNat img.pixelData) x y
      = binarizedValue img x y := hv 1 (by decide)
  have hbl : blueAt img (specRows img 0 img.infoHeader.height.toNat img.pixelData) x y
      = binarizedValue img x y := hv 0 (by decide)
  have hiff := brightness_lt_iff (redAt img img.pixelData x y) (greenAt img img.pixelData x y)
    (blueAt img img.pixelData x y)
  constructor
  · rintro ⟨hge, hnot⟩
    have hnlt : ¬ brightness (redAt img img.pixelData x y) (greenAt img img.pixelData x y)
        (blueAt img img.pixelData x y) < brightness_factor := by
      rw [hiff]
      rintro (h | h)
      · omega
      · exact hnot h
    have e : binarizedValue img x y = 255 := by
      unfold binarizedValue
      rw [if_neg hnlt]
    exact ⟨hr.trans e, hg.trans e, hbl.trans e⟩
  · intro hlt
    have e : binarizedValue img x y = 0 := by
      unfold binarizedValue
      rw [if_pos (hiff.mpr hlt)]
    exact ⟨hr.trans e, hg.trans e, hbl.trans e⟩

/-- Witness for claim C10: every pixel of the 4x4 solid (128, 128, 128) image has luminance
exactly 128 and becomes white, here with 4 worker threads. -/
theorem convertToBlackAndWhite_pixels_witness :
    WellFormed grayImage ∧ grayImage.pixelData.length ≤ 2147483648 ∧
      ∃ out, convertToBlackAndWhite 4 grayImage = some out ∧
        ∀ y, y < 4 → ∀ x, x < 4 →
          redAt out out.pixelData x y = 255 ∧ greenAt out out.pixelData x y = 255 ∧
            blueAt out out.pixelData x y = 255 := by
  have hp : ∀ y, y < 4 → ∀ x, x < 4 →
      (1280000 ≤ luma10000 (redAt grayImage grayImage.pixelData x y)
          (greenAt grayImage grayImage.pixelData x y) (blueAt grayImage grayImage.pixelData x y) ∧
        ((redAt grayImage grayImage.pixelData x y).val,
          (greenAt grayImage grayImage.pixelData x y).val,
          (blueAt grayImage grayImage.pixelData x y).val) ∉ blackTies) := by
    decide
  obtain ⟨out, h1, -, -, -, -, hpix⟩ :=
    convertToBlackAndWhite_pixels grayImage (by decide) (by decide) 4
  exact ⟨by decide, by decide, out, h1, fun y hy x hx => (hpix y hy x hx).1 (hp y hy x hx)⟩

/-! ## The loop of `drawLine` in exact arithmetic -/

theorem lineStates_succ (dx dy n u v : Nat) (err : Int) :
    lineStates dx dy (n + 1) u v err =
    (u, v, err) ::
      if u = dx ∧ v = dy then []
      else lineStates dx dy n (if 2 * err > -(dy : Int) then u + 1 else u)
        (if 2 * err < (dx : Int) then v + 1 else v)
        ((if 2 * err > -(dy : Int) then err - dy else err)
          + (if 2 * err < (dx : Int) then (dx : Int) else 0)) := rfl

theorem invX_done (dx dy v : Nat) (e : Int) (hinv : InvX dx dy dx v e) :
    v = dy := by
  obtain ⟨he, hlo, _, _, hv⟩ := hinv
  by_contra hne
  have hlt : v + 1 ≤ dy := by omega
  have hm : (v + 1) * dx ≤ dy * dx := Nat.mul_le_mul_right dx hlt
  rw [Nat.succ_mul, Nat.mul_comm dy dx] at hm
  push_cast at he
  have hm' : ((v : Int) * dx) + dx ≤ (dx : Int) * dy := by exact_mod_cast hm
  generalize (v : Int) * (dx : Int) = B at *
  generalize (dx : Int) * (dy : Int) = A at *
  omega

theorem invX_step (dx dy u v : Nat) (e : Int) (h : dy ≤ dx) (h1 : 1 ≤ dx)
    (hinv : InvX dx dy u v e) (hnot : ¬(u = dx ∧ v = dy)) :
    u < dx ∧ 2 * e > -(dy : Int) ∧ (2 * e < (dx : Int) → v < dy) ∧
      (dx ≤ dy → 2 * e < (dx : Int)) ∧
      InvX dx dy (u + 1) (if 2 * e < (dx : Int) then v + 1 else v)
        (e - dy + (if 2 * e < (dx : Int) then (dx : Int) else 0)) := by
  have hu : u < dx := by
    rcases Nat.lt_or_ge u dx with h' | h'
    · exact h'
    · have hud : u = dx := le_antisymm hinv.2.2.2.1 h'
      subst hud
      exact absurd ⟨rfl, invX_done u dy v e hinv⟩ hnot
  obtain ⟨he, hlo, hhi, _, hv⟩ := hinv
  have hm : (u + 1) * dy ≤ dx * dy := Nat.mul_le_mul_right dy hu
  rw [Nat.succ_mul] at hm
  have hvy : 2 * e < (dx : Int) → v < dy := by
    intro hy
    by_contra hge
    have hvd : v = dy := by omega
    subst hvd
    push_cast at he
    have hm' : ((u : Int) * v) + v ≤ (dx : Int) * v := by exact_mod_cast hm
    rw [mul_comm (v : Int) (dx : Int)] at he
    generalize (u : Int) * (v : Int) = A at *
    generalize (dx : Int) * (v : Int) = B at *
    omega
  refine ⟨hu, hlo, hvy, by omega, ?_⟩
  by_cases hy : 2 * e < (dx : Int)
  · have := hvy hy
    simp only [hy, if_true]
    refine ⟨?_, ?_, ?_, by omega, by omega⟩
    · push_cast at he ⊢
      rw [add_mul, add_mul, one_mul, one_mul]
      generalize (u : Int) * (dy : Int) = A at *
      generalize (v : Int) * (dx : Int) = B at *
      omega
    · omega
    · omega
  · simp only [hy, if_false]
    refine ⟨?_, ?_, ?_, by omega, by omega⟩
    · push_cast at he ⊢
      rw [add_mul, one_mul]
      generalize (u : Int) * (dy : Int) = A at *
      generalize (v : Int) * (dx : Int) = B at *
      omega
    · omega
    · omega

theorem lineStates_xMajor (dx dy : Nat) (h : dy ≤ dx) (h1 : 1 ≤ dx) :
    ∀ n u v e, InvX dx dy u v e → dx - u + 1 ≤ n →
      (lineStates dx dy n u v e).length = dx - u + 1 ∧
      (∃ e', (lineStates dx dy n u v e).getLast? = some (dx, dy, e')) ∧
      List.Chain' (LineStep dx dy) (lineStates dx dy n u v e) ∧
      (∀ s ∈ lineStates dx dy n u v e, s.1 ≤ dx ∧ s.2.1 ≤ dy ∧
        -(3 * (dx : Int)) ≤ 2 * s.2.2 ∧ 2 * s.2.2 ≤ 3 * (dx : Int)) := by
  intro n
  induction n with
  | zero => intro u v e _ hn; omega
  | succ n ih =>
    intro u v e hinv hn
    rw [lineStates_succ]
    have hcur : u ≤ dx ∧ v ≤ dy ∧ -(3 * (dx : Int)) ≤ 2 * e ∧ 2 * e ≤ 3 * (dx : Int) := by
      obtain ⟨_, hlo, hhi, hu, hv⟩ := hinv
      refine ⟨hu, hv, by omega, by omega⟩
    by_cases hfin : u = dx ∧ v = dy
    · rw [if_pos hfin]
      obtain ⟨rfl, rfl⟩ := hfin
      refine ⟨by simp, ⟨e, by simp⟩, by simp, ?_⟩
      intro s hs
      simp only [List.mem_singleton] at hs
      subst hs
      exact hcur
    · rw [if_neg hfin]
      obtain ⟨hu, hx, hvy, hdiag, hinv'⟩ := invX_step dx dy u v e h h1 hinv hfin
      have hx' : 2 * e > -(dy : Int) := hx
      rw [if_pos hx', if_pos hx']
      obtain ⟨hl, ⟨e', hlast⟩, hch, hall⟩ := ih (u + 1) _ _ hinv' (by omega)
      refine ⟨by rw [List.length_cons, hl]; omega, ⟨e', ?_⟩, ?_, ?_⟩
      · rw [List.getLast?_cons, hlast]; rfl
      · rw [List.chain'_cons']
        refine ⟨?_, hch⟩
        intro q hq
        obtain ⟨n', rfl⟩ : ∃ n', n = n' + 1 := ⟨n - 1, by omega⟩
        rw [lineStates_succ] at hq
        simp only [List.head?_cons, Option.mem_def, Option.some.injEq] at hq
        subst hq
        refine ⟨by simp, by simp, ?_, ?_, fun _ => rfl, ?_, hinv'.2.2.2.1, hinv'.2.2.2.2⟩
        · show v ≤ (if 2 * e < (dx : Int) then v + 1 else v)
          split <;> omega
        · show (if 2 * e < (dx : Int) then v + 1 else v) ≤ v + 1
          split <;> omega
        · intro hd
          show (if 2 * e < (dx : Int) then v + 1 else v) = v + 1
          rw [if_pos (hdiag hd)]
      · intro s hs
        rcases List.mem_cons.1 hs with rfl | hs
        · exact hcur
        · exact hall s hs

theorem lineStates_swap (dx dy : Nat) :
    ∀ n u v e, lineStates dx dy n u v e
      = (lineStates dy dx n v u (-e)).map (fun p => (p.2.1, p.1, -p.2.2)) := by
  intro n
  induction n with
  | zero => intro u v e; rfl
  | succ n ih =>
    intro u v e
    rw [lineStates_succ, lineStates_succ, List.map_cons]
    by_cases hfin : u = dx ∧ v = dy
    · rw [if_pos hfin, if_pos ⟨hfin.2, hfin.1⟩]; simp
    · have hfin' : ¬(v = dy ∧ u = dx) := fun hh => hfin ⟨hh.2, hh.1⟩
      rw [if_neg hfin, if_neg hfin', ih]
      by_cases hx : 2 * e > -(dy : Int) <;> by_cases hy : 2 * e < (dx : Int)
      · have hx' : 2 * -e < (dy : Int) := by omega
        have hy' : 2 * -e > -(dx : Int) := by omega
        simp only [hx, hy, hx', hy', if_true, neg_neg, List.map_cons]
        have : -(e - (dy : Int) + (dx : Int)) = -e - (dx : Int) + (dy : Int) := by ring
        rw [this]
      · have hx' : 2 * -e < (dy : Int) := by omega
        have hy' : ¬ 2 * -e > -(dx : Int) := by omega
        simp only [hx, hy, hx', hy', if_true, if_false, neg_neg, List.map_cons]
        have : -(e - (dy : Int) + 0) = -e + (dy : Int) := by ring
        rw [this]
      · have hx' : ¬ 2 * -e < (dy : Int) := by omega
        have hy' : 2 * -e > -(dx : Int) := by omega
        simp only [hx, hy, hx', hy', if_true, if_false, neg_neg, List.map_cons]
        have : -(e + (dx : Int)) = -e - (dx : Int) + 0 := by ring
        rw [this]
      · have hx' : ¬ 2 * -e < (dy : Int) := by omega
        have hy' : ¬ 2 * -e > -(dx : Int) := by omega
        simp only [hx, hy, hx', hy', if_false, neg_neg, List.map_cons]
        have : -(e + 0) = -e + 0 := by ring
        rw [this]

theorem lineStep_swap (dx dy : Nat) (p q : Nat × Nat × Int) (h : LineStep dy dx p q) :
    LineStep dx dy (p.2.1, p.1, -p.2.2) (q.2.1, q.1, -q.2.2) := by
  obtain ⟨a, b, c, d, e, f, g, i⟩ := h
  exact ⟨c, d, a, b, f, e, i, g⟩

/-- The loop of `drawLine` in exact arithmetic: it makes `max dx dy + 1` iterations and ends
in `(dx, dy)`; every iteration is a `LineStep`; the counts stay within `dx` and `dy` and
twice the error term within `3 * max dx dy`. -/
theorem lineStates_spec (dx dy n : Nat) (hn : max dx dy + 1 ≤ n) :
    (lineStates dx dy n 0 0 ((dx : Int) - dy)).length = max dx dy + 1 ∧
    (∃ e', (lineStates dx dy n 0 0 ((dx : Int) - dy)).getLast? = some (dx, dy, e')) ∧
    List.Chain' (LineStep dx dy) (lineStates dx dy n 0 0 ((dx : Int) - dy)) ∧
    (∀ s ∈ lineStates dx dy n 0 0 ((dx : Int) - dy), s.1 ≤ dx ∧ s.2.1 ≤ dy ∧
      -(3 * ((max dx dy : Nat) : Int)) ≤ 2 * s.2.2 ∧ 2 * s.2.2 ≤ 3 * ((max dx dy : Nat) : Int)) := by
  rcases Nat.lt_or_ge dx dy with hlt | hge
  · -- the longer axis is `y`
    have hmax : max dx dy = dy := max_eq_right (le_of_lt hlt)
    have hinv : InvX dy dx 0 0 (-((dx : Int) - dy)) := by
      refine ⟨by simp, by omega, by omega, by omega, by omega⟩
    obtain ⟨hl, ⟨e', hlast⟩, hch, hall⟩ :=
      lineStates_xMajor dy dx (le_of_lt hlt) (by omega) n 0 0 _ hinv (by omega)
    rw [lineStates_swap, hmax]
    refine ⟨by rw [List.length_map, hl]; omega, ⟨-e', ?_⟩, ?_, ?_⟩
    · rw [List.getLast?_map, hlast]; rfl
    · rw [List.chain'_map]
      exact hch.imp (fun {p q} hpq => lineStep_swap dx dy p q hpq)
    · intro s hs
      obtain ⟨t, ht, rfl⟩ := List.mem_map.1 hs
      obtain ⟨a, b, c, d⟩ := hall t ht
      exact ⟨b, a, by simp only; omega, by simp only; omega⟩
  · have hmax : max dx dy = dx := max_eq_left hge
    rcases Nat.eq_zero_or_pos dx with h0 | hpos
    · subst h0
      have hdy : dy = 0 := by omega
      subst hdy
      obtain ⟨n', rfl⟩ : ∃ n', n = n' + 1 := ⟨n - 1, by omega⟩
      rw [lineStates_succ, if_pos ⟨rfl, rfl⟩]
      refine ⟨rfl, ⟨_, rfl⟩, List.chain'_singleton _, ?_⟩
      intro s hs
      rw [List.mem_singleton] at hs
      subst hs
      refine ⟨le_refl _, le_refl _, ?_, ?_⟩ <;> simp
    · have hinv : InvX dx dy 0 0 ((dx : Int) - dy) := by
        refine ⟨by simp, by omega, by omega, by omega, by omega⟩
      rw [hmax]
      have := lineStates_xMajor dx dy hge hpos n 0 0 _ hinv (by omega)
      simpa using this

/-! ## The loop of `drawLine` and its states -/

theorem wrapInt32_of_range (i : Int) (h1 : -2147483648 ≤ i) (h2 : i < 2147483648) :
    wrapInt32 i = i := toInt32_toUInt32 i h1 h2

theorem drawLineLoop_succ (x2 y2 dx dy sx sy : Int) (n : Nat) (img : BMPImage)
    (x1 y1 err : Int) :
    drawLineLoop x2 y2 dx dy sx sy (n + 1) img x1 y1 err =
    match setPixelBlack img x1 y1 with
    | none => none
    | some img1 =>
      if x1 = x2 ∧ y1 = y2 then some { image := img1, visited := [(x1, y1)], finished := true }
      else
        match drawLineLoop x2 y2 dx dy sx sy n img1
            (if decide (wrapInt32 (2 * err) > wrapInt32 (-dy)) = true then wrapInt32 (x1 + sx)
              else x1)
            (if decide (wrapInt32 (2 * err) < dx) = true then wrapInt32 (y1 + sy) else y1)
            (if decide (wrapInt32 (2 * err) < dx) = true then
              wrapInt32 ((if decide (wrapInt32 (2 * err) > wrapInt32 (-dy)) = true then
                wrapInt32 (err - dy) else err) + dx)
             else (if decide (wrapInt32 (2 * err) > wrapInt32 (-dy)) = true then
                wrapInt32 (err - dy) else err)) with
        | none => none
        | some r => some { r with visited := (x1, y1) :: r.visited } := rfl

theorem plotAll_cons (img : BMPImage) (p : Int × Int) (rest : List (Int × Int)) :
    plotAll img (p :: rest) =
    match setPixelBlack img p.1 p.2 with
    | none => none
    | some img1 => plotAll img1 rest := rfl

theorem lineRunOf_nil (img : BMPImage) (x1 y1 sx sy : Int) (dx dy : Nat) :
    lineRunOf img x1 y1 sx sy dx dy [] = some { image := img, visited := [], finished := false } :=
  rfl

theorem lineRunOf_cons (img : BMPImage) (x1 y1 sx sy : Int) (dx dy : Nat)
    (s : Nat × Nat × Int) (rest : List (Nat × Nat × Int)) :
    lineRunOf img x1 y1 sx sy dx dy (s :: rest) =
    match setPixelBlack img (x1 + sx * (s.1 : Int)) (y1 + sy * (s.2.1 : Int)) with
    | none => none
    | some img1 =>
      (lineRunOf img1 x1 y1 sx sy dx dy rest).map (fun r =>
        { image := r.image, visited := (x1 + sx * (s.1 : Int), y1 + sy * (s.2.1 : Int)) :: r.visited,
          finished := decide (s.1 = dx ∧ s.2.1 = dy) || r.finished }) := by
  unfold lineRunOf
  rw [List.map_cons, plotAll_cons]
  show (Option.map _ (match setPixelBlack img (x1 + sx * (s.1 : Int)) (y1 + sy * (s.2.1 : Int)) with
    | none => none
    | some img1 => _)) = _
  cases setPixelBlack img (x1 + sx * (s.1 : Int)) (y1 + sy * (s.2.1 : Int)) with
  | none => rfl
  | some img1 =>
    simp only [Option.map_map]
    cases plotAll img1 (List.map (lineCoord x1 y1 sx sy) rest) with
    | none => rfl
    | some im => rfl

/-- As long as the error term and the coordinates stay in the `int` range, the loop of
`drawLine` goes through the states of `lineStates`. -/
theorem drawLineLoop_eq (x1 y1 sx sy : Int) (dx dy : Nat)
    (hsx : sx = 1 ∨ sx = -1) (hsy : sy = 1 ∨ sy = -1)
    (hdx : dx ≤ 1073741824) (hdy : dy ≤ 1073741824)
    (hx1 : -2147483648 ≤ x1 ∧ x1 < 2147483648)
    (hx2 : -2147483648 ≤ x1 + sx * dx ∧ x1 + sx * dx < 2147483648)
    (hy1 : -2147483648 ≤ y1 ∧ y1 < 2147483648)
    (hy2 : -2147483648 ≤ y1 + sy * dy ∧ y1 + sy * dy < 2147483648) :
    ∀ n u v e img,
      (∀ s ∈ lineStates dx dy (n + 1) u v e, s.1 ≤ dx ∧ s.2.1 ≤ dy ∧
        -2147483648 ≤ 2 * s.2.2 ∧ 2 * s.2.2 < 2147483648) →
      drawLineLoop (x1 + sx * dx) (y1 + sy * dy) dx dy sx sy n img
          (x1 + sx * u) (y1 + sy * v) e
        = lineRunOf img x1 y1 sx sy dx dy (lineStates dx dy n u v e) := by
  intro n
  induction n with
  | zero => intro u v e img _; rfl
  | succ n ih =>
    intro u v e img hs
    rw [drawLineLoop_succ, lineStates_succ, lineRunOf_cons]
    have hcur := hs (u, v, e) (by rw [lineStates_succ]; exact List.mem_cons_self _ _)
    obtain ⟨hu, hv, he1, he2⟩ := hcur
    simp only at hu hv he1 he2
    cases setPixelBlack img (x1 + sx * u) (y1 + sy * v) with
    | none => rfl
    | some img1 =>
      have hfin_iff : (x1 + sx * u = x1 + sx * dx ∧ y1 + sy * v = y1 + sy * dy)
          ↔ (u = dx ∧ v = dy) := by
        rcases hsx with rfl | rfl <;> rcases hsy with rfl | rfl <;> constructor <;>
          intro h <;> omega
      by_cases hfin : u = dx ∧ v = dy
      · simp only
        rw [if_pos (hfin_iff.2 hfin), if_pos hfin, lineRunOf_nil]
        simp [hfin]
      · simp only
        rw [if_neg (fun h => hfin (hfin_iff.1 h)), if_neg hfin]
        have htail : ∀ s ∈ lineStates dx dy (n + 1) (if 2 * e > -(dy : Int) then u + 1 else u)
            (if 2 * e < (dx : Int) then v + 1 else v)
            ((if 2 * e > -(dy : Int) then e - dy else e)
              + (if 2 * e < (dx : Int) then (dx : Int) else 0)),
            s.1 ≤ dx ∧ s.2.1 ≤ dy ∧ -2147483648 ≤ 2 * s.2.2 ∧ 2 * s.2.2 < 2147483648 := by
          intro s hmem
          apply hs
          rw [lineStates_succ, if_neg hfin]
          exact List.mem_cons_of_mem _ hmem
        have hnext := htail _ (by rw [lineStates_succ]; exact List.mem_cons_self _ _)
        obtain ⟨hu', hv', _, _⟩ := hnext
        simp only at hu' hv'
        have hw2 : wrapInt32 (2 * e) = 2 * e := wrapInt32_of_range _ he1 he2
        have hwd : wrapInt32 (-(dy : Int)) = -(dy : Int) :=
          wrapInt32_of_range _ (by omega) (by omega)
        rw [hw2, hwd]
        have hX : (if decide (2 * e > -(dy : Int)) = true then wrapInt32 (x1 + sx * u + sx)
            else x1 + sx * u)
            = x1 + sx * ((if 2 * e > -(dy : Int) then u + 1 else u : Nat) : Int) := by
          by_cases hx : 2 * e > -(dy : Int)
          · rw [if_pos hx] at hu'
            simp only [hx, decide_True, if_true]
            rw [wrapInt32_of_range]
            · push_cast; ring
            · rcases hsx with rfl | rfl <;> omega
            · rcases hsx with rfl | rfl <;> omega
          · simp only [hx, decide_False, if_false, Bool.false_eq_true]
        have hY : (if decide (2 * e < (dx : Int)) = true then wrapInt32 (y1 + sy * v + sy)
            else y1 + sy * v)
            = y1 + sy * ((if 2 * e < (dx : Int) then v + 1 else v : Nat) : Int) := by
          by_cases hy : 2 * e < (dx : Int)
          · rw [if_pos hy] at hv'
            simp only [hy, decide_True, if_true]
            rw [wrapInt32_of_range]
            · push_cast; ring
            · rcases hsy with rfl | rfl <;> omega
            · rcases hsy with rfl | rfl <;> omega
          · simp only [hy, decide_False, if_false, Bool.false_eq_true]
        have hE : (if decide (2 * e < (dx : Int)) = true then
              wrapInt32 ((if decide (2 * e > -(dy : Int)) = true then
                wrapInt32 (e - dy) else e) + dx)
             else (if decide (2 * e > -(dy : Int)) = true then
                wrapInt32 (e - dy) else e))
            = (if 2 * e > -(dy : Int) then e - dy else e)
              + (if 2 * e < (dx : Int) then (dx : Int) else 0) := by
          have h1 : (if decide (2 * e > -(dy : Int)) = true then wrapInt32 (e - dy) else e)
              = (if 2 * e > -(dy : Int) then e - dy else e) := by
            by_cases hx : 2 * e > -(dy : Int)
            · simp only [hx, decide_True, if_true]
              exact wrapInt32_of_range _ (by omega) (by omega)
            · simp only [hx, decide_False, if_false, Bool.false_eq_true]
          rw [h1]
          by_cases hy : 2 * e < (dx : Int)
          · simp only [hy, decide_True, if_true]
            apply wrapInt32_of_range
            · split <;> omega
            · split <;> omega
          · simp only [hy, decide_False, if_false, Bool.false_eq_true, add_zero]
        rw [hX, hY, hE, ih _ _ _ img1 htail]
        cases lineRunOf img1 x1 y1 sx sy dx dy (lineStates dx dy n
            (if 2 * e > -(dy : Int) then u + 1 else u) (if 2 * e < (dx : Int) then v + 1 else v)
            ((if 2 * e > -(dy : Int) then e - dy else e)
              + (if 2 * e < (dx : Int) then (dx : Int) else 0))) with
        | none => rfl
        | some r => simp [hfin]

/-! ## `drawLine` within the `int` range -/

theorem lineSign_cases (a b : Int) : lineSign a b = 1 ∨ lineSign a b = -1 := by
  unfold lineSign; split <;> simp

theorem lineSign_mul (a b : Int) : a + lineSign a b * ((b - a).natAbs : Int) = b := by
  unfold lineSign; split <;> omega

/-- Within the limits of `SegmentFits`, `drawLine` goes through the states of
`lineStates`. -/
theorem drawLine_eq (img : BMPImage) (x1 y1 x2 y2 : Int) (hfit : SegmentFits x1 y1 x2 y2)
    (n : Nat) (hn : max (x2 - x1).natAbs (y2 - y1).natAbs + 1 ≤ n) :
    drawLine n img x1 y1 x2 y2
      = lineRunOf img x1 y1 (lineSign x1 x2) (lineSign y1 y2) (x2 - x1).natAbs (y2 - y1).natAbs
          (lineStates (x2 - x1).natAbs (y2 - y1).natAbs n 0 0
            (((x2 - x1).natAbs : Int) - ((y2 - y1).natAbs : Int))) := by
  obtain ⟨hx1, hy1, hx2, hy2, hdx, hdy⟩ := hfit
  unfold drawLine
  have e1 : wrapInt32 (x2 - x1) = x2 - x1 := wrapInt32_of_range _ (by omega) (by omega)
  have e2 : wrapInt32 (y2 - y1) = y2 - y1 := wrapInt32_of_range _ (by omega) (by omega)
  have e3 : wrapInt32 ((x2 - x1).natAbs : Int) = ((x2 - x1).natAbs : Int) :=
    wrapInt32_of_range _ (by omega) (by omega)
  have e4 : wrapInt32 ((y2 - y1).natAbs : Int) = ((y2 - y1).natAbs : Int) :=
    wrapInt32_of_range _ (by omega) (by omega)
  have e5 : wrapInt32 (((x2 - x1).natAbs : Int) - ((y2 - y1).natAbs : Int))
      = ((x2 - x1).natAbs : Int) - ((y2 - y1).natAbs : Int) :=
    wrapInt32_of_range _ (by omega) (by omega)
  simp only [e1, e2, e3, e4, e5]
  have hmax : max (x2 - x1).natAbs (y2 - y1).natAbs ≤ 715827882 := max_le hdx hdy
  obtain ⟨_, _, _, hall⟩ := lineStates_spec (x2 - x1).natAbs (y2 - y1).natAbs (n + 1) (by omega)
  have hsafe : ∀ s ∈ lineStates (x2 - x1).natAbs (y2 - y1).natAbs (n + 1) 0 0
      (((x2 - x1).natAbs : Int) - ((y2 - y1).natAbs : Int)),
      s.1 ≤ (x2 - x1).natAbs ∧ s.2.1 ≤ (y2 - y1).natAbs ∧
        -2147483648 ≤ 2 * s.2.2 ∧ 2 * s.2.2 < 2147483648 := by
    intro s hs
    obtain ⟨a, b, c, d⟩ := hall s hs
    refine ⟨a, b, ?_, ?_⟩
    · have : ((max (x2 - x1).natAbs (y2 - y1).natAbs : Nat) : Int) ≤ 715827882 := by
        exact_mod_cast hmax
      omega
    · have : ((max (x2 - x1).natAbs (y2 - y1).natAbs : Nat) : Int) ≤ 715827882 := by
        exact_mod_cast hmax
      omega
  have hsx := lineSign_mul x1 x2
  have hsy := lineSign_mul y1 y2
  have h := drawLineLoop_eq x1 y1 (lineSign x1 x2) (lineSign y1 y2) (x2 - x1).natAbs
    (y2 - y1).natAbs (lineSign_cases x1 x2) (lineSign_cases y1 y2) (by omega) (by omega) hx1
    (by rw [hsx]; exact hx2) hy1 (by rw [hsy]; exact hy2) n 0 0 _ img hsafe
  rw [hsx, hsy] at h
  simp only [Nat.cast_zero, mul_zero, add_zero] at h
  exact h

/-! ## `setPixelBlack` and the bytes it writes -/

theorem setPixelBlack_outside (img : BMPImage) (x y : Int) (h : ¬InImage img (x, y)) :
    setPixelBlack img x y = some img := by
  unfold setPixelBlack
  rw [if_pos]
  unfold InImage at h
  simp only at h
  omega

theorem setPixelBlack_of_fits (img : BMPImage) (x y : Nat) (hin : InImage img ((x : Int), (y : Int)))
    (ha : Addressable img x y) :
    setPixelBlack img (x : Int) (y : Int)
      = some { img with pixelData := write3 img.pixelData (pixelOffset img x y) 0 } := by
  obtain ⟨hy, hx, hlen, h31⟩ := ha
  unfold setPixelBlack
  rw [if_neg (by unfold InImage at hin; simp only at hin; omega)]
  simp only
  rw [getPixelIndex_of_fits img x y hy hx (by omega)]
  have e1 : ((pixelOffset img x y : Nat) : Int) + 1 = ((pixelOffset img x y + 1 : Nat) : Int) := by
    push_cast; rfl
  have e2 : ((pixelOffset img x y : Nat) : Int) + 2 = ((pixelOffset img x y + 2 : Nat) : Int) := by
    push_cast; rfl
  rw [e1, e2, wrapInt32_natCast _ (by omega), wrapInt32_natCast _ (by omega),
    writeByte_natCast _ _ _ (by omega)]
  simp only []
  rw [writeByte_natCast _ _ _ (by rw [List.length_set]; omega)]
  simp only []
  rw [writeByte_natCast _ _ _ (by rw [List.length_set, List.length_set]; omega)]
  rfl

theorem length_blackenAt (img : BMPImage) (d : List Byte) (p : Int × Int) :
    (blackenAt img d p).length = d.length := by
  unfold blackenAt; split
  · exact length_write3 _ _ _
  · rfl

theorem inImage_toNat (img : BMPImage) (p : Int × Int) (h : InImage img p) :
    p.1.toNat < img.infoHeader.width.toNat ∧ p.2.toNat < img.infoHeader.height.toNat ∧
      ((p.1.toNat : Nat) : Int) = p.1 ∧ ((p.2.toNat : Nat) : Int) = p.2 := by
  unfold InImage at h; omega

/-- `setPixelBlack` on a well-formed image of at most `2^31` bytes, whatever the buffer
holds. -/
theorem setPixelBlack_spec (img : BMPImage) (hwf : WellFormed img)
    (hlen : img.pixelData.length ≤ 2147483648) (d : List Byte)
    (hd : d.length = img.pixelData.length) (x y : Int) :
    setPixelBlack { img with pixelData := d } x y
      = some { img with pixelData := blackenAt img d (x, y) } := by
  by_cases hin : InImage img (x, y)
  · obtain ⟨h1, h2, h3, h4⟩ := inImage_toNat img (x, y) hin
    simp only at h1 h2 h3 h4
    have ha := addressable_of_wellFormed img hwf hlen x.toNat y.toNat h1 h2
    have ha' : Addressable { img with pixelData := d } x.toNat y.toNat := by
      unfold Addressable at ha ⊢
      unfold pixelOffset at ha ⊢
      simp only [hd]
      exact ha
    have hin' : InImage { img with pixelData := d } ((x.toNat : Int), (y.toNat : Int)) := by
      rw [h3, h4]; exact hin
    have := setPixelBlack_of_fits { img with pixelData := d } x.toNat y.toNat hin' ha'
    rw [h3, h4] at this
    rw [this]
    unfold blackenAt
    rw [if_pos hin]
    rfl
  · rw [setPixelBlack_outside _ _ _ (by exact hin)]
    unfold blackenAt
    rw [if_neg hin]

/-- A sequence of calls of `setPixelBlack` on a well-formed image of at most `2^31` bytes. -/
theorem plotAll_spec (img : BMPImage) (hwf : WellFormed img)
    (hlen : img.pixelData.length ≤ 2147483648) (pts : List (Int × Int)) :
    ∀ d : List Byte, d.length = img.pixelData.length →
      plotAll { img with pixelData := d } pts
        = some { img with pixelData := pts.foldl (blackenAt img) d } := by
  induction pts with
  | nil => intro d _; rfl
  | cons p rest ih =>
    intro d hd
    rw [plotAll_cons, setPixelBlack_spec img hwf hlen d hd p.1 p.2]
    simp only [List.foldl_cons]
    exact ih _ (by rw [length_blackenAt, hd])

/-- In a well-formed image the bytes of two pixels of the image do not overlap: a byte that
is byte `c` of pixel `(x, y)` and byte `c'` of pixel `(x', y')` identifies pixel and byte. -/
theorem pixelOffset_unique (img : BMPImage) (hwf : WellFormed img) (x y x' y' c c' : Nat)
    (hx : x < img.infoHeader.width.toNat) (hx' : x' < img.infoHeader.width.toNat)
    (hc : c < img.infoHeader.bitCount / 8) (hc' : c' < img.infoHeader.bitCount / 8)
    (h : pixelOffset img x y + c = pixelOffset img x' y' + c') :
    x = x' ∧ y = y' ∧ c = c' := by
  have hb := div8_of_bitCount _ hwf.2.2.1
  have hrs : img.infoHeader.width.toNat * (img.infoHeader.bitCount / 8) ≤ img.rowStride := by
    rw [hwf.2.2.2.1, paddedRowBytes]; omega
  have h1 : (x + 1) * (img.infoHeader.bitCount / 8)
      ≤ img.infoHeader.width.toNat * (img.infoHeader.bitCount / 8) := Nat.mul_le_mul_right _ hx
  have h2 : (x' + 1) * (img.infoHeader.bitCount / 8)
      ≤ img.infoHeader.width.toNat * (img.infoHeader.bitCount / 8) := Nat.mul_le_mul_right _ hx'
  rw [Nat.add_mul, Nat.one_mul] at h1 h2
  unfold pixelOffset at h
  have hy : y = y' := by
    rcases Nat.lt_trichotomy y y' with hlt | heq | hgt
    · have := Nat.mul_le_mul_right img.rowStride (Nat.succ_le_of_lt hlt)
      rw [Nat.succ_mul] at this
      omega
    · exact heq
    · have := Nat.mul_le_mul_right img.rowStride (Nat.succ_le_of_lt hgt)
      rw [Nat.succ_mul] at this
      omega
  subst hy
  rcases hb with hb | hb <;> rw [hb] at h hc hc' <;> omega

/-- In a well-formed image a padding byte of a row is no byte of a pixel. -/
theorem padding_ne_pixel (img : BMPImage) (hwf : WellFormed img) (y j x' y' c' : Nat)
    (hj : img.infoHeader.width.toNat * (img.infoHeader.bitCount / 8) ≤ j)
    (hj' : j < img.rowStride)
    (hx' : x' < img.infoHeader.width.toNat) (hc' : c' < img.infoHeader.bitCount / 8) :
    y * img.rowStride + j ≠ pixelOffset img x' y' + c' := by
  have hb := div8_of_bitCount _ hwf.2.2.1
  have hrs : img.infoHeader.width.toNat * (img.infoHeader.bitCount / 8) ≤ img.rowStride := by
    rw [hwf.2.2.2.1, paddedRowBytes]; omega
  have h2 : (x' + 1) * (img.infoHeader.bitCount / 8)
      ≤ img.infoHeader.width.toNat * (img.infoHeader.bitCount / 8) := Nat.mul_le_mul_right _ hx'
  rw [Nat.add_mul, Nat.one_mul] at h2
  unfold pixelOffset
  intro h
  rcases Nat.lt_trichotomy y y' with hlt | heq | hgt
  · have := Nat.mul_le_mul_right img.rowStride (Nat.succ_le_of_lt hlt)
    rw [Nat.succ_mul] at this
    omega
  · subst heq; omega
  · have := Nat.mul_le_mul_right img.rowStride (Nat.succ_le_of_lt hgt)
    rw [Nat.succ_mul] at this
    omega

theorem length_foldl_blackenAt (img : BMPImage) (pts : List (Int × Int)) :
    ∀ d : List Byte, (pts.foldl (blackenAt img) d).length = d.length := by
  induction pts with
  | nil => intro d; rfl
  | cons p rest ih => intro d; rw [List.foldl_cons, ih, length_blackenAt]

theorem getD_blackenAt (img : BMPImage) (d : List Byte) (p : Int × Int) (i : Nat) :
    (blackenAt img d p).getD i 0
      = if InImage img p ∧ (i = pixelOffset img p.1.toNat p.2.toNat ∨
            i = pixelOffset img p.1.toNat p.2.toNat + 1 ∨
            i = pixelOffset img p.1.toNat p.2.toNat + 2) ∧ i < d.length
        then 0 else d.getD i 0 := by
  unfold blackenAt
  by_cases hin : InImage img p
  · rw [if_pos hin, getD_write3]
    simp only [hin, true_and]
  · rw [if_neg hin]
    simp only [hin, false_and, if_false]

/-- Bytes that belong to no visited pixel of the image keep their value. -/
theorem foldl_blackenAt_frame (img : BMPImage) (pts : List (Int × Int)) (i : Nat) :
    ∀ d : List Byte,
      (∀ p ∈ pts, InImage img p → ∀ c, c < 3 →
        i ≠ pixelOffset img p.1.toNat p.2.toNat + c) →
      (pts.foldl (blackenAt img) d).getD i 0 = d.getD i 0 := by
  induction pts with
  | nil => intro d _; rfl
  | cons p rest ih =>
    intro d h
    rw [List.foldl_cons, ih _ (fun q hq => h q (List.mem_cons_of_mem _ hq)), getD_blackenAt]
    rw [if_neg]
    rintro ⟨hin, hor, _⟩
    have h0 := h p (List.mem_cons_self _ _) hin 0 (by omega)
    have h1 := h p (List.mem_cons_self _ _) hin 1 (by omega)
    have h2 := h p (List.mem_cons_self _ _) hin 2 (by omega)
    omega

theorem foldl_blackenAt_zero (img : BMPImage) (pts : List (Int × Int)) (i : Nat) :
    ∀ d : List Byte, d.getD i 0 = 0 → (pts.foldl (blackenAt img) d).getD i 0 = 0 := by
  induction pts with
  | nil => intro d h; exact h
  | cons p rest ih =>
    intro d h
    rw [List.foldl_cons]
    apply ih
    rw [getD_blackenAt]
    split
    · rfl
    · exact h

/-- The three channel bytes of a visited pixel of the image are 0. -/
theorem foldl_blackenAt_value (img : BMPImage) (pts : List (Int × Int)) (p : Int × Int)
    (hin : InImage img p) (c : Nat) (hc : c < 3) :
    ∀ d : List Byte, p ∈ pts → pixelOffset img p.1.toNat p.2.toNat + 2 < d.length →
      (pts.foldl (blackenAt img) d).getD (pixelOffset img p.1.toNat p.2.toNat + c) 0 = 0 := by
  induction pts with
  | nil => intro d hp; simp at hp
  | cons q rest ih =>
    intro d hp hlen
    rw [List.foldl_cons]
    rcases List.mem_cons.1 hp with rfl | hp'
    · apply foldl_blackenAt_zero
      rw [getD_blackenAt, if_pos]
      exact ⟨hin, by omega, by omega⟩
    · exact ih _ hp' (by rw [length_blackenAt]; exact hlen)

theorem drawLineLoop_zero (x2 y2 dx dy sx sy : Int) (img : BMPImage) (x1 y1 err : Int) :
    drawLineLoop x2 y2 dx dy sx sy 0 img x1 y1 err
      = some { image := img, visited := [], finished := false } := rfl

/-- On a well-formed image of at most `2^31` bytes no call of `setPixelBlack` leaves the
buffer: every run of the loop of `drawLine` yields a state, and the image of that state is
the image with the visited pixels blackened. -/
theorem drawLineLoop_plots (x2 y2 dx dy sx sy : Int) (img : BMPImage) (hwf : WellFormed img)
    (hlen : img.pixelData.length ≤ 2147483648) :
    ∀ n (d : List Byte) x1 y1 err, d.length = img.pixelData.length →
      ∃ r, drawLineLoop x2 y2 dx dy sx sy n { img with pixelData := d } x1 y1 err = some r ∧
        r.image = { img with pixelData := r.visited.foldl (blackenAt img) d } := by
  intro n
  induction n with
  | zero => intro d x1 y1 err _; exact ⟨_, rfl, rfl⟩
  | succ n ih =>
    intro d x1 y1 err hd
    rw [drawLineLoop_succ, setPixelBlack_spec img hwf hlen d hd]
    simp only
    by_cases hfin : x1 = x2 ∧ y1 = y2
    · rw [if_pos hfin]
      exact ⟨_, rfl, rfl⟩
    · rw [if_neg hfin]
      obtain ⟨r, hr, himg⟩ := ih (blackenAt img d (x1, y1))
        (if decide (wrapInt32 (2 * err) > wrapInt32 (-dy)) = true then wrapInt32 (x1 + sx)
          else x1)
        (if decide (wrapInt32 (2 * err) < dx) = true then wrapInt32 (y1 + sy) else y1)
        (if decide (wrapInt32 (2 * err) < dx) = true then
          wrapInt32 ((if decide (wrapInt32 (2 * err) > wrapInt32 (-dy)) = true then
            wrapInt32 (err - dy) else err) + dx)
         else (if decide (wrapInt32 (2 * err) > wrapInt32 (-dy)) = true then
            wrapInt32 (err - dy) else err))
        (by rw [length_blackenAt, hd])
      rw [hr]
      exact ⟨_, rfl, by simp only [List.foldl_cons]; exact himg⟩

/-! ## The coordinates that `drawLine` visits -/

theorem lineStates_head (dx dy n u v : Nat) (e : Int) :
    (lineStates dx dy (n + 1) u v e).head? = some (u, v, e) := rfl

theorem lineRunOf_spec (img : BMPImage) (hwf : WellFormed img)
    (hlen : img.pixelData.length ≤ 2147483648) (x1 y1 sx sy : Int) (dx dy : Nat)
    (states : List (Nat × Nat × Int)) :
    lineRunOf img x1 y1 sx sy dx dy states
      = some { image := { img with pixelData :=
                 (states.map (lineCoord x1 y1 sx sy)).foldl (blackenAt img) img.pixelData },
               visited := states.map (lineCoord x1 y1 sx sy),
               finished := states.any (fun s => decide (s.1 = dx ∧ s.2.1 = dy)) } := by
  unfold lineRunOf
  have h := plotAll_spec img hwf hlen (states.map (lineCoord x1 y1 sx sy)) img.pixelData rfl
  have h' : plotAll img (states.map (lineCoord x1 y1 sx sy))
      = some { img with pixelData :=
          (states.map (lineCoord x1 y1 sx sy)).foldl (blackenAt img) img.pixelData } := h
  rw [h']
  rfl

/-- Within the limits of `SegmentFits` and on a well-formed image of at most `2^31` bytes,
`drawLine` returns after `max dx dy + 1` iterations, and what it has visited are the
coordinates of the states of `lineStates`. -/
theorem drawLine_run (img : BMPImage) (hwf : WellFormed img)
    (hlen : img.pixelData.length ≤ 2147483648) (x1 y1 x2 y2 : Int)
    (hfit : SegmentFits x1 y1 x2 y2) (n : Nat)
    (hn : max (x2 - x1).natAbs (y2 - y1).natAbs + 1 ≤ n) :
    drawLine n img x1 y1 x2 y2
      = some { image := { img with
                 pixelData := (linePoints x1 y1 x2 y2 n).foldl (blackenAt img) img.pixelData },
               visited := linePoints x1 y1 x2 y2 n,
               finished := true } := by
  rw [drawLine_eq img x1 y1 x2 y2 hfit n hn, lineRunOf_spec img hwf hlen]
  obtain ⟨_, ⟨e', hlast⟩, _, _⟩ := lineStates_spec (x2 - x1).natAbs (y2 - y1).natAbs n hn
  have hmem := List.mem_of_mem_getLast? hlast
  have hany : (lineStates (x2 - x1).natAbs (y2 - y1).natAbs n 0 0
      (((x2 - x1).natAbs : Int) - ((y2 - y1).natAbs : Int))).any
      (fun s => decide (s.1 = (x2 - x1).natAbs ∧ s.2.1 = (y2 - y1).natAbs)) = true := by
    rw [List.any_eq_true]
    exact ⟨_, hmem, by simp⟩
  rw [hany]
  rfl

/-- A step of the loop of `drawLine` in coordinates. -/
theorem lineStep_coord (x1 y1 x2 y2 : Int) (p q : Nat × Nat × Int)
    (h : LineStep (x2 - x1).natAbs (y2 - y1).natAbs p q) :
    ((x2 - (lineCoord x1 y1 (lineSign x1 x2) (lineSign y1 y2) q).1).natAbs
        ≤ (x2 - (lineCoord x1 y1 (lineSign x1 x2) (lineSign y1 y2) p).1).natAbs) ∧
    ((y2 - (lineCoord x1 y1 (lineSign x1 x2) (lineSign y1 y2) q).2).natAbs
        ≤ (y2 - (lineCoord x1 y1 (lineSign x1 x2) (lineSign y1 y2) p).2).natAbs) ∧
    ((lineCoord x1 y1 (lineSign x1 x2) (lineSign y1 y2) q).1
        - (lineCoord x1 y1 (lineSign x1 x2) (lineSign y1 y2) p).1).natAbs ≤ 1 ∧
    ((lineCoord x1 y1 (lineSign x1 x2) (lineSign y1 y2) q).2
        - (lineCoord x1 y1 (lineSign x1 x2) (lineSign y1 y2) p).2).natAbs ≤ 1 ∧
    ((y2 - y1).natAbs ≤ (x2 - x1).natAbs →
      (x2 - (lineCoord x1 y1 (lineSign x1 x2) (lineSign y1 y2) q).1).natAbs + 1
        = (x2 - (lineCoord x1 y1 (lineSign x1 x2) (lineSign y1 y2) p).1).natAbs) ∧
    ((x2 - x1).natAbs ≤ (y2 - y1).natAbs →
      (y2 - (lineCoord x1 y1 (lineSign x1 x2) (lineSign y1 y2) q).2).natAbs + 1
        = (y2 - (lineCoord x1 y1 (lineSign x1 x2) (lineSign y1 y2) p).2).natAbs) := by
  obtain ⟨a, b, c, d, e, f, g, i⟩ := h
  unfold lineCoord lineSign
  simp only
  refine ⟨?_, ?_, ?_, ?_, ?_, ?_⟩
  · split <;> omega
  · split <;> omega
  · split <;> omega
  · split <;> omega
  · intro hh; have := e hh; split <;> omega
  · intro hh; have := f hh; split <;> omega

/-- What `drawLine` visits in exact arithmetic: `max dx dy + 1` coordinates from `(x1, y1)`
to `(x2, y2)`; each one is one step nearer to the end along the longer axis than the one
before and not farther along the other axis; all lie in the bounding box of the endpoints. -/
theorem linePoints_spec (x1 y1 x2 y2 : Int) (n : Nat)
    (hn : max (x2 - x1).natAbs (y2 - y1).natAbs + 1 ≤ n) :
    (linePoints x1 y1 x2 y2 n).length = max (x2 - x1).natAbs (y2 - y1).natAbs + 1 ∧
    (linePoints x1 y1 x2 y2 n).head? = some (x1, y1) ∧
    (linePoints x1 y1 x2 y2 n).getLast? = some (x2, y2) ∧
    List.Chain' (fun p q : Int × Int =>
        (x2 - q.1).natAbs ≤ (x2 - p.1).natAbs ∧ (y2 - q.2).natAbs ≤ (y2 - p.2).natAbs ∧
        (q.1 - p.1).natAbs ≤ 1 ∧ (q.2 - p.2).natAbs ≤ 1 ∧
        ((y2 - y1).natAbs ≤ (x2 - x1).natAbs → (x2 - q.1).natAbs + 1 = (x2 - p.1).natAbs) ∧
        ((x2 - x1).natAbs ≤ (y2 - y1).natAbs → (y2 - q.2).natAbs + 1 = (y2 - p.2).natAbs))
      (linePoints x1 y1 x2 y2 n) ∧
    (∀ p ∈ linePoints x1 y1 x2 y2 n,
      min x1 x2 ≤ p.1 ∧ p.1 ≤ max x1 x2 ∧ min y1 y2 ≤ p.2 ∧ p.2 ≤ max y1 y2) := by
  obtain ⟨hl, ⟨e', hlast⟩, hch, hall⟩ :=
    lineStates_spec (x2 - x1).natAbs (y2 - y1).natAbs n hn
  obtain ⟨n', rfl⟩ : ∃ n', n = n' + 1 := ⟨n - 1, by omega⟩
  unfold linePoints
  refine ⟨by rw [List.length_map, hl], ?_, ?_, ?_, ?_⟩
  · rw [List.head?_map, lineStates_head]
    simp [lineCoord]
  · rw [List.getLast?_map, hlast]
    simp only [Option.map_some', lineCoord, lineSign_mul]
  · rw [List.chain'_map]
    exact hch.imp (fun {p q} hpq => lineStep_coord x1 y1 x2 y2 p q hpq)
  · intro p hp
    obtain ⟨s, hs, rfl⟩ := List.mem_map.1 hp
    obtain ⟨a, b, _, _⟩ := hall s hs
    unfold lineCoord lineSign
    simp only
    refine ⟨?_, ?_, ?_, ?_⟩ <;> split <;> omega

/-! ## Reversed, horizontal, vertical and diagonal segments -/

theorem segmentFits_symm (x1 y1 x2 y2 : Int) (h : SegmentFits x1 y1 x2 y2) :
    SegmentFits x2 y2 x1 y1 := by
  unfold SegmentFits at *
  omega

/-- The coordinates visited from `(x2, y2)` to `(x1, y1)` are the point reflections of the
coordinates visited from `(x1, y1)` to `(x2, y2)`, in the same order. -/
theorem linePoints_reflect (x1 y1 x2 y2 : Int) (n : Nat)
    (hn : max (x2 - x1).natAbs (y2 - y1).natAbs + 1 ≤ n) :
    linePoints x2 y2 x1 y1 n
      = (linePoints x1 y1 x2 y2 n).map (fun p => (x1 + x2 - p.1, y1 + y2 - p.2)) := by
  obtain ⟨_, _, _, hall⟩ := lineStates_spec (x2 - x1).natAbs (y2 - y1).natAbs n hn
  unfold linePoints
  have e1 : (x1 - x2).natAbs = (x2 - x1).natAbs := by omega
  have e2 : (y1 - y2).natAbs = (y2 - y1).natAbs := by omega
  rw [e1, e2, List.map_map]
  apply List.map_congr_left
  intro s hs
  obtain ⟨a, b, _, _⟩ := hall s hs
  unfold lineCoord lineSign
  simp only [Function.comp]
  refine Prod.ext ?_ ?_
  · simp only; split <;> split <;> omega
  · simp only; split <;> split <;> omega

theorem lineStates_rigid_aux (dx dy : Nat) (h : dx = dy ∨ dy = 0 ∨ dx = 0) :
    ∀ (l : List (Nat × Nat × Int)) (u v : Nat) (e : Int), l.head? = some (u, v, e) →
      List.Chain' (LineStep dx dy) l →
      l.map (fun s => (s.1, s.2.1))
        = (List.range l.length).map (fun k => (u + min 1 dx * k, v + min 1 dy * k)) := by
  intro l
  induction l with
  | nil => intro u v e hh; simp at hh
  | cons s rest ih =>
    intro u v e hh hch
    simp only [List.head?_cons, Option.some.injEq] at hh
    subst hh
    cases rest with
    | nil =>
      have h1 : List.range 1 = [0] := rfl
      simp [h1]
    | cons t rest' =>
      rw [List.chain'_cons] at hch
      obtain ⟨hst, hch'⟩ := hch
      have := ih t.1 t.2.1 t.2.2 rfl hch'
      have hlen : ((u, v, e) :: t :: rest').length = (t :: rest').length + 1 := rfl
      rw [List.map_cons, this, hlen, List.range_succ_eq_map (t :: rest').length,
        List.map_cons, List.map_map]
      obtain ⟨a, b, c, d, e1, f, g, i⟩ := hst
      simp only at a b c d e1 f g i
      have hu : t.1 = u + min 1 dx := by
        rcases h with h | h | h
        · have := e1 (by omega); have := f (by omega); omega
        · have := e1 (by omega); omega
        · omega
      have hv : t.2.1 = v + min 1 dy := by
        rcases h with h | h | h
        · have := e1 (by omega); have := f (by omega); omega
        · omega
        · have := f (by omega); omega
      congr 1
      apply List.map_congr_left
      intro k _
      simp only [Function.comp, Nat.succ_eq_add_one, hu, hv]
      refine Prod.ext ?_ ?_ <;> simp only <;> ring

/-- A horizontal, vertical or diagonal segment: the coordinates visited advance by the same
step in every iteration. -/
theorem linePoints_rigid (x1 y1 x2 y2 : Int) (n : Nat)
    (hn : max (x2 - x1).natAbs (y2 - y1).natAbs + 1 ≤ n)
    (h : (x2 - x1).natAbs = (y2 - y1).natAbs ∨ y1 = y2 ∨ x1 = x2) :
    linePoints x1 y1 x2 y2 n
      = (List.range (max (x2 - x1).natAbs (y2 - y1).natAbs + 1)).map
          (fun k : Nat => (x1 + (x2 - x1).sign * (k : Int), y1 + (y2 - y1).sign * (k : Int))) := by
  obtain ⟨hl, _, hch, _⟩ := lineStates_spec (x2 - x1).natAbs (y2 - y1).natAbs n hn
  obtain ⟨n', rfl⟩ : ∃ n', n = n' + 1 := ⟨n - 1, by omega⟩
  have h' : (x2 - x1).natAbs = (y2 - y1).natAbs ∨ (y2 - y1).natAbs = 0 ∨ (x2 - x1).natAbs = 0 := by
    omega
  have hr := lineStates_rigid_aux _ _ h' _ 0 0 _ (lineStates_head _ _ n' 0 0 _) hch
  rw [hl] at hr
  unfold linePoints
  have hmap : ∀ l : List (Nat × Nat × Int),
      l.map (lineCoord x1 y1 (lineSign x1 x2) (lineSign y1 y2))
        = (l.map (fun s => (s.1, s.2.1))).map (fun uv : Nat × Nat =>
            (x1 + lineSign x1 x2 * (uv.1 : Int), y1 + lineSign y1 y2 * (uv.2 : Int))) := by
    intro l; rw [List.map_map]; rfl
  rw [hmap, hr, List.map_map]
  apply List.map_congr_left
  intro k _
  simp only [Function.comp, zero_add]
  have sx : lineSign x1 x2 * ((min 1 (x2 - x1).natAbs * k : Nat) : Int)
      = (x2 - x1).sign * (k : Int) := by
    unfold lineSign
    rcases lt_trichotomy x1 x2 with hlt | heq | hgt
    · rw [if_pos hlt, Int.sign_eq_one_of_pos (by omega)]
      have : min 1 (x2 - x1).natAbs = 1 := by omega
      rw [this]; simp
    · subst heq; simp
    · rw [if_neg (by omega), Int.sign_eq_neg_one_of_neg (by omega)]
      have : min 1 (x2 - x1).natAbs = 1 := by omega
      rw [this]; simp
  have sy : lineSign y1 y2 * ((min 1 (y2 - y1).natAbs * k : Nat) : Int)
      = (y2 - y1).sign * (k : Int) := by
    unfold lineSign
    rcases lt_trichotomy y1 y2 with hlt | heq | hgt
    · rw [if_pos hlt, Int.sign_eq_one_of_pos (by omega)]
      have : min 1 (y2 - y1).natAbs = 1 := by omega
      rw [this]; simp
    · subst heq; simp
    · rw [if_neg (by omega), Int.sign_eq_neg_one_of_neg (by omega)]
      have : min 1 (y2 - y1).natAbs = 1 := by omega
      rw [this]; simp
  rw [sx, sy]

/-- For a horizontal, vertical or diagonal segment the coordinates visited from the other
end are the same ones in reverse order. -/
theorem linePoints_reverse (x1 y1 x2 y2 : Int) (n : Nat)
    (hn : max (x2 - x1).natAbs (y2 - y1).natAbs + 1 ≤ n)
    (h : (x2 - x1).natAbs = (y2 - y1).natAbs ∨ y1 = y2 ∨ x1 = x2) :
    linePoints x2 y2 x1 y1 n = (linePoints x1 y1 x2 y2 n).reverse := by
  have e1 : (x1 - x2).natAbs = (x2 - x1).natAbs := by omega
  have e2 : (y1 - y2).natAbs = (y2 - y1).natAbs := by omega
  rw [linePoints_rigid x1 y1 x2 y2 n hn h,
    linePoints_rigid x2 y2 x1 y1 n (by rw [e1, e2]; exact hn) (by omega), e1, e2,
    ← List.map_reverse, List.range_eq_range', List.reverse_range', List.map_map,
    ← List.range_eq_range']
  apply List.map_congr_left
  intro k hk
  rw [List.mem_range] at hk
  simp only [Function.comp]
  have hsx : (x1 - x2).sign = -(x2 - x1).sign := by
    rw [← Int.sign_neg]; congr 1; ring
  have hsy : (y1 - y2).sign = -(y2 - y1).sign := by
    rw [← Int.sign_neg]; congr 1; ring
  rw [hsx, hsy]
  have hc : ((0 + (max (x2 - x1).natAbs (y2 - y1).natAbs + 1) - 1 - k : Nat) : Int)
      = ((max (x2 - x1).natAbs (y2 - y1).natAbs : Nat) : Int) - (k : Int) := by omega
  rw [hc]
  have hx : (x2 - x1).sign * ((max (x2 - x1).natAbs (y2 - y1).natAbs : Nat) : Int) = x2 - x1 := by
    rcases lt_trichotomy x1 x2 with hlt | heq | hgt
    · rw [Int.sign_eq_one_of_pos (by omega)]; omega
    · subst heq; simp
    · rw [Int.sign_eq_neg_one_of_neg (by omega)]; omega
  have hy : (y2 - y1).sign * ((max (x2 - x1).natAbs (y2 - y1).natAbs : Nat) : Int) = y2 - y1 := by
    rcases lt_trichotomy y1 y2 with hlt | heq | hgt
    · rw [Int.sign_eq_one_of_pos (by omega)]; omega
    · subst heq; simp
    · rw [Int.sign_eq_neg_one_of_neg (by omega)]; omega
  refine Prod.ext ?_ ?_
  · simp only; rw [mul_sub, hx]; ring
  · simp only; rw [mul_sub, hy]; ring

theorem list_ext_getD (l l' : List Byte) (hl : l.length = l'.length)
    (h : ∀ i, l.getD i 0 = l'.getD i 0) : l = l' := by
  apply List.ext_getElem hl
  intro i h1 h2
  have := h i
  rw [List.getD_eq_getElem _ _ h1, List.getD_eq_getElem _ _ h2] at this
  exact this

theorem blackenAt_comm (img : BMPImage) (d : List Byte) (p q : Int × Int) :
    blackenAt img (blackenAt img d p) q = blackenAt img (blackenAt img d q) p := by
  apply list_ext_getD
  · simp only [length_blackenAt]
  · intro i
    simp only [getD_blackenAt, length_blackenAt]
    split <;> split <;> simp_all

/-- The buffer that a list of coordinates leaves does not depend on their order. -/
theorem foldl_blackenAt_perm (img : BMPImage) (l l' : List (Int × Int)) (h : l.Perm l')
    (d : List Byte) : l.foldl (blackenAt img) d = l'.foldl (blackenAt img) d := by
  haveI : RightCommutative (blackenAt img) := ⟨fun d p q => blackenAt_comm img d p q⟩
  exact h.foldl_eq d

/-! ## Pixels that cannot be plotted -/

theorem wellFormed_solidImage (w h bitCount : Nat) (v : Byte) (hw : 0 < w) (hh : 0 < h)
    (hb : bitCount = 24 ∨ bitCount = 32) : WellFormed (solidImage w h bitCount v) := by
  refine ⟨?_, ?_, hb, ?_, ?_⟩
  · show (0 : Int) < (w : Int)
    exact_mod_cast hw
  · show (0 : Int) < (h : Int)
    exact_mod_cast hh
  · show (w * (bitCount / 8) + 3) / 4 * 4 = ((w : Int).toNat * (bitCount / 8) + 3) / 4 * 4
    rw [Int.toNat_ofNat]
  · show (List.replicate ((w * (bitCount / 8) + 3) / 4 * 4 * h) v).length
        = (w * (bitCount / 8) + 3) / 4 * 4 * (h : Int).toNat
    rw [List.length_replicate, Int.toNat_ofNat]

theorem writeByte_length (d d' : List Byte) (i : Int) (v : Byte) (h : writeByte d i v = some d') :
    d'.length = d.length := by
  unfold writeByte at h
  split at h
  · simp only [Option.some.injEq] at h
    rw [← h, List.length_set]
  · simp at h

/-- A call of `setPixelBlack` that returns changes neither the headers nor the row stride
nor the length of the buffer. -/
theorem setPixelBlack_shape (img img' : BMPImage) (x y : Int)
    (h : setPixelBlack img x y = some img') :
    img'.fileHeader = img.fileHeader ∧ img'.infoHeader = img.infoHeader ∧
      img'.rowStride = img.rowStride ∧ img'.pixelData.length = img.pixelData.length := by
  unfold setPixelBlack at h
  split at h
  · simp only [Option.some.injEq] at h
    subst h
    exact ⟨rfl, rfl, rfl, rfl⟩
  · simp only at h
    cases h1 : writeByte img.pixelData (getPixelIndex img x y) 0 with
    | none => rw [h1] at h; simp at h
    | some d1 =>
      rw [h1] at h
      simp only at h
      cases h2 : writeByte d1 (wrapInt32 (getPixelIndex img x y + 1)) 0 with
      | none => rw [h2] at h; simp at h
      | some d2 =>
        rw [h2] at h
        simp only at h
        cases h3 : writeByte d2 (wrapInt32 (getPixelIndex img x y + 2)) 0 with
        | none => rw [h3] at h; simp at h
        | some d3 =>
          rw [h3] at h
          simp only [Option.some.injEq] at h
          subst h
          refine ⟨rfl, rfl, rfl, ?_⟩
          simp only
          rw [writeByte_length _ _ _ _ h3, writeByte_length _ _ _ _ h2,
            writeByte_length _ _ _ _ h1]

/-- A pixel of the image whose index is negative as an `int` cannot be plotted. -/
theorem setPixelBlack_of_neg (img : BMPImage) (x y : Int) (hin : InImage img (x, y))
    (hneg : getPixelIndex img x y < 0) : setPixelBlack img x y = none := by
  unfold setPixelBlack
  rw [if_neg (by unfold InImage at hin; simp only at hin; omega)]
  simp only
  have : writeByte img.pixelData (getPixelIndex img x y) 0 = none := by
    unfold writeByte
    rw [if_neg (by omega)]
  rw [this]

theorem plotAll_of_neg (p : Int × Int) (pts : List (Int × Int)) (hp : p ∈ pts) :
    ∀ img : BMPImage, InImage img p → getPixelIndex img p.1 p.2 < 0 → plotAll img pts = none := by
  induction pts with
  | nil => simp at hp
  | cons q rest ih =>
    intro img hin hneg
    rw [plotAll_cons]
    cases hq : setPixelBlack img q.1 q.2 with
    | none => rfl
    | some img1 =>
      simp only
      obtain ⟨_, h2, h3, _⟩ := setPixelBlack_shape img img1 q.1 q.2 hq
      rcases List.mem_cons.1 hp with rfl | hp'
      · rw [setPixelBlack_of_neg img p.1 p.2 hin hneg] at hq
        simp at hq
      · apply ih hp' img1
        · unfold InImage at hin ⊢; rw [h2]; exact hin
        · unfold getPixelIndex at hneg ⊢; rw [h2, h3]; exact hneg

/-- Within the limits of `SegmentFits`, a visited pixel of the image whose index is negative
as an `int` makes `drawLine` write outside the buffer. -/
theorem drawLine_of_neg (img : BMPImage) (x1 y1 x2 y2 : Int) (hfit : SegmentFits x1 y1 x2 y2)
    (n : Nat) (hn : max (x2 - x1).natAbs (y2 - y1).natAbs + 1 ≤ n) (p : Int × Int)
    (hp : p ∈ linePoints x1 y1 x2 y2 n) (hin : InImage img p)
    (hneg : getPixelIndex img p.1 p.2 < 0) :
    drawLine n img x1 y1 x2 y2 = none := by
  rw [drawLine_eq img x1 y1 x2 y2 hfit n hn]
  unfold lineRunOf
  have := plotAll_of_neg p _ hp img hin hneg
  unfold linePoints at this
  rw [this]
  rfl

/-! ## Claim C17: the bytes that `drawLine` changes -/

/-- Consequences of a frame condition on the bytes of pixels: when every byte that is no
channel byte of a pixel of `pts` has kept its value, then so have the pixels that are not in
`pts`, the fourth byte of every pixel of a 32-bit image, and the padding bytes. -/
theorem frame_of_channels (img : BMPImage) (hwf : WellFormed img) (out : List Byte)
    (pts : List (Int × Int))
    (hb : ∀ i, (∀ p ∈ pts, InImage img p → ∀ c, c < 3 →
        i ≠ pixelOffset img p.1.toNat p.2.toNat + c) →
      out.getD i 0 = img.pixelData.getD i 0) :
    (∀ x y : Nat, x < img.infoHeader.width.toNat → y < img.infoHeader.height.toNat →
      ((x : Int), (y : Int)) ∉ pts →
      redAt img out x y = redAt img img.pixelData x y ∧
      greenAt img out x y = greenAt img img.pixelData x y ∧
      blueAt img out x y = blueAt img img.pixelData x y) ∧
    (img.infoHeader.bitCount = 32 →
      ∀ x y : Nat, x < img.infoHeader.width.toNat → y < img.infoHeader.height.toNat →
        out.getD (pixelOffset img x y + 3) 0 = img.pixelData.getD (pixelOffset img x y + 3) 0) ∧
    (∀ y j : Nat, y < img.infoHeader.height.toNat →
      img.infoHeader.width.toNat * (img.infoHeader.bitCount / 8) ≤ j → j < img.rowStride →
      out.getD (y * img.rowStride + j) 0 = img.pixelData.getD (y * img.rowStride + j) 0) := by
  have hbpp := div8_of_bitCount _ hwf.2.2.1
  refine ⟨?_, ?_, ?_⟩
  · intro x y hx hy hnot
    have key : ∀ c0, c0 < 3 →
        out.getD (pixelOffset img x y + c0) 0 = img.pixelData.getD (pixelOffset img x y + c0) 0 := by
      intro c0 hc0
      apply hb
      intro p hp hin c hc heq
      obtain ⟨h1, _, h3, h4⟩ := inImage_toNat img p hin
      obtain ⟨e1, e2, _⟩ := pixelOffset_unique img hwf x y p.1.toNat p.2.toNat c0 c hx h1
        (by omega) (by omega) heq
      apply hnot
      rw [e1, e2, h3, h4]
      exact hp
    exact ⟨key 2 (by omega), key 1 (by omega), key 0 (by omega)⟩
  · intro h32 x y hx hy
    apply hb
    intro p _ hin c hc heq
    obtain ⟨h1, _, _, _⟩ := inImage_toNat img p hin
    have h4 : img.infoHeader.bitCount / 8 = 4 := by rw [h32]
    obtain ⟨_, _, e3⟩ := pixelOffset_unique img hwf x y p.1.toNat p.2.toNat 3 c hx h1
      (by omega) (by omega) heq
    omega
  · intro y j _ hj hj'
    apply hb
    intro p _ hin c hc
    obtain ⟨h1, _, _, _⟩ := inImage_toNat img p hin
    exact padding_ne_pixel img hwf y j p.1.toNat p.2.toNat c hj hj' h1 (by omega)

/-- The image that a list of calls of `setPixelBlack` leaves: the channels of the visited
pixels of the image are 0 and every other byte has kept its value. -/
theorem foldl_blackenAt_spec (img : BMPImage) (hwf : WellFormed img) (pts : List (Int × Int)) :
    (pts.foldl (blackenAt img) img.pixelData).length = img.pixelData.length ∧
    (∀ p ∈ pts, InImage img p →
      redAt img (pts.foldl (blackenAt img) img.pixelData) p.1.toNat p.2.toNat = 0 ∧
      greenAt img (pts.foldl (blackenAt img) img.pixelData) p.1.toNat p.2.toNat = 0 ∧
      blueAt img (pts.foldl (blackenAt img) img.pixelData) p.1.toNat p.2.toNat = 0) ∧
    (∀ i, (∀ p ∈ pts, InImage img p → ∀ c, c < 3 →
        i ≠ pixelOffset img p.1.toNat p.2.toNat + c) →
      (pts.foldl (blackenAt img) img.pixelData).getD i 0 = img.pixelData.getD i 0) := by
  refine ⟨length_foldl_blackenAt img pts _, ?_, ?_⟩
  · intro p hp hin
    obtain ⟨h1, h2, _, _⟩ := inImage_toNat img p hin
    obtain ⟨b1, b2, _, _⟩ := pixelOffset_bound img hwf p.1.toNat p.2.toNat h1 h2
    have hbpp := div8_of_bitCount _ hwf.2.2.1
    have hl : pixelOffset img p.1.toNat p.2.toNat + 2 < img.pixelData.length := by omega
    exact ⟨foldl_blackenAt_value img pts p hin 2 (by omega) _ hp hl,
      foldl_blackenAt_value img pts p hin 1 (by omega) _ hp hl,
      foldl_blackenAt_value img pts p hin 0 (by omega) _ hp hl⟩
  · intro i hi
    exact foldl_blackenAt_frame img pts i _ hi

theorem drawLine_plots (img : BMPImage) (hwf : WellFormed img)
    (hlen : img.pixelData.length ≤ 2147483648) (x1 y1 x2 y2 : Int) (n : Nat) :
    ∃ r, drawLine n img x1 y1 x2 y2 = some r ∧
      r.image = { img with pixelData := r.visited.foldl (blackenAt img) img.pixelData } := by
  unfold drawLine
  exact drawLineLoop_plots _ _ _ _ _ _ img hwf hlen n img.pixelData _ _ _ rfl

/-- Claim C17, amended: on every well-formed image whose buffer holds at most `2^31` bytes,
for all endpoints and after any number of iterations of the loop, `drawLine` has written
inside the buffer only; the three channel bytes of every visited pixel of the image are 0; every
byte that is no channel byte of a visited pixel of the image has kept its value, in particular
the pixels that were not visited, the fourth (alpha) byte of every pixel of a 32-bit image
and the padding bytes of every row; the length of the buffer, the headers and the row stride
are unchanged.  When the endpoints are within the limits of `SegmentFits`, the loop has
returned after `max dx dy + 1` iterations. -/
theorem drawLine_frame (img : BMPImage) (hwf : WellFormed img)
    (hlen : img.pixelData.length ≤ 2147483648) (x1 y1 x2 y2 : Int) (maxIterations : Nat) :
    ∃ r, drawLine maxIterations img x1 y1 x2 y2 = some r ∧
      r.image.fileHeader = img.fileHeader ∧ r.image.infoHeader = img.infoHeader ∧
      r.image.rowStride = img.rowStride ∧
      r.image.pixelData.length = img.pixelData.length ∧
      (∀ p ∈ r.visited, InImage img p →
        redAt img r.image.pixelData p.1.toNat p.2.toNat = 0 ∧
        greenAt img r.image.pixelData p.1.toNat p.2.toNat = 0 ∧
        blueAt img r.image.pixelData p.1.toNat p.2.toNat = 0) ∧
      (∀ i, (∀ p ∈ r.visited, InImage img p → ∀ c, c < 3 →
          i ≠ pixelOffset img p.1.toNat p.2.toNat + c) →
        r.image.pixelData.getD i 0 = img.pixelData.getD i 0) ∧
      (∀ x y : Nat, x < img.infoHeader.width.toNat → y < img.infoHeader.height.toNat →
        ((x : Int), (y : Int)) ∉ r.visited →
        redAt img r.image.pixelData x y = redAt img img.pixelData x y ∧
        greenAt img r.image.pixelData x y = greenAt img img.pixelData x y ∧
        blueAt img r.image.pixelData x y = blueAt img img.pixelData x y) ∧
      (img.infoHeader.bitCount = 32 →
        ∀ x y : Nat, x < img.infoHeader.width.toNat → y < img.infoHeader.height.toNat →
          r.image.pixelData.getD (pixelOffset img x y + 3) 0
            = img.pixelData.getD (pixelOffset img x y + 3) 0) ∧
      (∀ y j : Nat, y < img.infoHeader.height.toNat →
        img.infoHeader.width.toNat * (img.infoHeader.bitCount / 8) ≤ j → j < img.rowStride →
        r.image.pixelData.getD (y * img.rowStride + j) 0
          = img.pixelData.getD (y * img.rowStride + j) 0) ∧
      (SegmentFits x1 y1 x2 y2 →
        max (x2 - x1).natAbs (y2 - y1).natAbs + 1 ≤ maxIterations → r.finished = true) := by
  obtain ⟨r, hr, himg⟩ := drawLine_plots img hwf hlen x1 y1 x2 y2 maxIterations
  obtain ⟨hl, hval, hframe⟩ := foldl_blackenAt_spec img hwf r.visited
  obtain ⟨f1, f2, f3⟩ := frame_of_channels img hwf _ r.visited hframe
  refine ⟨r, hr, by rw [himg], by rw [himg], by rw [himg], by rw [himg]; exact hl,
    by rw [himg]; exact hval, by rw [himg]; exact hframe, by rw [himg]; exact f1,
    by rw [himg]; exact f2, by rw [himg]; exact f3, ?_⟩
  intro hfit hn
  rw [drawLine_run img hwf hlen x1 y1 x2 y2 hfit maxIterations hn] at hr
  simp only [Option.some.injEq] at hr
  rw [← hr]

/-! ## Claim C14: termination of `drawLine` -/

/-- Claim C14, amended: on a well-formed image whose buffer holds at most `2^31` bytes, for
endpoints within the limits of `SegmentFits` (`int` values at most 715827882 apart in each
axis), `drawLine` terminates: with `max(|x2 - x1|, |y2 - y1|) + 1` iterations allowed it
reaches the `break`.  It has then visited exactly that many coordinates, one in each
iteration, the first being `(x1, y1)` and the last `(x2, y2)`; from one visited coordinate to
the next each axis moves by at most one and never away from the endpoint, and the longer axis
moves by exactly one towards it; every visited coordinate lies in the bounding box of the two
endpoints. -/
theorem drawLine_terminates (img : BMPImage) (hwf : WellFormed img)
    (hlen : img.pixelData.length ≤ 2147483648) (x1 y1 x2 y2 : Int)
    (hfit : SegmentFits x1 y1 x2 y2) (maxIterations : Nat)
    (hn : max (x2 - x1).natAbs (y2 - y1).natAbs + 1 ≤ maxIterations) :
    ∃ r, drawLine maxIterations img x1 y1 x2 y2 = some r ∧ r.finished = true ∧
      r.visited.length = max (x2 - x1).natAbs (y2 - y1).natAbs + 1 ∧
      r.visited.head? = some (x1, y1) ∧ r.visited.getLast? = some (x2, y2) ∧
      List.Chain' (fun p q : Int × Int =>
          (x2 - q.1).natAbs ≤ (x2 - p.1).natAbs ∧ (y2 - q.2).natAbs ≤ (y2 - p.2).natAbs ∧
          (q.1 - p.1).natAbs ≤ 1 ∧ (q.2 - p.2).natAbs ≤ 1 ∧
          ((y2 - y1).natAbs ≤ (x2 - x1).natAbs → (x2 - q.1).natAbs + 1 = (x2 - p.1).natAbs) ∧
          ((x2 - x1).natAbs ≤ (y2 - y1).natAbs → (y2 - q.2).natAbs + 1 = (y2 - p.2).natAbs))
        r.visited ∧
      (∀ p ∈ r.visited,
        min x1 x2 ≤ p.1 ∧ p.1 ≤ max x1 x2 ∧ min y1 y2 ≤ p.2 ∧ p.2 ≤ max y1 y2) := by
  obtain ⟨h1, h2, h3, h4, h5⟩ := linePoints_spec x1 y1 x2 y2 maxIterations hn
  exact ⟨_, drawLine_run img hwf hlen x1 y1 x2 y2 hfit maxIterations hn, rfl, h1, h2, h3, h4, h5⟩

/-- Witness for claim C14: the segment from `(-3, 5)` to `(4, -2)` on the 3x2 image. -/
theorem drawLine_terminates_witness :
    WellFormed whiteStrip ∧ whiteStrip.pixelData.length ≤ 2147483648 ∧
      SegmentFits (-3) 5 4 (-2) ∧
      ∃ r, drawLine 8 whiteStrip (-3) 5 4 (-2) = some r ∧ r.finished = true ∧
        r.visited.length = 8 ∧ r.visited.head? = some (-3, 5) ∧
        r.visited.getLast? = some (4, -2) := by
  obtain ⟨r, h1, h2, h3, h4, h5, -, -⟩ :=
    drawLine_terminates whiteStrip (by decide) (by decide) (-3) 5 4 (-2) (by decide) 8
      (by decide)
  exact ⟨by decide, by decide, by decide, r, h1, h2, h3, h4, h5⟩

/-- With `dx = 2^30` and `dy = 0` the doubled error term overflows: the error term cycles
through four values, `x1` never changes and the loop never reaches its `break`. -/
theorem drawLineLoop_stuck (img : BMPImage) (hwf : WellFormed img)
    (hlen : img.pixelData.length ≤ 2147483648) (x2 y2 sx sy : Int) :
    ∀ n (d : List Byte) (x1 y1 err : Int), d.length = img.pixelData.length → x1 ≠ x2 →
      (err = 1073741824 ∨ err = -2147483648 ∨ err = -1073741824 ∨ err = 0) →
      ∃ r, drawLineLoop x2 y2 1073741824 0 sx sy n { img with pixelData := d } x1 y1 err
          = some r ∧ r.finished = false := by
  intro n
  induction n with
  | zero => intro d x1 y1 err _ _ _; exact ⟨_, rfl, rfl⟩
  | succ n ih =>
    intro d x1 y1 err hd hx herr
    rw [drawLineLoop_succ, setPixelBlack_spec img hwf hlen d hd]
    simp only
    rw [if_neg (fun h => hx h.1)]
    have h0 : wrapInt32 (-(0 : Int)) = 0 := by decide
    have hA : ¬ wrapInt32 (2 * err) > 0 ∧ wrapInt32 (2 * err) < 1073741824 := by
      rcases herr with rfl | rfl | rfl | rfl <;> decide
    have hB : wrapInt32 (err + 1073741824) = 1073741824 ∨
        wrapInt32 (err + 1073741824) = -2147483648 ∨
        wrapInt32 (err + 1073741824) = -1073741824 ∨ wrapInt32 (err + 1073741824) = 0 := by
      rcases herr with rfl | rfl | rfl | rfl <;> decide
    rw [h0]
    simp only [hA.1, hA.2, decide_True, decide_False, if_true, if_false, Bool.false_eq_true]
    obtain ⟨r, hr, hf⟩ := ih (blackenAt img d (x1, y1)) x1 (wrapInt32 (y1 + sy))
      (wrapInt32 (err + 1073741824)) (by rw [length_blackenAt, hd]) hx hB
    rw [hr]
    exact ⟨_, rfl, hf⟩

/-- Counterexample to claim C14.  First, `drawLine` from `(0, 0)` to `(2^30, 0)`, here on
the 1x1 image: `dx = 2^30`, `dy = 0`, `err = 2^30`, and `e2 = 2 * err` does not fit an
`int`: it is `-2^31`, so `x1` is not advanced and `y1` is stepped by `sy = -1`.  The second
coordinate visited is `(0, -1)`, which is outside the bounding box and farther from the
endpoint in `y` and not nearer in `x`; and the loop never reaches the `break`, whatever the
number of iterations.  Second, on the well-formed image of one column of `2^29 + 1` black
32-bit pixels, whose buffer holds `2^31 + 4` bytes, `drawLine` from `(0, 2^29 - 1)` to
`(0, 2^29)`: the endpoints are one step apart, and the second iteration calls
`setPixelBlack(0, 2^29)`, where `getPixelIndex` returns `2^31` as the `int` `-2^31` and the
write `pixelData[index]` is outside the buffer, so the loop does not complete its two
iterations. -/
theorem drawLine_terminates_counterexample :
    ((drawLine 2 onePixelImage 0 0 1073741824 0).map (fun r => (r.visited, r.finished))
        = some ([(0, 0), (0, -1)], false) ∧
      ∀ n, ∃ r, drawLine n onePixelImage 0 0 1073741824 0 = some r ∧ r.finished = false) ∧
    (WellFormed (blackColumn 536870913) ∧ SegmentFits 0 536870911 0 536870912 ∧
      InImage (blackColumn 536870913) (0, 536870912) ∧
      getPixelIndex (blackColumn 536870913) 0 536870912 = -2147483648 ∧
      ∀ n, 2 ≤ n → drawLine n (blackColumn 536870913) 0 536870911 0 536870912 = none) := by
  refine ⟨⟨by decide, ?_⟩, wellFormed_blackColumn 536870913 (by decide), by decide, by decide,
    by decide, ?_⟩
  · intro n
    exact drawLineLoop_stuck onePixelImage (by decide) (by decide) 1073741824 0 1 (-1) n
      onePixelImage.pixelData 0 0 1073741824 rfl (by decide) (Or.inl rfl)
  · intro n hn
    have hfit : SegmentFits 0 536870911 0 536870912 := by decide
    have hn' : max ((0 : Int) - 0).natAbs ((536870912 : Int) - 536870911).natAbs + 1 ≤ n := by
      have : ((536870912 : Int) - 536870911).natAbs = 1 := by decide
      rw [this]; simp; omega
    obtain ⟨_, _, h3, _⟩ := linePoints_spec 0 536870911 0 536870912 n hn'
    exact drawLine_of_neg _ 0 536870911 0 536870912 hfit n hn' (0, 536870912)
      (List.mem_of_mem_getLast? h3) (by decide) (by decide)

/-! ## Claims C11 and C12: reversed segments and clipping -/

/-- Counterexample to claim C11: on the 3x2 white image, `drawLine` from `(0, 0)` to `(2, 1)`
visits `(0, 0), (1, 0), (2, 1)` and `drawLine` from `(2, 1)` to `(0, 0)` visits
`(2, 1), (1, 1), (0, 0)`.  `dx = 2`, `dy = 1`, `err = 1` in both calls; the first iteration
steps in `x` only and the second in both axes, whatever the direction.  `(1, 0)` is plotted by
the first call only and `(1, 1)` by the second only, and the two buffers differ. -/
theorem drawLine_symmetric_counterexample :
    drawLine 3 whiteStrip 0 0 2 1
      = some { image := { whiteStrip with pixelData :=
                 [0, 0, 0, 0, 0, 0, 255, 255, 255, 255, 255, 255,
                  255, 255, 255, 255, 255, 255, 0, 0, 0, 255, 255, 255] },
               visited := [(0, 0), (1, 0), (2, 1)], finished := true } ∧
    drawLine 3 whiteStrip 2 1 0 0
      = some { image := { whiteStrip with pixelData :=
                 [0, 0, 0, 255, 255, 255, 255, 255, 255, 255, 255, 255,
                  255, 255, 255, 0, 0, 0, 0, 0, 0, 255, 255, 255] },
               visited := [(2, 1), (1, 1), (0, 0)], finished := true } := by
  constructor <;> decide

/-- Claim C11, amended: within the limits of `SegmentFits`, on a well-formed image of at most
`2^31` bytes, `drawLine` from `b = (x2, y2)` to `a = (x1, y1)` visits as many coordinates as
`drawLine` from `a` to `b`, namely `max(|x2 - x1|, |y2 - y1|) + 1`, and its `k`-th coordinate is the point reflection `a + b - p` of
the `k`-th coordinate `p` of the other call; both calls visit both endpoints.  When the
segment is horizontal, vertical or diagonal, the reversed call visits the same coordinates
in reverse order and leaves the same image. -/
theorem drawLine_reversed (img : BMPImage) (hwf : WellFormed img)
    (hlen : img.pixelData.length ≤ 2147483648) (x1 y1 x2 y2 : Int)
    (hfit : SegmentFits x1 y1 x2 y2) (maxIterations : Nat)
    (hn : max (x2 - x1).natAbs (y2 - y1).natAbs + 1 ≤ maxIterations) :
    ∃ r r', drawLine maxIterations img x1 y1 x2 y2 = some r ∧
      drawLine maxIterations img x2 y2 x1 y1 = some r' ∧
      r.finished = true ∧ r'.finished = true ∧
      r'.visited = r.visited.map (fun p => (x1 + x2 - p.1, y1 + y2 - p.2)) ∧
      r'.visited.length = r.visited.length ∧
      r.visited.length = max (x2 - x1).natAbs (y2 - y1).natAbs + 1 ∧
      (x1, y1) ∈ r.visited ∧ (x2, y2) ∈ r.visited ∧
      (x1, y1) ∈ r'.visited ∧ (x2, y2) ∈ r'.visited ∧
      (((x2 - x1).natAbs = (y2 - y1).natAbs ∨ y1 = y2 ∨ x1 = x2) →
        r'.visited = r.visited.reverse ∧ (∀ p, p ∈ r'.visited ↔ p ∈ r.visited) ∧
          r'.image = r.image) := by
  have e1 : (x1 - x2).natAbs = (x2 - x1).natAbs := by omega
  have e2 : (y1 - y2).natAbs = (y2 - y1).natAbs := by omega
  have hn' : max (x1 - x2).natAbs (y1 - y2).natAbs + 1 ≤ maxIterations := by
    rw [e1, e2]; exact hn
  have hrefl := linePoints_reflect x1 y1 x2 y2 maxIterations hn
  obtain ⟨a1, a2, a3, _, _⟩ := linePoints_spec x1 y1 x2 y2 maxIterations hn
  obtain ⟨_, b2, b3, _, _⟩ := linePoints_spec x2 y2 x1 y1 maxIterations hn'
  refine ⟨_, _, drawLine_run img hwf hlen x1 y1 x2 y2 hfit maxIterations hn,
    drawLine_run img hwf hlen x2 y2 x1 y1 (segmentFits_symm _ _ _ _ hfit) maxIterations hn',
    rfl, rfl, hrefl, ?_, a1, List.mem_of_mem_head? a2, List.mem_of_mem_getLast? a3,
    List.mem_of_mem_getLast? b3, List.mem_of_mem_head? b2, ?_⟩
  · show (linePoints x2 y2 x1 y1 maxIterations).length = (linePoints x1 y1 x2 y2 maxIterations).length
    rw [hrefl, List.length_map]
  · intro hr
    have hrev := linePoints_reverse x1 y1 x2 y2 maxIterations hn hr
    refine ⟨hrev, ?_, ?_⟩
    · intro p
      show p ∈ linePoints x2 y2 x1 y1 maxIterations ↔ p ∈ linePoints x1 y1 x2 y2 maxIterations
      rw [hrev, List.mem_reverse]
    · show ({ img with pixelData :=
          (linePoints x2 y2 x1 y1 maxIterations).foldl (blackenAt img) img.pixelData } : BMPImage)
        = { img with pixelData :=
          (linePoints x1 y1 x2 y2 maxIterations).foldl (blackenAt img) img.pixelData }
      rw [hrev, foldl_blackenAt_perm img _ _ (List.reverse_perm _)]

/-- Witness for claim C11: the diagonal of the 3x2 image, extended beyond the image. -/
theorem drawLine_reversed_witness :
    WellFormed whiteStrip ∧ whiteStrip.pixelData.length ≤ 2147483648 ∧
      SegmentFits 0 0 2 2 ∧
      ∃ r r', drawLine 3 whiteStrip 0 0 2 2 = some r ∧ drawLine 3 whiteStrip 2 2 0 0 = some r' ∧
        r'.visited = r.visited.reverse ∧ r'.image = r.image := by
  obtain ⟨r, r', h1, h2, -, -, -, -, -, -, -, -, -, h3⟩ :=
    drawLine_reversed whiteStrip (by decide) (by decide) 0 0 2 2 (by decide) 3 (by decide)
  obtain ⟨h4, -, h5⟩ := h3 (Or.inl (by decide))
  exact ⟨by decide, by decide, by decide, r, r', h1, h2, h4, h5⟩

/-- Claim C12, amended: on a well-formed image whose buffer holds at most `2^31` bytes, for
endpoints within the limits of `SegmentFits`, inside or outside the image, `drawLine`
completes (it reaches its `break` within `max dx dy + 1` iterations) without writing outside
the buffer.  The length of the buffer and the headers are unchanged; a byte that has changed
is one of the three channel bytes of a visited coordinate that lies in
`[0, width) x [0, height)`; every visited coordinate that lies in the image is plotted (its
three channel bytes are 0).  For a coordinate outside the image `setPixelBlack` returns the
image as it is, whatever the image. -/
theorem drawLine_clips (img : BMPImage) (hwf : WellFormed img)
    (hlen : img.pixelData.length ≤ 2147483648) (x1 y1 x2 y2 : Int)
    (hfit : SegmentFits x1 y1 x2 y2) (maxIterations : Nat)
    (hn : max (x2 - x1).natAbs (y2 - y1).natAbs + 1 ≤ maxIterations) :
    ∃ r, drawLine maxIterations img x1 y1 x2 y2 = some r ∧ r.finished = true ∧
      r.image.fileHeader = img.fileHeader ∧ r.image.infoHeader = img.infoHeader ∧
      r.image.rowStride = img.rowStride ∧
      r.image.pixelData.length = img.pixelData.length ∧
      (∀ i, r.image.pixelData.getD i 0 ≠ img.pixelData.getD i 0 →
        ∃ p ∈ r.visited, InImage img p ∧
          ∃ c, c < 3 ∧ i = pixelOffset img p.1.toNat p.2.toNat + c) ∧
      (∀ p ∈ r.visited, InImage img p →
        redAt img r.image.pixelData p.1.toNat p.2.toNat = 0 ∧
        greenAt img r.image.pixelData p.1.toNat p.2.toNat = 0 ∧
        blueAt img r.image.pixelData p.1.toNat p.2.toNat = 0) ∧
      (∀ (im : BMPImage) (x y : Int), ¬InImage im (x, y) → setPixelBlack im x y = some im) := by
  obtain ⟨hl, hval, hframe⟩ := foldl_blackenAt_spec img hwf (linePoints x1 y1 x2 y2 maxIterations)
  refine ⟨_, drawLine_run img hwf hlen x1 y1 x2 y2 hfit maxIterations hn, rfl, rfl, rfl, rfl,
    hl, ?_, hval, fun im x y h => setPixelBlack_outside im x y h⟩
  intro i hi
  by_contra hno
  apply hi
  apply hframe
  intro p hp hin c hc heq
  exact hno ⟨p, hp, hin, c, hc, heq⟩

/-- Witness for claim C12: a segment that starts left of the 3x2 image and ends right of
it. -/
theorem drawLine_clips_witness :
    WellFormed whiteStrip ∧ whiteStrip.pixelData.length ≤ 2147483648 ∧
      SegmentFits (-1) 0 4 1 ∧
      ∃ r, drawLine 6 whiteStrip (-1) 0 4 1 = some r ∧ r.finished = true ∧
        r.image.pixelData.length = whiteStrip.pixelData.length := by
  obtain ⟨r, h1, h2, -, -, -, h3, -⟩ :=
    drawLine_clips whiteStrip (by decide) (by decide) (-1) 0 4 1 (by decide) 6 (by decide)
  exact ⟨by decide, by decide, by decide, r, h1, h2, h3⟩

/-! ## Claims C12 and C17: images of more than `2^31` bytes -/

/-- Counterexample to claim C12: the image of one column of `2^29 + 1` black 32-bit pixels
is well-formed, and `(0, 2^29)` lies in it.  `drawLine` from that pixel to itself calls
`setPixelBlack(0, 2^29)`, which passes the test of line 54; `getPixelIndex` returns
`y * rowStride = 2^31` as the `int` `-2^31`, and the write `pixelData[index]` is outside the
buffer. -/
theorem drawLine_clips_counterexample :
    WellFormed (blackColumn 536870913) ∧ InImage (blackColumn 536870913) (0, 536870912) ∧
      getPixelIndex (blackColumn 536870913) 0 536870912 = -2147483648 ∧
      ∀ n, drawLine (n + 1) (blackColumn 536870913) 0 536870912 0 536870912 = none := by
  refine ⟨wellFormed_blackColumn 536870913 (by decide), by decide, by decide, ?_⟩
  intro n
  have hfit : SegmentFits 0 536870912 0 536870912 := by decide
  have hn : max ((0 : Int) - 0).natAbs ((536870912 : Int) - 536870912).natAbs + 1 ≤ n + 1 := by
    simp
  obtain ⟨_, h2, _⟩ := linePoints_spec 0 536870912 0 536870912 (n + 1) hn
  exact drawLine_of_neg _ 0 536870912 0 536870912 hfit (n + 1) hn (0, 536870912)
    (List.mem_of_mem_head? h2) (by decide) (by decide)

/-- Counterexample to claim C17: the image of one column of `2^29 + 1` white 24-bit pixels
(row stride 4, buffer of `2^31 + 4` bytes) is well-formed.  `drawLine` along the whole
column, from `(0, 0)` to `(0, 2^29)`, plots the rows below `2^29`; for the last pixel
`getPixelIndex` returns `2^31` as the `int` `-2^31`, and the write is outside the buffer. -/
theorem drawLine_frame_counterexample :
    WellFormed (solidImage 1 536870913 24 255) ∧
      InImage (solidImage 1 536870913 24 255) (0, 536870912) ∧
      getPixelIndex (solidImage 1 536870913 24 255) 0 536870912 = -2147483648 ∧
      ∀ n, 536870913 ≤ n → drawLine n (solidImage 1 536870913 24 255) 0 0 0 536870912 = none := by
  refine ⟨wellFormed_solidImage 1 536870913 24 255 (by decide) (by decide) (Or.inl rfl),
    by decide, by decide, ?_⟩
  intro n hn
  have hfit : SegmentFits 0 0 0 536870912 := by decide
  have hn' : max ((0 : Int) - 0).natAbs ((536870912 : Int) - 0).natAbs + 1 ≤ n := by
    have : ((536870912 : Int) - 0).natAbs = 536870912 := by decide
    rw [this]; simp; omega
  obtain ⟨_, _, h3, _⟩ := linePoints_spec 0 0 0 536870912 n hn'
  exact drawLine_of_neg _ 0 0 0 536870912 hfit n hn' (0, 536870912)
    (List.mem_of_mem_getLast? h3) (by decide) (by decide)

/-- Witness for claim C17: a segment across the 3x2 image. -/
theorem drawLine_frame_witness :
    WellFormed whiteStrip ∧ whiteStrip.pixelData.length ≤ 2147483648 ∧
      ∃ r, drawLine 4 whiteStrip (-1) 0 2 1 = some r ∧
        r.image.pixelData.length = whiteStrip.pixelData.length ∧ r.finished = true := by
  obtain ⟨r, h1, -, -, -, h2, -, -, -, -, -, h3⟩ :=
    drawLine_frame whiteStrip (by decide) (by decide) (-1) 0 2 1 4
  exact ⟨by decide, by decide, r, h1, h2, h3 (by decide) (by decide)⟩

/-! ## Claim C13: `drawCross` on a square image -/

theorem wellFormed_of_shape (img img' : BMPImage) (hwf : WellFormed img)
    (h1 : img'.infoHeader = img.infoHeader) (h2 : img'.rowStride = img.rowStride)
    (h3 : img'.pixelData.length = img.pixelData.length) : WellFormed img' := by
  unfold WellFormed at *
  rw [h1, h2, h3]
  exact hwf

theorem linePoints_diagonal (n m : Nat) (hn : 1 ≤ n) (hm : n ≤ m) :
    linePoints 0 0 ((n : Int) - 1) ((n : Int) - 1) m
      = (List.range n).map (fun i : Nat => ((i : Int), (i : Int))) := by
  have e : (((n : Int) - 1) - 0).natAbs = n - 1 := by omega
  rw [linePoints_rigid 0 0 _ _ m (by rw [e]; simp; omega) (Or.inl rfl), e]
  have e2 : max (n - 1) (n - 1) + 1 = n := by simp; omega
  rw [e2]
  apply List.map_congr_left
  intro k hk
  rw [List.mem_range] at hk
  rcases Nat.eq_or_lt_of_le hn with h1 | h1
  · have : k = 0 := by omega
    subst this; simp
  · have s2 : (((n : Int) - 1) - 0).sign = 1 := Int.sign_eq_one_of_pos (by omega)
    rw [s2]; simp

theorem linePoints_antidiagonal (n m : Nat) (hn : 1 ≤ n) (hm : n ≤ m) :
    linePoints ((n : Int) - 1) 0 0 ((n : Int) - 1) m
      = (List.range n).map (fun i : Nat => ((n : Int) - 1 - (i : Int), (i : Int))) := by
  have e1 : ((0 : Int) - ((n : Int) - 1)).natAbs = n - 1 := by omega
  have e2 : (((n : Int) - 1) - 0).natAbs = n - 1 := by omega
  rw [linePoints_rigid _ _ _ _ m (by rw [e1, e2]; simp; omega) (Or.inl (by rw [e1, e2])), e1, e2]
  have e3 : max (n - 1) (n - 1) + 1 = n := by simp; omega
  rw [e3]
  apply List.map_congr_left
  intro k hk
  rw [List.mem_range] at hk
  rcases Nat.eq_or_lt_of_le hn with h1 | h1
  · have : k = 0 := by omega
    subst this; simp
  · have s1 : ((0 : Int) - ((n : Int) - 1)).sign = -1 := Int.sign_eq_neg_one_of_neg (by omega)
    have s2 : (((n : Int) - 1) - 0).sign = 1 := Int.sign_eq_one_of_pos (by omega)
    rw [s1, s2]
    refine Prod.ext ?_ ?_ <;> simp only <;> ring

/-- The run of `drawCross` on a square well-formed image of at most `2^31` bytes. -/
theorem drawCross_run (img : BMPImage) (hwf : WellFormed img)
    (hlen : img.pixelData.length ≤ 2147483648) (n : Nat) (hn : 1 ≤ n)
    (hw : img.infoHeader.width = (n : Int)) (hh : img.infoHeader.height = (n : Int))
    (m : Nat) (hm : n ≤ m) :
    drawCross m img
      = some { image := { img with
                 pixelData := (crossPoints n).foldl (blackenAt img) img.pixelData },
               visited := crossPoints n, finished := true } := by
  have hb := div8_of_bitCount _ hwf.2.2.1
  have hrs : img.infoHeader.width.toNat * (img.infoHeader.bitCount / 8) ≤ img.rowStride := by
    rw [hwf.2.2.2.1, paddedRowBytes]; omega
  have hwn : img.infoHeader.width.toNat = n := by rw [hw]; simp
  have hhn : img.infoHeader.height.toNat = n := by rw [hh]; simp
  have h3 : 3 ≤ img.rowStride := by
    rw [hwn] at hrs
    rcases hb with hb | hb <;> rw [hb] at hrs <;> omega
  have hnb : n ≤ 715827882 := by
    have hl := hwf.2.2.2.2
    rw [hhn] at hl
    have := Nat.mul_le_mul_right n h3
    omega
  have ew : wrapInt32 ((n : Int) - 1) = (n : Int) - 1 :=
    wrapInt32_of_range _ (by omega) (by omega)
  have hfit1 : SegmentFits 0 0 ((n : Int) - 1) ((n : Int) - 1) := by
    unfold SegmentFits; omega
  have hfit2 : SegmentFits ((n : Int) - 1) 0 0 ((n : Int) - 1) := by
    unfold SegmentFits; omega
  have hm1 : max (((n : Int) - 1) - 0).natAbs (((n : Int) - 1) - 0).natAbs + 1 ≤ m := by
    have e : (((n : Int) - 1) - 0).natAbs = n - 1 := by omega
    rw [e]; simp; omega
  have hm2 : max ((0 : Int) - ((n : Int) - 1)).natAbs (((n : Int) - 1) - 0).natAbs + 1 ≤ m := by
    have e1 : ((0 : Int) - ((n : Int) - 1)).natAbs = n - 1 := by omega
    have e2 : (((n : Int) - 1) - 0).natAbs = n - 1 := by omega
    rw [e1, e2]; simp; omega
  unfold drawCross
  rw [hw, hh, ew, drawLine_run img hwf hlen 0 0 _ _ hfit1 m hm1]
  simp only [Bool.not_true, Bool.false_eq_true, if_false]
  have hwf1 : WellFormed ({ img with pixelData :=
      (linePoints 0 0 ((n : Int) - 1) ((n : Int) - 1) m).foldl (blackenAt img) img.pixelData } :
      BMPImage) :=
    wellFormed_of_shape img _ hwf rfl rfl (length_foldl_blackenAt _ _ _)
  have hlen1 : (({ img with pixelData :=
      (linePoints 0 0 ((n : Int) - 1) ((n : Int) - 1) m).foldl (blackenAt img) img.pixelData } :
      BMPImage)).pixelData.length ≤ 2147483648 := by
    show ((linePoints 0 0 ((n : Int) - 1) ((n : Int) - 1) m).foldl (blackenAt img)
      img.pixelData).length ≤ 2147483648
    rw [length_foldl_blackenAt]; exact hlen
  rw [hw, hh, ew, drawLine_run _ hwf1 hlen1 _ 0 0 _ hfit2 m hm2]
  simp only
  rw [linePoints_diagonal n m hn hm, linePoints_antidiagonal n m hn hm]
  unfold crossPoints
  rw [List.foldl_append]
  rfl

theorem mem_crossPoints (n x y : Nat) (hx : x < n) (hy : y < n) :
    ((x : Int), (y : Int)) ∈ crossPoints n ↔ (x = y ∨ x + y = n - 1) := by
  unfold crossPoints
  rw [List.mem_append, List.mem_map, List.mem_map]
  constructor
  · rintro (⟨i, _, hi⟩ | ⟨i, _, hi⟩)
    · simp only [Prod.mk.injEq] at hi
      left; omega
    · simp only [Prod.mk.injEq] at hi
      right; omega
  · rintro (h | h)
    · left
      exact ⟨x, List.mem_range.2 hx, by subst h; rfl⟩
    · right
      refine ⟨y, List.mem_range.2 hy, ?_⟩
      simp only [Prod.mk.injEq, and_true]
      omega

theorem count_eq_one_of_nodup (l : List (Int × Int)) (a : Int × Int) (nd : l.Nodup)
    (h : a ∈ l) : l.count a = 1 := by
  induction l with
  | nil => simp at h
  | cons b l ih =>
    rw [List.nodup_cons] at nd
    rw [List.count_cons]
    by_cases hb : b = a
    · subst hb
      rw [List.count_eq_zero_of_not_mem nd.1]
      simp
    · rcases List.mem_cons.1 h with h' | h'
      · exact absurd h'.symm hb
      · rw [ih nd.2 h']
        simp [hb]

theorem count_crossPoints (n : Nat) (hn : 2 ≤ n) :
    (crossPoints n).count (0, 0) = 1 ∧ (crossPoints n).count ((n : Int) - 1, (n : Int) - 1) = 1 ∧
      (crossPoints n).count ((n : Int) - 1, 0) = 1 ∧ (crossPoints n).count (0, (n : Int) - 1) = 1 := by
  have nd1 : ((List.range n).map (fun i : Nat => ((i : Int), (i : Int)))).Nodup := by
    apply List.Nodup.map _ (List.nodup_range n)
    intro a b hab
    simp only [Prod.mk.injEq] at hab
    omega
  have nd2 : ((List.range n).map (fun i : Nat => ((n : Int) - 1 - (i : Int), (i : Int)))).Nodup := by
    apply List.Nodup.map _ (List.nodup_range n)
    intro a b hab
    simp only [Prod.mk.injEq] at hab
    omega
  have m1 : ∀ k : Nat, k < n →
      ((k : Int), (k : Int)) ∈ (List.range n).map (fun i : Nat => ((i : Int), (i : Int))) :=
    fun k hk => List.mem_map.2 ⟨k, List.mem_range.2 hk, rfl⟩
  have m2 : ∀ k : Nat, k < n → ((n : Int) - 1 - (k : Int), (k : Int))
      ∈ (List.range n).map (fun i : Nat => ((n : Int) - 1 - (i : Int), (i : Int))) :=
    fun k hk => List.mem_map.2 ⟨k, List.mem_range.2 hk, rfl⟩
  have n1 : ∀ a b : Int, a ≠ b →
      (a, b) ∉ (List.range n).map (fun i : Nat => ((i : Int), (i : Int))) := by
    intro a b hab h
    obtain ⟨i, _, hi⟩ := List.mem_map.1 h
    simp only [Prod.mk.injEq] at hi
    omega
  have n2 : ∀ a b : Int, a + b ≠ (n : Int) - 1 →
      (a, b) ∉ (List.range n).map (fun i : Nat => ((n : Int) - 1 - (i : Int), (i : Int))) := by
    intro a b hab h
    obtain ⟨i, _, hi⟩ := List.mem_map.1 h
    simp only [Prod.mk.injEq] at hi
    omega
  have c1 : ∀ p : Int × Int,
      p ∈ (List.range n).map (fun i : Nat => ((i : Int), (i : Int))) →
      p ∉ (List.range n).map (fun i : Nat => ((n : Int) - 1 - (i : Int), (i : Int))) →
      (crossPoints n).count p = 1 := by
    intro p hp hq
    unfold crossPoints
    rw [List.count_append, count_eq_one_of_nodup _ _ nd1 hp, List.count_eq_zero_of_not_mem hq]
  have c2 : ∀ p : Int × Int,
      p ∉ (List.range n).map (fun i : Nat => ((i : Int), (i : Int))) →
      p ∈ (List.range n).map (fun i : Nat => ((n : Int) - 1 - (i : Int), (i : Int))) →
      (crossPoints n).count p = 1 := by
    intro p hp hq
    unfold crossPoints
    rw [List.count_append, List.count_eq_zero_of_not_mem hp, count_eq_one_of_nodup _ _ nd2 hq]
  refine ⟨?_, ?_, ?_, ?_⟩
  · apply c1 _ _ (n2 0 0 (by omega))
    have h := m1 0 (by omega)
    simpa using h
  · apply c1 _ _ (n2 _ _ (by omega))
    have h := m1 (n - 1) (by omega)
    have e : (((n - 1 : Nat) : Int)) = (n : Int) - 1 := by omega
    rw [e] at h
    exact h
  · apply c2 _ (n1 _ _ (by omega))
    have h := m2 0 (by omega)
    simpa using h
  · apply c2 _ (n1 _ _ (by omega))
    have h := m2 (n - 1) (by omega)
    have e : (n : Int) - 1 - ((n - 1 : Nat) : Int) = 0 := by omega
    have e' : (((n - 1 : Nat) : Int)) = (n : Int) - 1 := by omega
    rw [e, e'] at h
    exact h

/-- Claim C13, amended: for every square well-formed image with `width = height = n ≥ 1`
whose buffer holds at most `2^31` bytes, `drawCross` completes (each of its two calls of
`drawLine` within `n` iterations), and the coordinates it plots are, in order, `(i, i)` for
`i = 0, ..., n - 1` followed by `(n - 1 - i, i)` for `i = 0, ..., n - 1`.  Afterwards the three
channel bytes of pixel `(x, y)` are 0 if `x = y` or `x + y = n - 1` and have their former value
otherwise; headers, row stride and buffer length are unchanged.  For `n ≥ 2` each of the four
corners occurs exactly once in the sequence. -/
theorem drawCross_square (img : BMPImage) (hwf : WellFormed img)
    (hlen : img.pixelData.length ≤ 2147483648) (n : Nat) (hn : 1 ≤ n)
    (hw : img.infoHeader.width = (n : Int)) (hh : img.infoHeader.height = (n : Int))
    (maxIterations : Nat) (hm : n ≤ maxIterations) :
    ∃ r, drawCross maxIterations img = some r ∧ r.finished = true ∧
      r.visited = (List.range n).map (fun i : Nat => ((i : Int), (i : Int)))
        ++ (List.range n).map (fun i : Nat => ((n : Int) - 1 - (i : Int), (i : Int))) ∧
      r.image.fileHeader = img.fileHeader ∧ r.image.infoHeader = img.infoHeader ∧
      r.image.rowStride = img.rowStride ∧
      r.image.pixelData.length = img.pixelData.length ∧
      (∀ x y : Nat, x < n → y < n → (x = y ∨ x + y = n - 1) →
        redAt img r.image.pixelData x y = 0 ∧ greenAt img r.image.pixelData x y = 0 ∧
        blueAt img r.image.pixelData x y = 0) ∧
      (∀ x y : Nat, x < n → y < n → ¬(x = y ∨ x + y = n - 1) →
        redAt img r.image.pixelData x y = redAt img img.pixelData x y ∧
        greenAt img r.image.pixelData x y = greenAt img img.pixelData x y ∧
        blueAt img r.image.pixelData x y = blueAt img img.pixelData x y) ∧
      (2 ≤ n →
        r.visited.count (0, 0) = 1 ∧ r.visited.count ((n : Int) - 1, (n : Int) - 1) = 1 ∧
        r.visited.count ((n : Int) - 1, 0) = 1 ∧ r.visited.count (0, (n : Int) - 1) = 1) := by
  have hwn : img.infoHeader.width.toNat = n := by rw [hw]; simp
  have hhn : img.infoHeader.height.toNat = n := by rw [hh]; simp
  obtain ⟨hl, hval, hframe⟩ := foldl_blackenAt_spec img hwf (crossPoints n)
  obtain ⟨f1, _, _⟩ := frame_of_channels img hwf _ (crossPoints n) hframe
  refine ⟨_, drawCross_run img hwf hlen n hn hw hh maxIterations hm, rfl, rfl, rfl, rfl, rfl,
    hl, ?_, ?_, fun h2 => count_crossPoints n h2⟩
  · intro x y hx hy hxy
    have hin : InImage img ((x : Int), (y : Int)) := by
      unfold InImage; rw [hw, hh]; simp only; omega
    have := hval _ ((mem_crossPoints n x y hx hy).2 hxy) hin
    simpa using this
  · intro x y hx hy hxy
    exact f1 x y (by rw [hwn]; exact hx) (by rw [hhn]; exact hy)
      (fun hmem => hxy ((mem_crossPoints n x y hx hy).1 hmem))

/-- Witness for claim C13: `drawCross` on the 10x10 image plots the two diagonals, 20
coordinates, and each of the four corners once. -/
theorem drawCross_square_witness :
    WellFormed whiteSquare ∧ whiteSquare.pixelData.length ≤ 2147483648 ∧
      ∃ r, drawCross 10 whiteSquare = some r ∧ r.finished = true ∧
        r.visited = [(0, 0), (1, 1), (2, 2), (3, 3), (4, 4), (5, 5), (6, 6), (7, 7), (8, 8),
          (9, 9), (9, 0), (8, 1), (7, 2), (6, 3), (5, 4), (4, 5), (3, 6), (2, 7), (1, 8), (0, 9)] ∧
        r.visited.count (0, 0) = 1 ∧ r.visited.count (9, 9) = 1 ∧
        r.visited.count (9, 0) = 1 ∧ r.visited.count (0, 9) = 1 := by
  have hwf : WellFormed whiteSquare :=
    wellFormed_solidImage 10 10 24 255 (by decide) (by decide) (Or.inl rfl)
  have hlen : whiteSquare.pixelData.length ≤ 2147483648 := by
    rw [show whiteSquare.pixelData.length = 320 from List.length_replicate _ _]
    decide
  obtain ⟨r, h1, h2, h3, -, -, -, -, -, -, h4⟩ :=
    drawCross_square whiteSquare hwf hlen 10 (by decide) rfl rfl 10 (by decide)
  obtain ⟨c1, c2, c3, c4⟩ := h4 (by decide)
  exact ⟨hwf, hlen, r, h1, h2, h3, c1, c2, c3, c4⟩

/-- On a square image whose far corner has an index that is negative as an `int`,
`drawCross` writes outside the buffer. -/
theorem drawCross_of_neg (img : BMPImage) (n : Nat) (hn : 1 ≤ n) (hnb : n ≤ 715827882)
    (hw : img.infoHeader.width = (n : Int)) (hh : img.infoHeader.height = (n : Int))
    (hneg : getPixelIndex img ((n : Int) - 1) ((n : Int) - 1) < 0) (m : Nat) (hm : n ≤ m) :
    drawCross m img = none := by
  have ew : wrapInt32 ((n : Int) - 1) = (n : Int) - 1 :=
    wrapInt32_of_range _ (by omega) (by omega)
  have hfit1 : SegmentFits 0 0 ((n : Int) - 1) ((n : Int) - 1) := by
    unfold SegmentFits; omega
  have hm1 : max (((n : Int) - 1) - 0).natAbs (((n : Int) - 1) - 0).natAbs + 1 ≤ m := by
    have e : (((n : Int) - 1) - 0).natAbs = n - 1 := by omega
    rw [e]; simp; omega
  obtain ⟨_, _, h3, _⟩ := linePoints_spec 0 0 ((n : Int) - 1) ((n : Int) - 1) m hm1
  have hin : InImage img ((n : Int) - 1, (n : Int) - 1) := by
    unfold InImage; rw [hw, hh]; simp only; omega
  unfold drawCross
  rw [hw, hh, ew, drawLine_of_neg img 0 0 _ _ hfit1 m hm1 _ (List.mem_of_mem_getLast? h3) hin hneg]

/-- Counterexample to claim C13: the square image of 23171 x 23171 black 32-bit pixels is
well-formed (row stride 92684, buffer of 2147580964 bytes, more than `2^31`).  The first line
of `drawCross` ends in the corner `(23170, 23170)`, whose offset
`23170 * 92684 + 23170 * 4 = 2147580960` is returned by `getPixelIndex` as the negative `int`
`-2147386336`; the write `pixelData[index]` is outside the buffer.  The pixel before it on
the line, `(23169, 23169)`, already has an offset above `2^31`. -/
theorem drawCross_square_counterexample :
    WellFormed (solidImage 23171 23171 32 0) ∧
      (solidImage 23171 23171 32 0).infoHeader.width = 23171 ∧
      (solidImage 23171 23171 32 0).infoHeader.height = 23171 ∧
      getPixelIndex (solidImage 23171 23171 32 0) 23170 23170 = -2147386336 ∧
      ∀ n, 23171 ≤ n → drawCross n (solidImage 23171 23171 32 0) = none := by
  refine ⟨wellFormed_solidImage 23171 23171 32 0 (by decide) (by decide) (Or.inr rfl),
    rfl, rfl, by decide, ?_⟩
  intro n hn
  exact drawCross_of_neg _ 23171 (by decide) (by decide) rfl rfl (by decide) n hn

/-! ## Claim C15: the row ranges of the tasks -/

theorem rowRange_inImage (height : Int) (h0 : 0 ≤ height) (h31 : height < 2147483648)
    (N i : Nat) (hi : i < N) :
    0 ≤ (rowRange height N i).1 ∧ (rowRange height N i).1 ≤ (rowRange height N i).2 ∧
      (rowRange height N i).2 ≤ height := by
  rw [rowRange_eq height N i h0 h31 hi]
  simp only
  have h1 := mul_div_le_of_le i N height.toNat (by omega)
  have h1' : ((i * (height.toNat / N) : Nat) : Int) ≤ height := by
    have : ((i * (height.toNat / N) : Nat) : Int) ≤ ((height.toNat : Nat) : Int) := by
      exact_mod_cast h1
    omega
  refine ⟨Int.natCast_nonneg _, ?_, ?_⟩
  · split
    · exact h1'
    · have : i * (height.toNat / N) ≤ (i + 1) * (height.toNat / N) :=
        Nat.mul_le_mul_right _ (by omega)
      exact_mod_cast this
  · split
    · exact le_refl _
    · have h2 := mul_div_le_of_le (i + 1) N height.toNat (by omega)
      have : (((i + 1) * (height.toNat / N) : Nat) : Int) ≤ ((height.toNat : Nat) : Int) := by
        exact_mod_cast h2
      omega

/-- Every row of `[0, height)` belongs to exactly one of the `N` row ranges. -/
theorem rowRange_unique (height : Int) (h0 : 0 ≤ height) (h31 : height < 2147483648)
    (N : Nat) (hN : 1 ≤ N) (y : Int) (hy0 : 0 ≤ y) (hyH : y < height) :
    ∃! i, i < N ∧ (rowRange height N i).1 ≤ y ∧ y < (rowRange height N i).2 := by
  have heq : ∀ i, i < N → rowRange height N i
      = (((i * (height.toNat / N) : Nat) : Int),
          if i = N - 1 then height else (((i + 1) * (height.toNat / N) : Nat) : Int)) :=
    fun i hi => rowRange_eq height N i h0 h31 hi
  obtain ⟨H, rfl⟩ := Int.eq_ofNat_of_zero_le h0
  simp only [Int.toNat_ofNat] at heq ⊢
  have hmono : ∀ i j, i ≤ j → i * (H / N) ≤ j * (H / N) :=
    fun i j h => Nat.mul_le_mul_right _ h
  obtain ⟨Y, rfl⟩ := Int.eq_ofNat_of_zero_le hy0
  have hYH : Y < H := by exact_mod_cast hyH
  by_cases hc : Y < (N - 1) * (H / N)
  · have hqpos : 0 < H / N := by
      rcases Nat.eq_zero_or_pos (H / N) with h | h
      · rw [h] at hc; simp at hc
      · exact h
    have hi : Y / (H / N) < N - 1 := (Nat.div_lt_iff_lt_mul hqpos).2 hc
    have h1 : Y / (H / N) * (H / N) ≤ Y := Nat.div_mul_le_self Y (H / N)
    have h2 : Y < (Y / (H / N) + 1) * (H / N) := by
      rw [Nat.mul_comm]; exact Nat.lt_mul_div_succ Y hqpos
    refine ⟨Y / (H / N), ⟨by omega, ?_, ?_⟩, ?_⟩
    · rw [heq _ (by omega)]; simp only; exact_mod_cast h1
    · rw [heq _ (by omega)]; simp only
      rw [if_neg (by omega)]; exact_mod_cast h2
    · rintro j ⟨hj, hj1, hj2⟩
      rw [heq j hj] at hj1 hj2
      simp only at hj1 hj2
      have hj1' : j * (H / N) ≤ Y := by exact_mod_cast hj1
      by_cases hjl : j = N - 1
      · subst hjl; omega
      · rw [if_neg hjl] at hj2
        have hj2' : Y < (j + 1) * (H / N) := by exact_mod_cast hj2
        rcases Nat.lt_trichotomy j (Y / (H / N)) with hlt | heq' | hgt
        · have := hmono (j + 1) (Y / (H / N)) hlt
          omega
        · exact heq'
        · have := hmono (Y / (H / N) + 1) j hgt
          omega
  · refine ⟨N - 1, ⟨by omega, ?_, ?_⟩, ?_⟩
    · rw [heq _ (by omega)]; simp only
      have : (N - 1) * (H / N) ≤ Y := by omega
      exact_mod_cast this
    · rw [heq _ (by omega)]; simp only [if_true]
      exact hyH
    · rintro j ⟨hj, hj1, hj2⟩
      rw [heq j hj] at hj1 hj2
      simp only at hj1 hj2
      by_cases hjl : j = N - 1
      · exact hjl
      · rw [if_neg hjl] at hj2
        have hj2' : Y < (j + 1) * (H / N) := by exact_mod_cast hj2
        have := hmono (j + 1) (N - 1) (by omega)
        omega

/-- Claim C15: for every `height` with `0 ≤ height < 2^31` (an `int32_t` value that is not
negative) and every number `N ≥ 1` of tasks, the row ranges of `convertToBlackAndWhite` are
`[i * q, (i + 1) * q)` for `i < N - 1` and `[(N - 1) * q, height)` for `i = N - 1`, where
`q = height / N`.  Every row of `[0, height)` belongs to exactly one of them, every row of a
range lies in `[0, height)`, each range ends where the next one starts, and the last range
holds `q + height mod N` rows, the remainder included.  This covers `height < N` (then
`q = 0` and all rows are in the last range) and heights that are no multiple of `N`. -/
theorem rowRange_partition (height : Int) (h0 : 0 ≤ height) (h31 : height < 2147483648)
    (N : Nat) (hN : 1 ≤ N) :
    (∀ i, i < N → rowRange height N i
      = (((i * (height.toNat / N) : Nat) : Int),
          if i = N - 1 then height else (((i + 1) * (height.toNat / N) : Nat) : Int))) ∧
    (∀ y : Int, 0 ≤ y → y < height →
      ∃! i, i < N ∧ (rowRange height N i).1 ≤ y ∧ y < (rowRange height N i).2) ∧
    (∀ i (y : Int), i < N → (rowRange height N i).1 ≤ y → y < (rowRange height N i).2 →
      0 ≤ y ∧ y < height) ∧
    (∀ i, i + 1 < N → (rowRange height N i).2 = (rowRange height N (i + 1)).1) ∧
    (rowRange height N 0).1 = 0 ∧ (rowRange height N (N - 1)).2 = height ∧
    (rowRange height N (N - 1)).2 - (rowRange height N (N - 1)).1
      = ((height.toNat / N + height.toNat % N : Nat) : Int) := by
  have heq : ∀ i, i < N → rowRange height N i
      = (((i * (height.toNat / N) : Nat) : Int),
          if i = N - 1 then height else (((i + 1) * (height.toNat / N) : Nat) : Int)) :=
    fun i hi => rowRange_eq height N i h0 h31 hi
  refine ⟨heq, fun y hy0 hyH => rowRange_unique height h0 h31 N hN y hy0 hyH, ?_, ?_, ?_, ?_, ?_⟩
  · intro i y hi h1 h2
    obtain ⟨a, _, c⟩ := rowRange_inImage height h0 h31 N i hi
    omega
  · intro i hi
    rw [heq i (by omega), heq (i + 1) hi]
    simp only
    rw [if_neg (by omega)]
  · rw [heq 0 (by omega)]; simp
  · rw [heq (N - 1) (by omega)]; simp
  · rw [heq (N - 1) (by omega)]
    simp only [if_true]
    obtain ⟨H, rfl⟩ := Int.eq_ofNat_of_zero_le h0
    simp only [Int.toNat_ofNat]
    have hq : N * (H / N) ≤ H := Nat.mul_div_le H N
    have hmod : H = N * (H / N) + H % N := (Nat.div_add_mod H N).symm
    have h1 : (N - 1 + 1) * (H / N) = (N - 1) * (H / N) + H / N := by
      rw [Nat.add_mul, Nat.one_mul]
    have h2 : N - 1 + 1 = N := by omega
    rw [h2] at h1
    have : (N - 1) * (H / N) + (H / N + H % N) = H := by omega
    have h' : (((N - 1) * (H / N) : Nat) : Int) + ((H / N + H % N : Nat) : Int) = (H : Int) := by
      exact_mod_cast this
    omega

/-- Witness for claim C15: 10 rows and 4 tasks give the ranges `[0, 2)`, `[2, 4)`, `[4, 6)`
and `[6, 10)`. -/
theorem rowRange_partition_witness :
    (0 : Int) ≤ 10 ∧ (10 : Int) < 2147483648 ∧ 1 ≤ 4 ∧
      (List.range 4).map (rowRange 10 4) = [(0, 2), (2, 4), (4, 6), (6, 10)] ∧
      (rowRange 10 4 3).2 - (rowRange 10 4 3).1 = 4 := by
  obtain ⟨-, -, -, -, -, -, h⟩ := rowRange_partition 10 (by decide) (by decide) 4 (by decide)
  exact ⟨by decide, by decide, by decide, by decide, h⟩

/-! ## Claims C18 and C16: pixel addressing and the frame of the conversion -/

theorem length_blackColumn (rows : Nat) : (blackColumn rows).pixelData.length = 4 * rows :=
  List.length_replicate _ _

/-- Counterexample to claim C18: the image of one column of `2^29 + 1` black 32-bit pixels
is well-formed, with a buffer of `2^31 + 4` bytes.  For the pixel `(0, 2^29)` of the image the
offset `y * rowStride + x * (bitCount / 8)` is `2^31`, and `2^31 + 2` is less than the buffer
length; but `getPixelIndex` returns an `int`, here `-2^31`, and the read
`pixelData[index]` is outside the buffer. -/
theorem getPixelIndex_counterexample :
    WellFormed (blackColumn 536870913) ∧
      InImage (blackColumn 536870913) (0, 536870912) ∧
      pixelOffset (blackColumn 536870913) 0 536870912 = 2147483648 ∧
      pixelOffset (blackColumn 536870913) 0 536870912 + 2
        < (blackColumn 536870913).pixelData.length ∧
      getPixelIndex (blackColumn 536870913) 0 536870912 = -2147483648 ∧
      readByte (blackColumn 536870913).pixelData
        (getPixelIndex (blackColumn 536870913) 0 536870912) = none := by
  refine ⟨wellFormed_blackColumn 536870913 (by decide), by decide, by decide, ?_, by decide, ?_⟩
  · rw [length_blackColumn]; decide
  · have h : getPixelIndex (blackColumn 536870913) 0 536870912 = -2147483648 := by decide
    rw [h]
    exact readByte_neg _

/-- Claim C16, amended: for every well-formed image whose buffer holds at most `2^31` bytes
and every number of worker threads, `convertToBlackAndWhite` produces an image whose file
header, info header and row stride are those of the original and whose buffer has the same
length; every byte that is not one of the first three bytes of a pixel of the image has the
value it had before the call, in particular the padding bytes at the end of every row and,
in a 32-bit image, the fourth (alpha) byte of every pixel. -/
theorem convertToBlackAndWhite_frame (img : BMPImage) (hwf : WellFormed img)
    (hlen : img.pixelData.length ≤ 2147483648) (hardwareConcurrency : Nat) :
    ∃ out, convertToBlackAndWhite hardwareConcurrency img = some out ∧
      out.fileHeader = img.fileHeader ∧ out.infoHeader = img.infoHeader ∧
      out.rowStride = img.rowStride ∧ out.pixelData.length = img.pixelData.length ∧
      (∀ i, (∀ x y : Nat, x < img.infoHeader.width.toNat → y < img.infoHeader.height.toNat →
          ∀ c, c < 3 → i ≠ pixelOffset img x y + c) →
        out.pixelData.getD i 0 = img.pixelData.getD i 0) ∧
      (img.infoHeader.bitCount = 32 →
        ∀ x y : Nat, x < img.infoHeader.width.toNat → y < img.infoHeader.height.toNat →
          out.pixelData.getD (pixelOffset img x y + 3) 0
            = img.pixelData.getD (pixelOffset img x y + 3) 0) ∧
      (∀ y j : Nat, y < img.infoHeader.height.toNat →
        img.infoHeader.width.toNat * (img.infoHeader.bitCount / 8) ≤ j → j < img.rowStride →
        out.pixelData.getD (y * img.rowStride + j) 0
          = img.pixelData.getD (y * img.rowStride + j) 0) := by
  have hb := div8_of_bitCount _ hwf.2.2.1
  have hframe : ∀ i, (∀ x y : Nat, x < img.infoHeader.width.toNat →
      y < img.infoHeader.height.toNat → ∀ c, c < 3 → i ≠ pixelOffset img x y + c) →
      (specRows img 0 img.infoHeader.height.toNat img.pixelData).getD i 0
        = img.pixelData.getD i 0 := by
    intro i hi
    apply specRows_frame
    intro y' _ hy' x' hx' c hc
    exact hi x' y' hx' (by omega) c hc
  refine ⟨_, convertToBlackAndWhite_eq img hwf hlen hardwareConcurrency, rfl, rfl, rfl,
    length_specRows _ _ _ _, hframe, ?_, ?_⟩
  · intro h32 x y hx hy
    apply hframe
    intro x' y' hx' _ c hc heq
    have h4 : img.infoHeader.bitCount / 8 = 4 := by rw [h32]
    obtain ⟨_, _, e3⟩ := pixelOffset_unique img hwf x y x' y' 3 c hx hx' (by omega) (by omega) heq
    omega
  · intro y j _ hj hj'
    apply hframe
    intro x' y' hx' _ c hc
    exact padding_ne_pixel img hwf y j x' y' c hj hj' hx' (by omega)

/-- Witness for claim C16: the 2x2, 32-bit image keeps the alpha byte 77 of its pixel
`(1, 1)`, here with 3 worker threads. -/
theorem convertToBlackAndWhite_frame_witness :
    WellFormed alphaImage ∧ alphaImage.pixelData.length ≤ 2147483648 ∧
      ∃ out, convertToBlackAndWhite 3 alphaImage = some out ∧
        out.pixelData.length = 16 ∧ out.pixelData.getD 15 0 = 77 := by
  obtain ⟨out, h1, -, -, -, h2, -, h3, -⟩ :=
    convertToBlackAndWhite_frame alphaImage (by decide) (by decide) 3
  exact ⟨by decide, by decide, out, h1, h2, h3 rfl 1 1 (by decide) (by decide)⟩

/-! ## Reads outside the buffer -/

theorem convertPixel_of_readFails (img : BMPImage) (x y : Int) (d : List Byte)
    (h : ReadFails img x y) : convertPixel img x y d = none := by
  unfold convertPixel
  simp only
  cases h1 : readByte img.pixelData (getPixelIndex img x y) with
  | none => rfl
  | some blue =>
    simp only
    cases h2 : readByte img.pixelData (wrapInt32 (getPixelIndex img x y + 1)) with
    | none => rfl
    | some green =>
      simp only
      cases h3 : readByte img.pixelData (wrapInt32 (getPixelIndex img x y + 2)) with
      | none => rfl
      | some red =>
        rcases h with h | h | h
        · rw [h1] at h; simp at h
        · rw [h2] at h; simp at h
        · rw [h3] at h; simp at h

theorem convertCols_of_readFails (img : BMPImage) (y : Int) (x : Nat)
    (h : ReadFails img x y) :
    ∀ n x0 (d : List Byte), x0 ≤ x → x < x0 + n → convertCols img y x0 n d = none := by
  intro n
  induction n with
  | zero => intro x0 d h1 h2; omega
  | succ n ih =>
    intro x0 d h1 h2
    rw [convertCols_succ]
    rcases Nat.eq_or_lt_of_le h1 with heq | hlt
    · subst heq
      rw [convertPixel_of_readFails img _ y d h]
    · cases convertPixel img x0 y d with
      | none => rfl
      | some d' => exact ih (x0 + 1) d' (by omega) (by omega)

theorem convertRows_of_readFails (img : BMPImage) (x : Nat)
    (hx : x < img.infoHeader.width.toNat) :
    ∀ n (y0 : Int) (d : List Byte) (k : Nat), k < n → ReadFails img x (y0 + k) →
      convertRows img y0 n d = none := by
  intro n
  induction n with
  | zero => intro y0 d k hk; omega
  | succ n ih =>
    intro y0 d k hk h
    rw [convertRows_succ]
    rcases Nat.eq_zero_or_pos k with h0 | hpos
    · subst h0
      simp only [Nat.cast_zero, add_zero] at h
      rw [convertCols_of_readFails img y0 x h _ 0 d (Nat.zero_le _) (by omega)]
    · cases convertCols img y0 0 img.infoHeader.width.toNat d with
      | none => rfl
      | some d' =>
        apply ih (y0 + 1) d' (k - 1) (by omega)
        have : y0 + 1 + ((k - 1 : Nat) : Int) = y0 + (k : Int) := by omega
        rw [this]; exact h

/-- A task whose row range holds a pixel that cannot be read makes the run fail, wherever it
stands in the list of tasks. -/
theorem runTasks_of_readFails (img : BMPImage) (x : Nat) (y : Int)
    (hx : x < img.infoHeader.width.toNat) (h : ReadFails img x y) :
    ∀ (l : List (Int × Int)) (d : List Byte), (∃ r ∈ l, r.1 ≤ y ∧ y < r.2) →
      runTasks img l d = none := by
  intro l
  induction l with
  | nil => intro d ⟨r, hr, _⟩; simp at hr
  | cons t rest ih =>
    intro d ⟨r, hr, h1, h2⟩
    obtain ⟨a, b⟩ := t
    rw [runTasks_cons]
    rcases List.mem_cons.1 hr with rfl | hr'
    · simp only at h1 h2
      have : convertRow img a b d = none := by
        unfold convertRow
        apply convertRows_of_readFails img x hx _ a d (y - a).toNat (by omega)
        have : a + (((y - a).toNat : Nat) : Int) = y := by omega
        rw [this]; exact h
      rw [this]
    · cases convertRow img a b d with
      | none => rfl
      | some d' => exact ih d' ⟨r, hr', h1, h2⟩

theorem scanRow_of_readFails (img : BMPImage) (y : Int) (x : Nat) (h : ReadFails img x y) :
    ∀ n x0, x0 ≤ x → x < x0 + n → scanRow img y x0 n ≠ some false := by
  intro n
  induction n with
  | zero => intro x0 h1 h2; omega
  | succ n ih =>
    intro x0 h1 h2
    rw [scanRow_succ]
    cases r1 : readByte img.pixelData (getPixelIndex img x0 y) with
    | none => simp
    | some blue =>
      simp only
      cases r2 : readByte img.pixelData (wrapInt32 (getPixelIndex img x0 y + 1)) with
      | none => simp
      | some green =>
        simp only
        cases r3 : readByte img.pixelData (wrapInt32 (getPixelIndex img x0 y + 2)) with
        | none => simp
        | some red =>
          simp only
          rcases Nat.eq_or_lt_of_le h1 with heq | hlt
          · subst heq
            rcases h with h | h | h
            · rw [r1] at h; simp at h
            · rw [r2] at h; simp at h
            · rw [r3] at h; simp at h
          · split
            · simp
            · exact ih (x0 + 1) (by omega) (by omega)

theorem scanRows_of_readFails (img : BMPImage) (x : Nat)
    (hx : x < img.infoHeader.width.toNat) :
    ∀ n (y0 : Int) (k : Nat), k < n → ReadFails img x (y0 + k) →
      scanRows img y0 n ≠ some false := by
  intro n
  induction n with
  | zero => intro y0 k hk; omega
  | succ n ih =>
    intro y0 k hk h
    rw [scanRows_succ]
    rcases Nat.eq_zero_or_pos k with h0 | hpos
    · subst h0
      simp only [Nat.cast_zero, add_zero] at h
      have := scanRow_of_readFails img y0 x h _ 0 (Nat.zero_le _) (by omega : x < 0 + img.infoHeader.width.toNat)
      cases hs : scanRow img y0 0 img.infoHeader.width.toNat with
      | none => simp
      | some b =>
        cases b with
        | true => simp
        | false => exact absurd hs this
    · cases hs : scanRow img y0 0 img.infoHeader.width.toNat with
      | none => simp
      | some b =>
        cases b with
        | true => simp
        | false =>
          simp only
          apply ih (y0 + 1) (k - 1) (by omega)
          have : y0 + 1 + ((k - 1 : Nat) : Int) = y0 + (k : Int) := by omega
          rw [this]; exact h

/-! ## Images of more than `2^31` bytes -/

theorem getPixelIndex_wrapped (img : BMPImage) (x y : Nat) (hy : y < 4294967296)
    (h : pixelOffset img x y < 4294967296) :
    getPixelIndex img (x : Int) (y : Int) = toInt32 (pixelOffset img x y) := by
  unfold getPixelIndex pixelOffset at *
  have e2 : ((x : Int) * ((img.infoHeader.bitCount / 8 : Nat) : Int))
      = ((x * (img.infoHeader.bitCount / 8) : Nat) : Int) := by push_cast; rfl
  rw [e2, toUInt32_wrapInt32, toUInt32_natCast y hy,
    toUInt32_natCast (x * (img.infoHeader.bitCount / 8)) (by omega),
    Nat.mod_eq_of_lt (by omega)]

/-- A pixel whose offset is in `[2^31 - 2, 2^32)` cannot be read: the index, or the index
of its second or third byte, is negative as an `int`. -/
theorem readFails_of_offset (img : BMPImage) (x y : Nat) (hy : y < 4294967296)
    (h1 : 2147483648 ≤ pixelOffset img x y + 2) (h2 : pixelOffset img x y < 4294967296) :
    ReadFails img (x : Int) (y : Int) := by
  unfold ReadFails
  rw [getPixelIndex_wrapped img x y hy h2]
  rcases Nat.lt_or_ge (pixelOffset img x y) 2147483648 with hlt | hge
  · rw [toInt32_of_lt _ hlt]
    rcases Nat.eq_or_lt_of_le h1 with heq | hlt'
    · right; right
      have : pixelOffset img x y = 2147483646 := by omega
      rw [this]
      exact readByte_neg _
    · right; left
      have : pixelOffset img x y = 2147483647 := by omega
      rw [this]
      exact readByte_neg _
  · left
    unfold readByte
    rw [if_neg]
    unfold toInt32
    rw [Nat.mod_eq_of_lt h2, if_neg (by omega)]
    omega

/-- A well-formed image whose buffer holds more than `2^31` bytes has a pixel that cannot be
read: the first pixel whose third byte lies at `2^31 - 1` or beyond. -/
theorem exists_readFails (img : BMPImage) (hwf : WellFormed img)
    (hbig : 2147483648 < img.pixelData.length) :
    ∃ x y : Nat, x < img.infoHeader.width.toNat ∧ y < img.infoHeader.height.toNat ∧
      ReadFails img (x : Int) (y : Int) := by
  classical
  have hb := div8_of_bitCount _ hwf.2.2.1
  obtain ⟨hw, hh, hbc, hrs, hlen⟩ := hwf
  have hW : 1 ≤ img.infoHeader.width.toNat := by omega
  have hH : 1 ≤ img.infoHeader.height.toNat := by omega
  unfold paddedRowBytes at hrs
  have hlen4 : img.pixelData.length
      = 4 * ((img.infoHeader.width.toNat * (img.infoHeader.bitCount / 8) + 3) / 4
          * img.infoHeader.height.toNat) := by
    rw [hlen, hrs]; ring
  have hl4 : 2147483652 ≤ img.pixelData.length := by omega
  have hHrs : img.infoHeader.height.toNat * img.rowStride
      = (img.infoHeader.height.toNat - 1) * img.rowStride + img.rowStride := by
    have h1 : (img.infoHeader.height.toNat - 1 + 1) * img.rowStride
        = (img.infoHeader.height.toNat - 1) * img.rowStride + img.rowStride := by
      rw [Nat.add_mul, Nat.one_mul]
    have h2 : img.infoHeader.height.toNat - 1 + 1 = img.infoHeader.height.toNat := by omega
    rw [h2] at h1; exact h1
  have hex : ∃ o, ∃ x y : Nat, x < img.infoHeader.width.toNat ∧
      y < img.infoHeader.height.toNat ∧ pixelOffset img x y = o ∧ 2147483648 ≤ o + 2 := by
    refine ⟨_, img.infoHeader.width.toNat - 1, img.infoHeader.height.toNat - 1, by omega,
      by omega, rfl, ?_⟩
    unfold pixelOffset
    rw [Nat.mul_comm img.rowStride] at hlen
    rcases hb with hb | hb <;> rw [hb] at hrs ⊢ <;> omega
  obtain ⟨x, y, hx, hy, ho, hge⟩ := Nat.find_spec hex
  have hmin : ∀ x' y' : Nat, x' < img.infoHeader.width.toNat →
      y' < img.infoHeader.height.toNat → pixelOffset img x' y' < Nat.find hex →
      pixelOffset img x' y' + 2 < 2147483648 := by
    intro x' y' hx' hy' hlt
    by_contra hcon
    exact Nat.find_min hex hlt ⟨x', y', hx', hy', rfl, by omega⟩
  have hylt : y ≤ y * img.rowStride := by
    apply Nat.le_mul_of_pos_right
    rcases hb with hb | hb <;> rw [hb] at hrs <;> omega
  have hsmall : pixelOffset img x y + 2 < 2147483648 + 7 := by
    rcases Nat.eq_zero_or_pos x with hx0 | hxpos
    · rcases Nat.eq_zero_or_pos y with hy0 | hypos
      · subst hx0; subst hy0
        rw [← ho] at hge
        unfold pixelOffset at hge
        simp at hge
      · have := hmin (img.infoHeader.width.toNat - 1) (y - 1) (by omega) (by omega) (by
          rw [← ho]; subst hx0
          unfold pixelOffset
          have h1 : (y - 1 + 1) * img.rowStride = (y - 1) * img.rowStride + img.rowStride := by
            rw [Nat.add_mul, Nat.one_mul]
          have h2 : y - 1 + 1 = y := by omega
          rw [h2] at h1
          rcases hb with hb | hb <;> rw [hb] at hrs ⊢ <;> omega)
        subst hx0
        unfold pixelOffset at this ⊢
        have h1 : (y - 1 + 1) * img.rowStride = (y - 1) * img.rowStride + img.rowStride := by
          rw [Nat.add_mul, Nat.one_mul]
        have h2 : y - 1 + 1 = y := by omega
        rw [h2] at h1
        rcases hb with hb | hb <;> rw [hb] at hrs this ⊢ <;> omega
    · have := hmin (x - 1) y (by omega) hy (by
        rw [← ho]
        unfold pixelOffset
        rcases hb with hb | hb <;> rw [hb] <;> omega)
      unfold pixelOffset at this ⊢
      rcases hb with hb | hb <;> rw [hb] at this ⊢ <;> omega
  refine ⟨x, y, hx, hy, readFails_of_offset img x y ?_ (by rw [ho]; exact hge) (by omega)⟩
  unfold pixelOffset at hsmall
  omega

/-! ## Tasks in any order -/

theorem length_specTasks (img : BMPImage) (l : List (Int × Int)) :
    ∀ d : List Byte, (specTasks img l d).length = d.length := by
  induction l with
  | nil => intro d; rfl
  | cons r rest ih =>
    intro d
    unfold specTasks at ih ⊢
    rw [List.foldl_cons, ih, length_specRows]

/-- Tasks on row ranges of the image never leave the buffer of a well-formed image of at
most `2^31` bytes, in whatever order they run. -/
theorem runTasks_cover (img : BMPImage) (hwf : WellFormed img)
    (hlen : img.pixelData.length ≤ 2147483648) :
    ∀ (l : List (Int × Int)) (d : List Byte), d.length = img.pixelData.length →
      (∀ r ∈ l, RangeInImage img r) → runTasks img l d = some (specTasks img l d) := by
  intro l
  induction l with
  | nil => intro d _ _; rfl
  | cons t rest ih =>
    intro d hd hr
    obtain ⟨a, b⟩ := t
    obtain ⟨h1, h2, h3⟩ := hr (a, b) (List.mem_cons_self _ _)
    simp only at h1 h2 h3
    obtain ⟨a', rfl⟩ := Int.eq_ofNat_of_zero_le h1
    obtain ⟨b', rfl⟩ := Int.eq_ofNat_of_zero_le (le_trans h1 h2)
    rw [runTasks_cons, convertRow_natCast, convertRows_spec img (b' - a') a' d _ hd]
    · simp only
      rw [ih _ (by rw [length_specRows, hd]) (fun r hr' => hr r (List.mem_cons_of_mem _ hr'))]
      rfl
    · intro y' hy1 hy2 x' hx'
      exact addressable_of_wellFormed img hwf hlen x' y' hx' (by omega)

theorem specTasks_cons (img : BMPImage) (r : Int × Int) (rest : List (Int × Int))
    (d : List Byte) :
    specTasks img (r :: rest) d
      = specTasks img rest (specRows img r.1.toNat (r.2.toNat - r.1.toNat) d) := rfl

/-- A byte that is no channel byte of a pixel of the image keeps its value. -/
theorem specTasks_frame (img : BMPImage) (i : Nat)
    (hi : ∀ x y : Nat, x < img.infoHeader.width.toNat → y < img.infoHeader.height.toNat →
      ∀ c, c < 3 → i ≠ pixelOffset img x y + c) :
    ∀ (l : List (Int × Int)) (d : List Byte), (∀ r ∈ l, RangeInImage img r) →
      (specTasks img l d).getD i 0 = d.getD i 0 := by
  intro l
  induction l with
  | nil => intro d _; rfl
  | cons r rest ih =>
    intro d hr
    obtain ⟨h1, h2, h3⟩ := hr r (List.mem_cons_self _ _)
    rw [specTasks_cons, ih _ (fun r' h' => hr r' (List.mem_cons_of_mem _ h')), specRows_frame]
    intro y' _ hy2 x' hx' c hc
    exact hi x' y' hx' (by omega) c hc

/-- A channel byte that holds the binarized value of its pixel keeps it. -/
theorem specTasks_persist (img : BMPImage) (hwf : WellFormed img) (x y c : Nat)
    (hx : x < img.infoHeader.width.toNat) (hy : y < img.infoHeader.height.toNat) (hc : c < 3) :
    ∀ (l : List (Int × Int)) (d : List Byte), d.length = img.pixelData.length →
      d.getD (pixelOffset img x y + c) 0 = binarizedValue img x y →
      (specTasks img l d).getD (pixelOffset img x y + c) 0 = binarizedValue img x y := by
  have hb := div8_of_bitCount _ hwf.2.2.1
  obtain ⟨b1, b2, _, b4⟩ := pixelOffset_bound img hwf x y hx hy
  intro l
  induction l with
  | nil => intro d _ h; exact h
  | cons r rest ih =>
    intro d hd h
    rw [specTasks_cons]
    apply ih _ (by rw [length_specRows, hd])
    by_cases hin : r.1.toNat ≤ y ∧ y < r.1.toNat + (r.2.toNat - r.1.toNat)
    · exact specRows_value img _ _ d x y c (by omega) b4 hin.1 hin.2 hx hc (by omega)
    · rw [specRows_frame, h]
      intro y' hy1 hy2 x' hx' c' hc' heq
      obtain ⟨_, e2, _⟩ := pixelOffset_unique img hwf x y x' y' c c' hx hx' (by omega) (by omega) heq
      subst e2
      exact hin ⟨hy1, hy2⟩

/-- A channel byte of a pixel whose row belongs to one of the tasks holds the binarized value
of the pixel. -/
theorem specTasks_value (img : BMPImage) (hwf : WellFormed img) (x y c : Nat)
    (hx : x < img.infoHeader.width.toNat) (hy : y < img.infoHeader.height.toNat) (hc : c < 3) :
    ∀ (l : List (Int × Int)) (d : List Byte), d.length = img.pixelData.length →
      (∃ r ∈ l, r.1 ≤ (y : Int) ∧ (y : Int) < r.2 ∧ 0 ≤ r.1) →
      (specTasks img l d).getD (pixelOffset img x y + c) 0 = binarizedValue img x y := by
  have hb := div8_of_bitCount _ hwf.2.2.1
  obtain ⟨b1, b2, _, b4⟩ := pixelOffset_bound img hwf x y hx hy
  intro l
  induction l with
  | nil => intro d _ ⟨r, hr, _⟩; simp at hr
  | cons t rest ih =>
    intro d hd ⟨r, hr, h1, h2, h3⟩
    rw [specTasks_cons]
    by_cases hin : t.1.toNat ≤ y ∧ y < t.1.toNat + (t.2.toNat - t.1.toNat)
    · apply specTasks_persist img hwf x y c hx hy hc _ _ (by rw [length_specRows, hd])
      exact specRows_value img _ _ d x y c (by omega) b4 hin.1 hin.2 hx hc (by omega)
    · rcases List.mem_cons.1 hr with rfl | hr'
      · exfalso; apply hin; omega
      · exact ih _ (by rw [length_specRows, hd]) ⟨r, hr', h1, h2, h3⟩

/-- Tasks on row ranges of the image that together hold every row convert the whole image,
in whatever order they run and whether or not they overlap. -/
theorem specTasks_eq (img : BMPImage) (hwf : WellFormed img) (l : List (Int × Int))
    (hr : ∀ r ∈ l, RangeInImage img r)
    (hcover : ∀ y : Nat, y < img.infoHeader.height.toNat →
      ∃ r ∈ l, r.1 ≤ (y : Int) ∧ (y : Int) < r.2) :
    specTasks img l img.pixelData
      = specRows img 0 img.infoHeader.height.toNat img.pixelData := by
  classical
  have hb := div8_of_bitCount _ hwf.2.2.1
  apply list_ext_getD
  · rw [length_specTasks, length_specRows]
  · intro i
    by_cases hex : ∃ x y c : Nat, x < img.infoHeader.width.toNat ∧
        y < img.infoHeader.height.toNat ∧ c < 3 ∧ i = pixelOffset img x y + c
    · obtain ⟨x, y, c, hx, hy, hc, rfl⟩ := hex
      obtain ⟨b1, b2, _, b4⟩ := pixelOffset_bound img hwf x y hx hy
      obtain ⟨r, hrl, h1, h2⟩ := hcover y hy
      rw [specTasks_value img hwf x y c hx hy hc l _ rfl ⟨r, hrl, h1, h2, (hr r hrl).1⟩,
        specRows_value img _ 0 _ x y c (by omega) b4 (Nat.zero_le _) (by omega) hx hc (by omega)]
    · have hno : ∀ x y : Nat, x < img.infoHeader.width.toNat →
          y < img.infoHeader.height.toNat → ∀ c, c < 3 → i ≠ pixelOffset img x y + c :=
        fun x y hx hy c hc heq => hex ⟨x, y, c, hx, hy, hc, heq⟩
      rw [specTasks_frame img i hno l _ hr, specRows_frame]
      intro y' _ hy2 x' hx' c hc
      exact hno x' y' hx' (by omega) c hc

/-! ## Claims C19 and C16: the number of workers -/

theorem convertToBlackAndWhite_eq_map (hardwareConcurrency : Nat) (img : BMPImage) :
    convertToBlackAndWhite hardwareConcurrency img
      = (runTasks img ((List.range (if hardwareConcurrency = 0 then 1 else hardwareConcurrency)).map
            (rowRange img.infoHeader.height
              (if hardwareConcurrency = 0 then 1 else hardwareConcurrency)))
          img.pixelData).map (fun d => ({ img with pixelData := d } : BMPImage)) := by
  unfold convertToBlackAndWhite
  simp only
  cases runTasks img ((List.range (if hardwareConcurrency = 0 then 1 else hardwareConcurrency)).map
      (rowRange img.infoHeader.height
        (if hardwareConcurrency = 0 then 1 else hardwareConcurrency))) img.pixelData with
  | none => rfl
  | some d => rfl

/-- The outcome of the tasks of `N` workers on a well-formed image, run in any order: the
converted buffer when the buffer holds at most `2^31` bytes, and an access outside the buffer
otherwise. -/
theorem runTasks_perm (img : BMPImage) (hwf : WellFormed img)
    (h31 : img.infoHeader.height < 2147483648) (N : Nat) (hN : 1 ≤ N)
    (tasks : List (Int × Int))
    (hp : tasks.Perm ((List.range N).map (rowRange img.infoHeader.height N))) :
    runTasks img tasks img.pixelData
      = if img.pixelData.length ≤ 2147483648 then
          some (specRows img 0 img.infoHeader.height.toNat img.pixelData)
        else none := by
  have h0 : 0 ≤ img.infoHeader.height := le_of_lt hwf.2.1
  have hcover : ∀ y : Nat, y < img.infoHeader.height.toNat →
      ∃ r ∈ tasks, r.1 ≤ (y : Int) ∧ (y : Int) < r.2 := by
    intro y hy
    obtain ⟨i, ⟨hi, h1, h2⟩, _⟩ := rowRange_unique img.infoHeader.height h0 h31 N hN (y : Int)
      (Int.natCast_nonneg _) (by omega)
    refine ⟨_, hp.mem_iff.2 (List.mem_map.2 ⟨i, List.mem_range.2 hi, rfl⟩), h1, h2⟩
  by_cases hlen : img.pixelData.length ≤ 2147483648
  · rw [if_pos hlen]
    have hr : ∀ r ∈ tasks, RangeInImage img r := by
      intro r hr
      obtain ⟨i, hi, rfl⟩ := List.mem_map.1 (hp.mem_iff.1 hr)
      exact rowRange_inImage _ h0 h31 N i (List.mem_range.1 hi)
    rw [runTasks_cover img hwf hlen tasks _ rfl hr, specTasks_eq img hwf tasks hr hcover]
  · rw [if_neg hlen]
    obtain ⟨x, y, hx, hy, hf⟩ := exists_readFails img hwf (by omega)
    exact runTasks_of_readFails img x y hx hf tasks _ (hcover y hy)

theorem convertToBlackAndWhite_cases (img : BMPImage) (hwf : WellFormed img)
    (h31 : img.infoHeader.height < 2147483648) (hardwareConcurrency : Nat) :
    convertToBlackAndWhite hardwareConcurrency img
      = if img.pixelData.length ≤ 2147483648 then
          some { img with
            pixelData := specRows img 0 img.infoHeader.height.toNat img.pixelData }
        else none := by
  rw [convertToBlackAndWhite_eq_map,
    runTasks_perm img hwf h31 _ (by split <;> omega) _ (List.Perm.refl _)]
  split <;> rfl

/-- Claim C19: for every well-formed image (its height an `int32_t` value) and every number
`N ≥ 1` of workers, the outcome of `convertToBlackAndWhite` with `N` workers is the outcome
with one worker; the same holds when the `N` tasks run in any order; the run with one worker
is the loop of `convertRow` over the rows `0, ..., height - 1` on a copy of the buffer.  When
the buffer holds at most `2^31` bytes this outcome is the buffer in which every pixel has
received its value of the per-pixel rule (`specRows`); otherwise every one of these runs makes
an access outside the buffer.  In the first case every task, on whatever buffer of the right
length it is started, changes only channel bytes of pixels of its own rows and gives them
the values computed from the original buffer of the image (`binarizedValue`). -/
theorem convertToBlackAndWhite_workers (img : BMPImage) (hwf : WellFormed img)
    (h31 : img.infoHeader.height < 2147483648) (N : Nat) (hN : 1 ≤ N) :
    convertToBlackAndWhite N img = convertToBlackAndWhite 1 img ∧
    (∀ tasks : List (Int × Int),
      tasks.Perm ((List.range N).map (rowRange img.infoHeader.height N)) →
      (runTasks img tasks img.pixelData).map (fun d => ({ img with pixelData := d } : BMPImage))
        = convertToBlackAndWhite 1 img) ∧
    convertToBlackAndWhite 1 img
      = (convertRows img 0 img.infoHeader.height.toNat img.pixelData).map
          (fun d => ({ img with pixelData := d } : BMPImage)) ∧
    (img.pixelData.length ≤ 2147483648 →
      convertToBlackAndWhite 1 img
        = some { img with
            pixelData := specRows img 0 img.infoHeader.height.toNat img.pixelData }) ∧
    (2147483648 < img.pixelData.length → convertToBlackAndWhite 1 img = none) ∧
    (img.pixelData.length ≤ 2147483648 → ∀ i, i < N →
      ∀ d : List Byte, d.length = img.pixelData.length →
        ∃ d', convertRow img (rowRange img.infoHeader.height N i).1
            (rowRange img.infoHeader.height N i).2 d = some d' ∧
          (∀ j, (∀ x y : Nat, x < img.infoHeader.width.toNat →
              (rowRange img.infoHeader.height N i).1 ≤ (y : Int) →
              (y : Int) < (rowRange img.infoHeader.height N i).2 →
              ∀ c, c < 3 → j ≠ pixelOffset img x y + c) →
            d'.getD j 0 = d.getD j 0) ∧
          (∀ x y c : Nat, x < img.infoHeader.width.toNat →
            (rowRange img.infoHeader.height N i).1 ≤ (y : Int) →
            (y : Int) < (rowRange img.infoHeader.height N i).2 → c < 3 →
            d'.getD (pixelOffset img x y + c) 0 = binarizedValue img x y)) := by
  have hc1 := convertToBlackAndWhite_cases img hwf h31 1
  refine ⟨?_, ?_, ?_, ?_, ?_, ?_⟩
  · rw [convertToBlackAndWhite_cases img hwf h31 N, hc1]
  · intro tasks hp
    rw [runTasks_perm img hwf h31 N hN tasks hp, hc1]
    split <;> rfl
  · rw [convertToBlackAndWhite_eq_map]
    have h0 : 0 ≤ img.infoHeader.height := le_of_lt hwf.2.1
    have hl : List.range 1 = [0] := rfl
    simp only [if_neg (by decide : ¬ (1 = 0)), hl, List.map_cons, List.map_nil]
    rw [rowRange_eq _ 1 0 h0 h31 (by decide)]
    simp only [Nat.zero_mul, if_true, Nat.sub_self]
    rw [runTasks_cons]
    have hcr : convertRow img ((0 : Nat) : Int) img.infoHeader.height img.pixelData
        = convertRows img 0 img.infoHeader.height.toNat img.pixelData := by
      unfold convertRow
      simp
    rw [hcr]
    cases convertRows img 0 img.infoHeader.height.toNat img.pixelData with
    | none => rfl
    | some d => rfl
  · intro hlen; rw [hc1, if_pos hlen]
  · intro hbig; rw [hc1, if_neg (by omega)]
  · intro hlen i hi d hd
    have h0 : 0 ≤ img.infoHeader.height := le_of_lt hwf.2.1
    have hb := div8_of_bitCount _ hwf.2.2.1
    obtain ⟨r1, r2, r3⟩ := rowRange_inImage img.infoHeader.height h0 h31 N i hi
    obtain ⟨a, ha⟩ := Int.eq_ofNat_of_zero_le r1
    obtain ⟨b, hb'⟩ := Int.eq_ofNat_of_zero_le (le_trans r1 r2)
    rw [ha] at r2 ⊢
    rw [hb'] at r2 r3 ⊢
    refine ⟨_, by rw [convertRow_natCast, convertRows_spec img (b - a) a d _ hd]; intro y' _ hy2 x' hx'; exact addressable_of_wellFormed img hwf hlen x' y' hx' (by omega), ?_, ?_⟩
    · intro j hj
      apply specRows_frame
      intro y' hy1 hy2 x' hx' c hc
      exact hj x' y' hx' (by omega) (by omega) c hc
    · intro x y c hx hy1 hy2 hc
      obtain ⟨_, b2, _, b4⟩ := pixelOffset_bound img hwf x y hx (by omega)
      exact specRows_value img _ _ d x y c (by omega) b4 (by omega) (by omega) hx hc (by omega)

/-- Witness for claim C19: the 4x4 gray image with 3 workers and with one. -/
theorem convertToBlackAndWhite_workers_witness :
    WellFormed grayImage ∧ grayImage.infoHeader.height < 2147483648 ∧
      convertToBlackAndWhite 3 grayImage = convertToBlackAndWhite 1 grayImage :=
  ⟨by decide, by decide,
    (convertToBlackAndWhite_workers grayImage (by decide) (by decide) 3 (by decide)).1⟩

theorem length_solidImage (w h bitCount : Nat) (v : Byte) :
    (solidImage w h bitCount v).pixelData.length = (w * (bitCount / 8) + 3) / 4 * 4 * h :=
  List.length_replicate _ _

/-- Counterexample to claim C16: the image of 2 x 268435457 pixels of 32 bits, every byte
200, is well-formed; its buffer has 2147483656 bytes, more than `2^31`.  The pixels from offset
`2^31` on cannot be addressed with the `int` of `getPixelIndex`, and
`convertToBlackAndWhite` produces no buffer, whatever the number of workers. -/
theorem convertToBlackAndWhite_frame_counterexample :
    WellFormed (solidImage 2 268435457 32 200) ∧
      (solidImage 2 268435457 32 200).pixelData.length = 2147483656 ∧
      ∀ hardwareConcurrency,
        convertToBlackAndWhite hardwareConcurrency (solidImage 2 268435457 32 200) = none := by
  have hwf := wellFormed_solidImage 2 268435457 32 200 (by decide) (by decide) (Or.inr rfl)
  have hl : (solidImage 2 268435457 32 200).pixelData.length = 2147483656 :=
    length_solidImage 2 268435457 32 200
  refine ⟨hwf, hl, ?_⟩
  intro hc
  rw [convertToBlackAndWhite_cases _ hwf (by decide) hc, if_neg (by rw [hl]; decide)]

/-! ## Two-tone images -/

theorem readByte_some (d : List Byte) (i : Int) (v : Byte) (h : readByte d i = some v) :
    0 ≤ i ∧ i.toNat < d.length ∧ d.getD i.toNat 0 = v := by
  unfold readByte at h
  split at h
  · rename_i h0
    obtain ⟨hl, hv⟩ := List.getElem?_eq_some.1 h
    refine ⟨h0, hl, ?_⟩
    rw [List.getD_eq_getElem _ _ hl, hv]
  · simp at h

/-- Writing to a byte the value that was read from it leaves the buffer as it is. -/
theorem writeByte_of_read (d : List Byte) (i : Int) (v : Byte) (h : readByte d i = some v) :
    writeByte d i v = some d := by
  obtain ⟨h0, hl, hv⟩ := readByte_some d i v h
  unfold writeByte
  rw [if_pos ⟨h0, hl⟩]
  congr 1
  apply list_ext_getD
  · rw [List.length_set]
  · intro j
    rw [getD_set]
    split
    · rename_i hj; rw [← hj.1, hv]
    · rfl

theorem brightness_black_white :
    brightness 0 0 0 < brightness_factor ∧ ¬ brightness 255 255 255 < brightness_factor := by
  constructor
  · rw [brightness_lt_iff]; left; decide
  · rw [brightness_lt_iff]; decide

/-- A pixel that is pure black or pure white is converted to itself. -/
theorem convertPixel_of_blackOrWhite (img : BMPImage) (x y : Int) (blue green red : Byte)
    (h1 : readByte img.pixelData (getPixelIndex img x y) = some blue)
    (h2 : readByte img.pixelData (wrapInt32 (getPixelIndex img x y + 1)) = some green)
    (h3 : readByte img.pixelData (wrapInt32 (getPixelIndex img x y + 2)) = some red)
    (hbw : isBlackOrWhite red green blue = true) :
    convertPixel img x y img.pixelData = some img.pixelData := by
  unfold convertPixel
  simp only [h1, h2, h3]
  rcases (isBlackOrWhite_iff red green blue).1 hbw with ⟨rfl, rfl, rfl⟩ | ⟨rfl, rfl, rfl⟩
  · rw [if_pos brightness_black_white.1, writeByte_of_read _ _ _ h1]
    simp only
    rw [writeByte_of_read _ _ _ h2]
    simp only
    rw [writeByte_of_read _ _ _ h3]
  · rw [if_neg brightness_black_white.2, writeByte_of_read _ _ _ h1]
    simp only
    rw [writeByte_of_read _ _ _ h2]
    simp only
    rw [writeByte_of_read _ _ _ h3]

theorem convertCols_of_scan (img : BMPImage) (y : Int) :
    ∀ n x0, scanRow img y x0 n = some false →
      convertCols img y x0 n img.pixelData = some img.pixelData := by
  intro n
  induction n with
  | zero => intro x0 _; rfl
  | succ n ih =>
    intro x0 h
    rw [scanRow_succ] at h
    rw [convertCols_succ]
    cases r1 : readByte img.pixelData (getPixelIndex img x0 y) with
    | none => rw [r1] at h; simp at h
    | some blue =>
      rw [r1] at h
      simp only at h
      cases r2 : readByte img.pixelData (wrapInt32 (getPixelIndex img x0 y + 1)) with
      | none => rw [r2] at h; simp at h
      | some green =>
        rw [r2] at h
        simp only at h
        cases r3 : readByte img.pixelData (wrapInt32 (getPixelIndex img x0 y + 2)) with
        | none => rw [r3] at h; simp at h
        | some red =>
          rw [r3] at h
          simp only at h
          cases hbw : isBlackOrWhite red green blue with
          | false => rw [hbw] at h; simp at h
          | true =>
            rw [hbw] at h
            simp only [Bool.not_true, Bool.false_eq_true, if_false] at h
            rw [convertPixel_of_blackOrWhite img x0 y blue green red r1 r2 r3 hbw]
            exact ih (x0 + 1) h

theorem convertRows_of_scan (img : BMPImage) :
    ∀ n (y0 : Int), scanRows img y0 n = some false →
      convertRows img y0 n img.pixelData = some img.pixelData := by
  intro n
  induction n with
  | zero => intro y0 _; rfl
  | succ n ih =>
    intro y0 h
    rw [scanRows_succ] at h
    rw [convertRows_succ]
    cases hs : scanRow img y0 0 img.infoHeader.width.toNat with
    | none => rw [hs] at h; simp at h
    | some b =>
      cases b with
      | true => rw [hs] at h; simp at h
      | false =>
        rw [hs] at h
        simp only at h
        rw [convertCols_of_scan img y0 _ 0 hs]
        exact ih (y0 + 1) h

theorem scanRows_split (img : BMPImage) :
    ∀ a b (y0 : Int), scanRows img y0 (a + b) = some false →
      scanRows img y0 a = some false ∧ scanRows img (y0 + a) b = some false := by
  intro a
  induction a with
  | zero => intro b y0 h; simp only [Nat.zero_add] at h; exact ⟨rfl, by simpa using h⟩
  | succ a ih =>
    intro b y0 h
    have e : a + 1 + b = (a + b) + 1 := by omega
    rw [e, scanRows_succ] at h
    rw [scanRows_succ]
    cases hs : scanRow img y0 0 img.infoHeader.width.toNat with
    | none => rw [hs] at h; simp at h
    | some v =>
      cases v with
      | true => rw [hs] at h; simp at h
      | false =>
        rw [hs] at h
        simp only at h ⊢
        obtain ⟨h1, h2⟩ := ih b (y0 + 1) h
        refine ⟨h1, ?_⟩
        have : y0 + ((a + 1 : Nat) : Int) = y0 + 1 + (a : Int) := by push_cast; ring
        rw [this]; exact h2

/-- On an image that `hasMoreThanTwoColors` finds to be two-tone, the tasks leave the
buffer as it is. -/
theorem runTasks_of_scan (img : BMPImage) (h : hasMoreThanTwoColors img = some false) :
    ∀ l : List (Int × Int), (∀ r ∈ l, RangeInImage img r) →
      runTasks img l img.pixelData = some img.pixelData := by
  intro l
  induction l with
  | nil => intro _; rfl
  | cons t rest ih =>
    intro hr
    obtain ⟨a, b⟩ := t
    obtain ⟨h1, h2, h3⟩ := hr (a, b) (List.mem_cons_self _ _)
    simp only at h1 h2 h3
    rw [runTasks_cons]
    have hcr : convertRow img a b img.pixelData = some img.pixelData := by
      unfold convertRow
      apply convertRows_of_scan
      unfold hasMoreThanTwoColors at h
      have e : img.infoHeader.height.toNat
          = a.toNat + ((b - a).toNat + (img.infoHeader.height - b).toNat) := by omega
      rw [e] at h
      obtain ⟨_, h'⟩ := scanRows_split img _ _ 0 h
      obtain ⟨h'', _⟩ := scanRows_split img _ _ _ h'
      have ea : (0 : Int) + ((a.toNat : Nat) : Int) = a := by omega
      rw [ea] at h''
      exact h''
    rw [hcr]
    exact ih (fun r hr' => hr r (List.mem_cons_of_mem _ hr'))

theorem ranges_inImage (img : BMPImage) (h0 : 0 ≤ img.infoHeader.height)
    (h31 : img.infoHeader.height < 2147483648) (N : Nat) :
    ∀ r ∈ (List.range N).map (rowRange img.infoHeader.height N), RangeInImage img r := by
  intro r hr
  obtain ⟨i, hi, rfl⟩ := List.mem_map.1 hr
  exact rowRange_inImage _ h0 h31 N i (List.mem_range.1 hi)

/-- Skipping the conversion of a two-tone image loses nothing. -/
theorem convertToBlackAndWhite_of_scan (img : BMPImage) (h0 : 0 ≤ img.infoHeader.height)
    (h31 : img.infoHeader.height < 2147483648) (h : hasMoreThanTwoColors img = some false)
    (hardwareConcurrency : Nat) :
    convertToBlackAndWhite hardwareConcurrency img = some img := by
  rw [convertToBlackAndWhite_eq_map, runTasks_of_scan img h _ (ranges_inImage img h0 h31 _)]
  rfl

/-! ## Claim C20: skipping the conversion -/

theorem renderCols_succ (img : BMPImage) (y : Int) (x n : Nat) :
    renderCols img y x (n + 1) =
    match readByte img.pixelData (getPixelIndex img x y) with
    | none => none
    | some blue =>
      match readByte img.pixelData (wrapInt32 (getPixelIndex img x y + 1)) with
      | none => none
      | some green =>
        match readByte img.pixelData (wrapInt32 (getPixelIndex img x y + 2)) with
        | none => none
        | some red =>
          match renderCols img y (x + 1) n with
          | none => none
          | some cs =>
            some ((if red = 255 ∧ green = 255 ∧ blue = 255 then WHITE else BLACK) :: cs) := rfl

theorem renderRows_succ (img : BMPImage) (n : Nat) (y : Int) :
    renderRows img (n + 1) y =
    if y ≥ 0 then
      match renderCols img y 0 img.infoHeader.width.toNat with
      | none => none
      | some line =>
        match renderRows img n (wrapInt32 (y - 2)) with
        | none => none
        | some rest => some (line :: rest)
    else some [] := rfl

theorem renderCols_some (img : BMPImage) (y : Nat) :
    ∀ n x0, (∀ x, x0 ≤ x → x < x0 + n → Addressable img x y) →
      ∃ cs, renderCols img (y : Int) x0 n = some cs := by
  intro n
  induction n with
  | zero => intro x0 _; exact ⟨[], rfl⟩
  | succ n ih =>
    intro x0 ha
    obtain ⟨a1, a2, a3, a4⟩ := ha x0 (le_refl _) (by omega)
    obtain ⟨r1, r2, r3⟩ := reads_of_fits img x0 y a1 a2 a3 a4
    obtain ⟨cs, hcs⟩ := ih (x0 + 1) (fun x h1 h2 => ha x (by omega) (by omega))
    rw [renderCols_succ, r1, r2, r3]
    simp only
    rw [hcs]
    exact ⟨_, rfl⟩

/-- The loop of lines 204-214 makes no access outside the buffer of a well-formed image of
at most `2^31` bytes. -/
theorem renderRows_some (img : BMPImage) (hwf : WellFormed img)
    (hlen : img.pixelData.length ≤ 2147483648) (h31 : img.infoHeader.height < 2147483648) :
    ∀ n (y : Int), y < img.infoHeader.height → ∃ rows, renderRows img n y = some rows := by
  intro n
  induction n with
  | zero => intro y _; exact ⟨[], rfl⟩
  | succ n ih =>
    intro y hy
    rw [renderRows_succ]
    by_cases h0 : y ≥ 0
    · rw [if_pos h0]
      obtain ⟨Y, rfl⟩ := Int.eq_ofNat_of_zero_le h0
      obtain ⟨line, hline⟩ := renderCols_some img Y img.infoHeader.width.toNat 0 (fun x _ hx =>
        addressable_of_wellFormed img hwf hlen x Y (by omega) (by omega))
      rw [hline, wrapInt32_of_range _ (by omega) (by omega)]
      obtain ⟨rest, hrest⟩ := ih ((Y : Int) - 2) (by omega)
      simp only
      rw [hrest]
      exact ⟨_, rfl⟩
    · rw [if_neg h0]
      exact ⟨[], rfl⟩

/-- In the converted buffer every pixel is pure black or pure white. -/
theorem hasMoreThanTwoColors_converted (img : BMPImage) (hwf : WellFormed img)
    (hlen : img.pixelData.length ≤ 2147483648) :
    hasMoreThanTwoColors
        { img with pixelData := specRows img 0 img.infoHeader.height.toNat img.pixelData }
      = some false := by
  have hb := div8_of_bitCount _ hwf.2.2.1
  have hwf' : WellFormed ({ img with
      pixelData := specRows img 0 img.infoHeader.height.toNat img.pixelData } : BMPImage) :=
    wellFormed_of_shape img _ hwf rfl rfl (length_specRows _ _ _ _)
  have hlen' : (({ img with
      pixelData := specRows img 0 img.infoHeader.height.toNat img.pixelData } : BMPImage)
      ).pixelData.length ≤ 2147483648 := by
    show (specRows img 0 img.infoHeader.height.toNat img.pixelData).length ≤ 2147483648
    rw [length_specRows]; exact hlen
  rw [hasMoreThanTwoColors_spec _ hwf' hlen']
  congr 1
  rw [any_any_eq_false_iff]
  intro y hy' x hx'
  have hx : x < img.infoHeader.width.toNat := hx'
  have hy : y < img.infoHeader.height.toNat := hy'
  obtain ⟨h1, h2, h3, h4⟩ := pixelOffset_bound img hwf x y hx hy
  have hv : ∀ c, c < 3 →
      (specRows img 0 img.infoHeader.height.toNat img.pixelData).getD (pixelOffset img x y + c) 0
        = binarizedValue img x y := fun c hc =>
    specRows_value img _ 0 _ x y c (by omega) h4 (Nat.zero_le _) (by omega) hx hc (by omega)
  show isBlackOrWhite
      ((specRows img 0 img.infoHeader.height.toNat img.pixelData).getD (pixelOffset img x y + 2) 0)
      ((specRows img 0 img.infoHeader.height.toNat img.pixelData).getD (pixelOffset img x y + 1) 0)
      ((specRows img 0 img.infoHeader.height.toNat img.pixelData).getD (pixelOffset img x y) 0)
    = true
  rw [hv 2 (by omega), hv 1 (by omega), show pixelOffset img x y = pixelOffset img x y + 0 from rfl,
    hv 0 (by omega)]
  unfold binarizedValue
  split <;> rfl

/-- Claim C20: for every well-formed image (its height an `int32_t` value) on which
`hasMoreThanTwoColors` returns false, `convertToBlackAndWhite` returns the image as it is,
byte for byte, whatever the number of workers.  On every well-formed image a second
conversion gives the outcome of the first one: for a buffer of at most `2^31` bytes the
first conversion produces an image and the second one returns that image unchanged, and for a
larger buffer the first conversion already makes an access outside the buffer.  The image that
`displayBMP` leaves (without the cross), when it calls `convertToBlackAndWhite` only if
`hasMoreThanTwoColors` returns true, is the image that `convertToBlackAndWhite` leaves. -/
theorem convertToBlackAndWhite_idempotent (img : BMPImage) (hwf : WellFormed img)
    (h31 : img.infoHeader.height < 2147483648)
    (hardwareConcurrency hardwareConcurrency2 maxIterations : Nat) :
    (hasMoreThanTwoColors img = some false →
      convertToBlackAndWhite hardwareConcurrency img = some img) ∧
    ((convertToBlackAndWhite hardwareConcurrency img).bind
        (convertToBlackAndWhite hardwareConcurrency2)
      = convertToBlackAndWhite hardwareConcurrency img) ∧
    (img.pixelData.length ≤ 2147483648 →
      ∃ out, convertToBlackAndWhite hardwareConcurrency img = some out ∧
        hasMoreThanTwoColors out = some false ∧
        convertToBlackAndWhite hardwareConcurrency2 out = some out) ∧
    ((displayBMP hardwareConcurrency maxIterations img false).map (fun r => r.image)
      = convertToBlackAndWhite hardwareConcurrency img) := by
  have h0 : 0 ≤ img.infoHeader.height := le_of_lt hwf.2.1
  have hskip : hasMoreThanTwoColors img = some false →
      convertToBlackAndWhite hardwareConcurrency img = some img :=
    fun h => convertToBlackAndWhite_of_scan img h0 h31 h hardwareConcurrency
  have hcases := convertToBlackAndWhite_cases img hwf h31 hardwareConcurrency
  have hsmall : img.pixelData.length ≤ 2147483648 →
      ∃ out, convertToBlackAndWhite hardwareConcurrency img = some out ∧
        hasMoreThanTwoColors out = some false ∧
        convertToBlackAndWhite hardwareConcurrency2 out = some out ∧
        WellFormed out ∧ out.pixelData.length ≤ 2147483648 ∧
        out.infoHeader.height = img.infoHeader.height := by
    intro hlen
    have hsc := hasMoreThanTwoColors_converted img hwf hlen
    refine ⟨_, by rw [hcases, if_pos hlen], hsc,
      convertToBlackAndWhite_of_scan ({ img with
        pixelData := specRows img 0 img.infoHeader.height.toNat img.pixelData } : BMPImage)
        h0 h31 hsc hardwareConcurrency2,
      wellFormed_of_shape img _ hwf rfl rfl (length_specRows _ _ _ _), ?_, rfl⟩
    show (specRows img 0 img.infoHeader.height.toNat img.pixelData).length ≤ 2147483648
    rw [length_specRows]; exact hlen
  refine ⟨hskip, ?_, ?_, ?_⟩
  · by_cases hlen : img.pixelData.length ≤ 2147483648
    · obtain ⟨out, h1, _, h2, _⟩ := hsmall hlen
      rw [h1]
      exact h2
    · rw [hcases, if_neg hlen]
      rfl
  · intro hlen
    obtain ⟨out, h1, h2, h3, _⟩ := hsmall hlen
    exact ⟨out, h1, h2, h3⟩
  · unfold displayBMP
    by_cases hlen : img.pixelData.length ≤ 2147483648
    · obtain ⟨out, h1, _, _, hwfo, hleno, hho⟩ := hsmall hlen
      cases hs : hasMoreThanTwoColors img with
      | none =>
        rw [hasMoreThanTwoColors_spec img hwf hlen] at hs
        simp at hs
      | some b =>
        cases b with
        | true =>
          simp only [if_true, h1, Bool.false_eq_true, if_false, Bool.not_true]
          obtain ⟨rows, hrows⟩ := renderRows_some out hwfo hleno (by rw [hho]; exact h31)
            out.infoHeader.height.toNat (wrapInt32 (out.infoHeader.height - 1)) (by
              rw [wrapInt32_of_range _ (by rw [hho]; omega) (by rw [hho]; omega)]; omega)
          rw [hrows]
          rfl
        | false =>
          rw [hskip hs]
          simp only [Bool.false_eq_true, if_false, Bool.not_true]
          obtain ⟨rows, hrows⟩ := renderRows_some img hwf hlen h31
            img.infoHeader.height.toNat (wrapInt32 (img.infoHeader.height - 1)) (by
              rw [wrapInt32_of_range _ (by omega) (by omega)]; omega)
          rw [hrows]
          rfl
    · obtain ⟨x, y, hx, hy, hf⟩ := exists_readFails img hwf (by omega)
      have hnone : convertToBlackAndWhite hardwareConcurrency img = none := by
        rw [hcases, if_neg hlen]
      cases hs : hasMoreThanTwoColors img with
      | none => rw [hnone]; rfl
      | some b =>
        cases b with
        | true =>
          simp only [if_true, hnone]
          rfl
        | false =>
          exfalso
          unfold hasMoreThanTwoColors at hs
          exact scanRows_of_readFails img x hx _ 0 y hy (by simpa using hf) hs

/-- Witness for claim C20: the 2x2 checker image is two-tone and is converted to itself. -/
theorem convertToBlackAndWhite_idempotent_witness :
    WellFormed checkerImage ∧ checkerImage.infoHeader.height < 2147483648 ∧
      hasMoreThanTwoColors checkerImage = some false ∧
      convertToBlackAndWhite 4 checkerImage = some checkerImage :=
  ⟨by decide, by decide, by decide,
    (convertToBlackAndWhite_idempotent checkerImage (by decide) (by decide) 4 1 0).1 (by decide)⟩

/-! ## Claim C18: pixel addressing in `setPixelBlack`, the scan, the conversion and `displayBMP` -/

/-- The height of a well-formed image of at most `2^31` bytes is less than `2^31`. -/
theorem height_lt_of_wellFormed (img : BMPImage) (hwf : WellFormed img)
    (hlen : img.pixelData.length ≤ 2147483648) : img.infoHeader.height < 2147483648 := by
  have hb := div8_of_bitCount _ hwf.2.2.1
  have hw := hwf.1
  have hh := hwf.2.1
  obtain ⟨b1, b2, b3, b4⟩ := pixelOffset_bound img hwf 0 (img.infoHeader.height.toNat - 1)
    (by omega) (by omega)
  have h3 : 3 ≤ img.rowStride := by
    have : 1 ≤ img.infoHeader.width.toNat := by omega
    have := Nat.mul_le_mul_right (img.infoHeader.bitCount / 8) this
    omega
  omega

/-- The two segments of `drawCross` on a well-formed image of at most `2^31` bytes are within
the limits of `SegmentFits`. -/
theorem cross_segmentFits (img : BMPImage) (hwf : WellFormed img)
    (hlen : img.pixelData.length ≤ 2147483648) :
    wrapInt32 (img.infoHeader.width - 1) = img.infoHeader.width - 1 ∧
    wrapInt32 (img.infoHeader.height - 1) = img.infoHeader.height - 1 ∧
    SegmentFits 0 0 (img.infoHeader.width - 1) (img.infoHeader.height - 1) ∧
    SegmentFits (img.infoHeader.width - 1) 0 0 (img.infoHeader.height - 1) := by
  have hb := div8_of_bitCount _ hwf.2.2.1
  have hw := hwf.1
  have hh := hwf.2.1
  obtain ⟨b1, b2, b3, b4⟩ := pixelOffset_bound img hwf 0 (img.infoHeader.height.toNat - 1)
    (by omega) (by omega)
  have h3 : 3 * img.infoHeader.width.toNat ≤ img.rowStride := by
    rcases hb with hb | hb <;> rw [hb] at b4 <;> omega
  have hl := hwf.2.2.2.2
  have h4 : 3 * img.infoHeader.height.toNat ≤ img.rowStride * img.infoHeader.height.toNat :=
    Nat.mul_le_mul_right _ (by omega)
  have h5 : img.rowStride * 1 ≤ img.rowStride * img.infoHeader.height.toNat :=
    Nat.mul_le_mul_left _ (by omega)
  refine ⟨wrapInt32_of_range _ (by omega) (by omega), wrapInt32_of_range _ (by omega) (by omega),
    ?_, ?_⟩ <;> unfold SegmentFits <;> omega

/-- On a well-formed image of at most `2^31` bytes `drawCross` makes no write outside the
buffer, whatever the number of iterations allowed, and leaves the headers, the row stride and
the length of the buffer as they are; it has returned when `max width height` iterations are
allowed. -/
theorem drawCross_some (img : BMPImage) (hwf : WellFormed img)
    (hlen : img.pixelData.length ≤ 2147483648) (maxIterations : Nat) :
    ∃ r, drawCross maxIterations img = some r ∧ r.image.infoHeader = img.infoHeader ∧
      r.image.rowStride = img.rowStride ∧
      r.image.pixelData.length = img.pixelData.length ∧
      (img.infoHeader.width.toNat ≤ maxIterations →
        img.infoHeader.height.toNat ≤ maxIterations → r.finished = true) := by
  obtain ⟨w1, w2, hfit1, hfit2⟩ := cross_segmentFits img hwf hlen
  have hw := hwf.1
  have hh := hwf.2.1
  obtain ⟨r1, h1, e1⟩ := drawLine_plots img hwf hlen 0 0
    (wrapInt32 (img.infoHeader.width - 1)) (wrapInt32 (img.infoHeader.height - 1)) maxIterations
  have i1 : r1.image.infoHeader = img.infoHeader := by rw [e1]
  have s1 : r1.image.rowStride = img.rowStride := by rw [e1]
  have l1 : r1.image.pixelData.length = img.pixelData.length := by
    rw [e1]; exact length_foldl_blackenAt _ _ _
  unfold drawCross
  rw [h1]
  simp only
  by_cases hf : r1.finished = true
  · rw [hf]
    simp only [Bool.not_true, Bool.false_eq_true, if_false]
    have hwf1 : WellFormed r1.image := wellFormed_of_shape img _ hwf i1 s1 l1
    have hlen1 : r1.image.pixelData.length ≤ 2147483648 := by rw [l1]; exact hlen
    obtain ⟨r2, h2, e2⟩ := drawLine_plots r1.image hwf1 hlen1
      (wrapInt32 (r1.image.infoHeader.width - 1)) 0 0
      (wrapInt32 (r1.image.infoHeader.height - 1)) maxIterations
    rw [h2]
    refine ⟨_, rfl, ?_, ?_, ?_, ?_⟩
    · show r2.image.infoHeader = img.infoHeader
      rw [e2]; exact i1
    · show r2.image.rowStride = img.rowStride
      rw [e2]; exact s1
    · show r2.image.pixelData.length = img.pixelData.length
      rw [e2]
      show (r2.visited.foldl (blackenAt r1.image) r1.image.pixelData).length = _
      rw [length_foldl_blackenAt]; exact l1
    · intro hm1 hm2
      show r2.finished = true
      rw [i1, w1, w2, drawLine_run r1.image hwf1 hlen1 _ _ _ _ hfit2 maxIterations
        (by omega)] at h2
      simp only [Option.some.injEq] at h2
      rw [← h2]
  · have hf' : r1.finished = false := by
      cases h : r1.finished
      · rfl
      · exact absurd h hf
    rw [hf']
    simp only [Bool.not_false, if_true]
    refine ⟨_, rfl, i1, s1, l1, ?_⟩
    intro hm1 hm2
    exfalso
    apply hf
    rw [w1, w2, drawLine_run img hwf hlen _ _ _ _ hfit1 maxIterations (by omega)] at h1
    simp only [Option.some.injEq] at h1
    rw [← h1]

/-- On a well-formed image of at most `2^31` bytes `displayBMP` makes no access outside the
buffer: neither the scan, nor the conversion, nor the cross, nor the loop of lines 204-214.  It
has returned when no cross is drawn or `max width height` iterations are allowed for each
segment of the cross. -/
theorem displayBMP_some (img : BMPImage) (hwf : WellFormed img)
    (hlen : img.pixelData.length ≤ 2147483648) (hardwareConcurrency maxIterations : Nat)
    (cross : Bool) :
    ∃ d, displayBMP hardwareConcurrency maxIterations img cross = some d ∧
      (cross = false ∨ (img.infoHeader.width.toNat ≤ maxIterations ∧
          img.infoHeader.height.toNat ≤ maxIterations) → d.finished = true) := by
  have key : ∀ img1 : BMPImage, WellFormed img1 → img1.pixelData.length ≤ 2147483648 →
      img1.infoHeader = img.infoHeader →
      ∃ d, (match (if cross then ReadBMP.drawCross maxIterations img1
             else some { image := img1, visited := [], finished := true }) with
      | none => none
      | some run =>
        if !run.finished then some ({ image := run.image, rows := [], finished := false } : Display)
        else
          match renderRows run.image run.image.infoHeader.height.toNat
              (wrapInt32 (run.image.infoHeader.height - 1)) with
          | none => none
          | some rows => some { image := run.image, rows := rows, finished := true }) = some d ∧
        (cross = false ∨ (img.infoHeader.width.toNat ≤ maxIterations ∧
          img.infoHeader.height.toNat ≤ maxIterations) → d.finished = true) := by
    intro img1 hwf1 hlen1 hinfo
    have hrun : ∃ run, (if cross then ReadBMP.drawCross maxIterations img1
          else some { image := img1, visited := [], finished := true }) = some run ∧
        WellFormed run.image ∧ run.image.pixelData.length ≤ 2147483648 ∧
        (cross = false ∨ (img.infoHeader.width.toNat ≤ maxIterations ∧
          img.infoHeader.height.toNat ≤ maxIterations) → run.finished = true) := by
      cases cross
      · exact ⟨_, rfl, hwf1, hlen1, fun _ => rfl⟩
      · obtain ⟨r, hr, a, b, c, e⟩ := drawCross_some img1 hwf1 hlen1 maxIterations
        refine ⟨r, by simpa using hr, wellFormed_of_shape img1 _ hwf1 a b c,
          by rw [c]; exact hlen1, ?_⟩
        intro h
        rcases h with h | h
        · exact absurd h (by decide)
        · rw [hinfo] at e
          exact e h.1 h.2
    obtain ⟨run, hrun, hwf2, hlen2, hfin2⟩ := hrun
    rw [hrun]
    simp only
    cases hfin : run.finished
    · refine ⟨_, rfl, ?_⟩
      intro h
      rw [hfin2 h] at hfin
      exact absurd hfin (by decide)
    · simp only [Bool.not_true, Bool.false_eq_true, if_false]
      have h31 := height_lt_of_wellFormed run.image hwf2 hlen2
      have hpos := hwf2.2.1
      obtain ⟨rows, hrows⟩ := renderRows_some run.image hwf2 hlen2 h31
        run.image.infoHeader.height.toNat (wrapInt32 (run.image.infoHeader.height - 1))
        (by rw [wrapInt32_of_range _ (by omega) (by omega)]; omega)
      rw [hrows]
      exact ⟨_, rfl, fun _ => rfl⟩
  unfold displayBMP
  rw [hasMoreThanTwoColors_spec img hwf hlen]
  generalize ((List.range' 0 img.infoHeader.height.toNat).any (fun y' =>
      (List.range' 0 img.infoHeader.width.toNat).any
        (fun x' => !pixelIsBlackOrWhite img img.pixelData x' y'))) = more
  cases more
  · exact key img hwf hlen rfl
  · simp only [if_true]
    rw [convertToBlackAndWhite_eq img hwf hlen hardwareConcurrency]
    exact key _ (wellFormed_of_shape img _ hwf rfl rfl (length_specRows _ _ _ _))
      (by show (specRows img 0 img.infoHeader.height.toNat img.pixelData).length ≤ 2147483648
          rw [length_specRows]; exact hlen) rfl

/-- Claim C18, amended: in a well-formed image (width > 0, height > 0, 24 or 32 bits per
pixel, rows padded to four bytes, buffer length `rowStride * height`) whose buffer holds at
most `2^31` bytes, for every pixel `(x, y)` with `x < width` and `y < height` the `int` that
`getPixelIndex` returns is the offset `y * rowStride + x * (bitCount / 8)`; the whole pixel
lies in the buffer (`offset + bitCount / 8 ≤ length`, hence `offset + 2 < length`); the byte
ranges `[offset, offset + bitCount / 8)` of two different pixels of the image are disjoint;
the three reads of the pixel succeed and deliver its blue, green and red byte, and
`setPixelBlack` writes exactly the three bytes from `offset` on.  No read or write of a pixel
in `hasMoreThanTwoColors`, `convertToBlackAndWhite`, `setPixelBlack` or `displayBMP` is
outside the buffer: `hasMoreThanTwoColors` returns a value, `convertToBlackAndWhite` produces
an image for every number of workers, `setPixelBlack` leaves an image with a buffer of the
same length for all arguments, and `displayBMP`, with or without the cross, makes no access
out of range however many iterations the loops of `drawLine` are given, and has returned when no
cross is drawn or each call of `drawLine` is given `max width height` iterations. -/
theorem getPixelIndex_safe (img : BMPImage) (hwf : WellFormed img)
    (hlen : img.pixelData.length ≤ 2147483648) :
    (∀ x y : Nat, x < img.infoHeader.width.toNat → y < img.infoHeader.height.toNat →
      getPixelIndex img (x : Int) (y : Int)
        = ((y * img.rowStride + x * (img.infoHeader.bitCount / 8) : Nat) : Int) ∧
      y * img.rowStride + x * (img.infoHeader.bitCount / 8) + img.infoHeader.bitCount / 8
        ≤ img.pixelData.length ∧
      y * img.rowStride + x * (img.infoHeader.bitCount / 8) + 2 < img.pixelData.length ∧
      (∀ x' y' : Nat, x' < img.infoHeader.width.toNat → y' < img.infoHeader.height.toNat →
        (x', y') ≠ (x, y) →
        y * img.rowStride + x * (img.infoHeader.bitCount / 8) + img.infoHeader.bitCount / 8
            ≤ y' * img.rowStride + x' * (img.infoHeader.bitCount / 8) ∨
          y' * img.rowStride + x' * (img.infoHeader.bitCount / 8) + img.infoHeader.bitCount / 8
            ≤ y * img.rowStride + x * (img.infoHeader.bitCount / 8)) ∧
      readByte img.pixelData (getPixelIndex img x y) = some (blueAt img img.pixelData x y) ∧
      readByte img.pixelData (wrapInt32 (getPixelIndex img x y + 1))
        = some (greenAt img img.pixelData x y) ∧
      readByte img.pixelData (wrapInt32 (getPixelIndex img x y + 2))
        = some (redAt img img.pixelData x y) ∧
      setPixelBlack img (x : Int) (y : Int)
        = some { img with pixelData := write3 img.pixelData (pixelOffset img x y) 0 }) ∧
    (∃ b, hasMoreThanTwoColors img = some b) ∧
    (∀ hardwareConcurrency, ∃ out, convertToBlackAndWhite hardwareConcurrency img = some out) ∧
    (∀ x y : Int, ∃ out, setPixelBlack img x y = some out ∧
      out.pixelData.length = img.pixelData.length) ∧
    (∀ (hardwareConcurrency maxIterations : Nat) (cross : Bool),
      ∃ d, displayBMP hardwareConcurrency maxIterations img cross = some d ∧
        (cross = false ∨ (img.infoHeader.width.toNat ≤ maxIterations ∧
          img.infoHeader.height.toNat ≤ maxIterations) → d.finished = true)) := by
  have hb := div8_of_bitCount _ hwf.2.2.1
  refine ⟨?_, ⟨_, hasMoreThanTwoColors_spec img hwf hlen⟩,
    fun hc => ⟨_, convertToBlackAndWhite_eq img hwf hlen hc⟩,
    fun x y => ⟨_, setPixelBlack_spec img hwf hlen img.pixelData rfl x y, length_blackenAt _ _ _⟩,
    fun hc m cross => displayBMP_some img hwf hlen hc m cross⟩
  intro x y hx hy
  have ha := addressable_of_wellFormed img hwf hlen x y hx hy
  obtain ⟨b1, b2, b3, b4⟩ := pixelOffset_bound img hwf x y hx hy
  obtain ⟨a1, a2, a3, a4⟩ := ha
  obtain ⟨r1, r2, r3⟩ := reads_of_fits img x y a1 a2 a3 a4
  have hin : InImage img ((x : Int), (y : Int)) := by
    unfold InImage; simp only; omega
  refine ⟨getPixelIndex_of_fits img x y a1 a2 (by omega), ?_, ?_, ?_, r1, r2, r3,
    setPixelBlack_of_fits img x y hin ⟨a1, a2, a3, a4⟩⟩
  · unfold pixelOffset at b1; omega
  · unfold pixelOffset at a3; exact a3
  · intro x' y' hx' hy' hne
    by_contra hcon
    rw [not_or, not_le, not_le] at hcon
    obtain ⟨c1, c2⟩ := hcon
    rcases Nat.le_total (y * img.rowStride + x * (img.infoHeader.bitCount / 8))
        (y' * img.rowStride + x' * (img.infoHeader.bitCount / 8)) with hle | hle
    · obtain ⟨e1, e2, _⟩ := pixelOffset_unique img hwf x y x' y'
        (y' * img.rowStride + x' * (img.infoHeader.bitCount / 8)
          - (y * img.rowStride + x * (img.infoHeader.bitCount / 8))) 0 hx hx'
        (by omega) (by omega) (by unfold pixelOffset; omega)
      exact hne (by rw [e1, e2])
    · obtain ⟨e1, e2, _⟩ := pixelOffset_unique img hwf x y x' y' 0
        (y * img.rowStride + x * (img.infoHeader.bitCount / 8)
          - (y' * img.rowStride + x' * (img.infoHeader.bitCount / 8))) hx hx'
        (by omega) (by omega) (by unfold pixelOffset; omega)
      exact hne (by rw [e1, e2])

/-- Witness for claim C18: the pixel `(1, 1)` of the 2x2 checker image is at offset 11, and
`displayBMP` with the cross returns. -/
theorem getPixelIndex_safe_witness :
    WellFormed checkerImage ∧ checkerImage.pixelData.length ≤ 2147483648 ∧
      getPixelIndex checkerImage 1 1 = 11 ∧ 11 + 2 < checkerImage.pixelData.length ∧
      ∃ d, displayBMP 4 2 checkerImage true = some d ∧ d.finished = true := by
  obtain ⟨h, -, -, -, hd⟩ := getPixelIndex_safe checkerImage (by decide) (by decide)
  obtain ⟨h1, -, h2, -⟩ := h 1 1 (by decide) (by decide)
  obtain ⟨d, hd1, hd2⟩ := hd 4 2 true
  exact ⟨by decide, by decide, h1, h2, d, hd1, hd2 (Or.inr (by decide))⟩

end ReadBMP
